import Mathlib

/-!
# LMMS remote-plugin RPC core: shared-memory FIFO, message codec, endpoint

A shallow embedding of `include/IPCHelper.h`, `include/RemotePlugin.h` and
`src/core/RemotePlugin.cpp`.

* Bytes are natural numbers (a `char` is a value below 256, the terminator is 0).
* `int`/`int32_t` values are `Int`; conversions to a 32-bit `int` are written
  `toInt32`.
* Memory areas (the FIFO data area, the audio segment, sample buffers) are
  functions from an index to a value; an access is not checked against the
  size of the area.
* Calls run one after the other: nothing else runs while a call sleeps in a
  wait loop. A call that never returns in such a run (a semaphore that is never
  released, a wait loop whose condition never changes), and a call whose C
  behaviour is undefined (a negative byte count handed to `memcpy`), is `none`.
  Wait loops take a `fuel` argument: the number of `usleep` rounds allowed.
* The control channel is the shared-memory FIFO (`SYNC_WITH_SHM_FIFO`); of the
  socket build only `read` and `write` are embedded (`SocketBase`), with the
  socket as the list of results that coming system calls will have.
* The virtual functions that a plugin overrides are a parameter of the client
  (`ClientEnv.hook`); the client's handler returns the list of the calls it made.
* Where another thread matters, its action is a parameter: `readWith during`
  is `read` with `during` run by the other thread in each sleep.
* The audio segment is a `SharedMemorySysV` object; the operating system is a
  list of segments in which `shmget` with `IPC_CREAT | IPC_EXCL` and a size
  from `SHMMIN` to `SHMMAX` succeeds exactly when no live segment has the key;
  other sizes are refused, and key 0 (`IPC_PRIVATE`) always gives a new
  segment. Keys are 32-bit: `++key` at 2147483647 has no defined result.
* Where the order of the calls inside `sendMessage` and `receiveMessage`
  matters, the method is also given as the sequence of its calls on the FIFO
  (`sendWrites`, `sendProgram`, `receiveBody`): after a prefix of the sequence
  the FIFO is in the state that another process sees while the call is under
  way.
-/

namespace Lmms

/-! ## Shared-memory FIFO (`class ShmFifo`, IPCHelper.h) -/

/-- The constant `SHM_FIFO_SIZE = 512*1024` of IPCHelper.h. -/
def SHM_FIFO_SIZE : Int := 512 * 1024

/-- The part of `struct ShmData` behind the two semaphore keys: the two
offsets and the data area, the latter as a function from byte offset to byte. -/
structure ShmData where
  startPtr : Int
  endPtr : Int
  data : Nat → Nat

/-- One `ShmFifo` object. `m_invalid` and `m_lockDepth` belong to the object,
`m_data` is the shared segment, `m_dataSem` and `m_messageSem` are the current
counts of the two system semaphores (`acquire` blocks at count 0, `release`
adds one). -/
structure ShmFifo where
  m_invalid : Bool
  m_lockDepth : Int
  m_data : ShmData
  m_dataSem : Nat
  m_messageSem : Nat

namespace ShmFifo

/-- The master-side constructor `ShmFifo()`: both offsets 0, data semaphore
created with count 1, message semaphore with count 0. `mem` is the content of
the new segment. -/
def master (mem : Nat → Nat) : ShmFifo :=
  { m_invalid := false
    m_lockDepth := 0
    m_data := { startPtr := 0, endPtr := 0, data := mem }
    m_dataSem := 1
    m_messageSem := 0 }

/-- The remote-side constructor `ShmFifo(key_t)`: a new object, valid and with
lock depth 0, attached to the segment and the semaphores of `peer`. -/
def remote (peer : ShmFifo) : ShmFifo :=
  { m_invalid := false
    m_lockDepth := 0
    m_data := peer.m_data
    m_dataSem := peer.m_dataSem
    m_messageSem := peer.m_messageSem }

/-- Method `ShmFifo::isInvalid`. -/
def isInvalid (f : ShmFifo) : Bool := f.m_invalid

/-- Method `ShmFifo::invalidate`. -/
def invalidate (f : ShmFifo) : ShmFifo := { f with m_invalid := true }

/-- Method `ShmFifo::lock`: `if (!isInvalid() && m_lockDepth.fetch_add(1) == 0)
m_dataSem.acquire()`. The increment is skipped on an invalid FIFO (short-circuit
`&&`); `none` when the acquire finds the semaphore at 0. -/
def lock (f : ShmFifo) : Option ShmFifo :=
  if !f.isInvalid then
    let old := f.m_lockDepth
    let f1 := { f with m_lockDepth := old + 1 }
    if old == 0 then
      if f1.m_dataSem = 0 then none else some { f1 with m_dataSem := f1.m_dataSem - 1 }
    else some f1
  else some f

/-- Method `ShmFifo::unlock`: `if (m_lockDepth.fetch_sub(1) <= 1) m_dataSem.release()`. -/
def unlock (f : ShmFifo) : ShmFifo :=
  let old := f.m_lockDepth
  let f1 := { f with m_lockDepth := old - 1 }
  if old ≤ 1 then { f1 with m_dataSem := f1.m_dataSem + 1 } else f1

/-- Method `ShmFifo::waitForMessage`: acquire the message semaphore unless invalid. -/
def waitForMessage (f : ShmFifo) : Option ShmFifo :=
  if !f.isInvalid then
    if f.m_messageSem = 0 then none else some { f with m_messageSem := f.m_messageSem - 1 }
  else some f

/-- Method `ShmFifo::messageSent`: release the message semaphore. -/
def messageSent (f : ShmFifo) : ShmFifo := { f with m_messageSem := f.m_messageSem + 1 }

/-- The `len` bytes of `mem` from offset `off` on: what `fastMemCpy(buf, mem + off, len)`
puts into `buf`. -/
def fetch (mem : Nat → Nat) (off len : Nat) : List Nat :=
  (List.range len).map (fun i => mem (off + i))

/-- The memory after `fastMemCpy(mem + off, buf, len)`: the first `len` bytes of `buf`
are copied to offset `off`. -/
def store (mem : Nat → Nat) (off : Nat) (buf : List Nat) (len : Nat) : Nat → Nat :=
  fun i => if off ≤ i ∧ i < off + len then buf.getD (i - off) 0 else mem i

/-- The call `memmove(data, data + startPtr, endPtr - startPtr)` of `write`. -/
def moveToFront (d : ShmData) : ShmData :=
  { startPtr := 0
    endPtr := d.endPtr - d.startPtr
    data := fun i =>
      if (i : Int) < d.endPtr - d.startPtr then d.data (d.startPtr.toNat + i) else d.data i }

/-- The wait loop of `read`:
`while (isInvalid() == false && len > endPtr - startPtr) { unlock(); usleep(5); lock(); }`. -/
def readWait : Nat → Int → ShmFifo → Option ShmFifo
  | 0, len, f =>
    if f.isInvalid == false && len > f.m_data.endPtr - f.m_data.startPtr then none else some f
  | fuel + 1, len, f =>
    if f.isInvalid == false && len > f.m_data.endPtr - f.m_data.startPtr then
      (f.unlock.lock).bind (readWait fuel len)
    else some f

/-- The tail of `read` after the wait loop: copy `len` bytes from `startPtr`,
advance `startPtr`, reset both offsets when the FIFO is drained, `unlock()`. -/
def readCopy (len : Int) (f : ShmFifo) : Option (List Nat × ShmFifo) :=
  if len < 0 then none
  else
    let buf := fetch f.m_data.data f.m_data.startPtr.toNat len.toNat
    let d1 : ShmData := { f.m_data with startPtr := f.m_data.startPtr + len }
    let d2 : ShmData := if d1.startPtr == d1.endPtr then { d1 with startPtr := 0, endPtr := 0 } else d1
    some (buf, ({ f with m_data := d2 }).unlock)

/-- Method `ShmFifo::read(void * buf, int len)`; the result is the content of `buf`. -/
def read (fuel : Nat) (len : Int) (f : ShmFifo) : Option (List Nat × ShmFifo) :=
  if f.isInvalid then
    if len < 0 then none else some (List.replicate len.toNat 0, f)
  else
    (f.lock).bind fun f1 => (readWait fuel len f1).bind fun f2 => readCopy len f2

/-- The wait loop of `write`:
`while (len > SHM_FIFO_SIZE - endPtr) { if (startPtr > 0) memmove...; unlock(); usleep(5); lock(); }`. -/
def writeWait : Nat → Int → ShmFifo → Option ShmFifo
  | 0, len, f => if len > SHM_FIFO_SIZE - f.m_data.endPtr then none else some f
  | fuel + 1, len, f =>
    if len > SHM_FIFO_SIZE - f.m_data.endPtr then
      let f1 := if f.m_data.startPtr > 0 then { f with m_data := moveToFront f.m_data } else f
      (f1.unlock.lock).bind (writeWait fuel len)
    else some f

/-- The tail of `write` after the wait loop: copy `len` bytes to `endPtr`,
advance `endPtr`, `unlock()`. -/
def writeCopy (buf : List Nat) (len : Int) (f : ShmFifo) : Option ShmFifo :=
  if len < 0 then none
  else
    let d1 : ShmData :=
      { f.m_data with
        data := store f.m_data.data f.m_data.endPtr.toNat buf len.toNat
        endPtr := f.m_data.endPtr + len }
    some ({ f with m_data := d1 }).unlock

/-- Method `ShmFifo::write(const void * buf, int len)`. -/
def write (fuel : Nat) (buf : List Nat) (len : Int) (f : ShmFifo) : Option ShmFifo :=
  if f.isInvalid || len > SHM_FIFO_SIZE then some f
  else
    (f.lock).bind fun f1 => (writeWait fuel len f1).bind fun f2 => writeCopy buf len f2

/-- Conversion to a 32-bit two's-complement `int`. -/
def toInt32 (x : Int) : Int := (x + 2147483648) % 4294967296 - 2147483648

/-- The four bytes of an `int32_t` in memory (little-endian, as on x86). -/
def int32Bytes (i : Int) : List Nat :=
  let u := (i % 4294967296).toNat
  [u % 256, u / 256 % 256, u / 65536 % 256, u / 16777216 % 256]

/-- The `int32_t` stored in four bytes of memory. -/
def bytesInt32 (b : List Nat) : Int :=
  toInt32 ((b.getD 0 0 + 256 * b.getD 1 0 + 65536 * b.getD 2 0 + 16777216 * b.getD 3 0 : Nat) : Int)

/-- Method `ShmFifo::readInt`. -/
def readInt (fuel : Nat) (f : ShmFifo) : Option (Int × ShmFifo) :=
  (read fuel 4 f).map fun r => (bytesInt32 r.1, r.2)

/-- Method `ShmFifo::writeInt`. -/
def writeInt (fuel : Nat) (i : Int) (f : ShmFifo) : Option ShmFifo :=
  write fuel (int32Bytes i) 4 f

/-- Method `ShmFifo::readString`: read the length, then `len` bytes into `sc`, set
`sc[len] = 0` and build `std::string(sc)`, which stops at the first zero byte. -/
def readString (fuel : Nat) (f : ShmFifo) : Option (List Nat × ShmFifo) :=
  (readInt fuel f).bind fun r =>
    if r.1 ≠ 0 then
      (read fuel r.1 r.2).map fun q => (q.1.takeWhile (fun c => c ≠ 0), q.2)
    else some ([], r.2)

/-- Method `ShmFifo::writeString`: `const int len = s.size(); writeInt(len); write(s.c_str(), len)`. -/
def writeString (fuel : Nat) (s : List Nat) (f : ShmFifo) : Option ShmFifo :=
  let len := toInt32 s.length
  (writeInt fuel len f).bind fun f1 => write fuel s len f1

/-- Method `ShmFifo::messagesLeft`. -/
def messagesLeft (f : ShmFifo) : Option (Bool × ShmFifo) :=
  if f.isInvalid then some (false, f)
  else
    (f.lock).map fun f1 =>
      let empty := (f1.m_data.startPtr == f1.m_data.endPtr)
      (!empty, f1.unlock)

/-- The live bytes of the FIFO: the content of `data[startPtr, endPtr)`. -/
def live (f : ShmFifo) : List Nat :=
  fetch f.m_data.data f.m_data.startPtr.toNat (f.m_data.endPtr - f.m_data.startPtr).toNat

/-- The offsets satisfy `0 ≤ startPtr ≤ endPtr ≤ SHM_FIFO_SIZE`. -/
def InBounds (f : ShmFifo) : Prop :=
  0 ≤ f.m_data.startPtr ∧ f.m_data.startPtr ≤ f.m_data.endPtr ∧ f.m_data.endPtr ≤ SHM_FIFO_SIZE

/-- A valid FIFO object that can take the lock: its depth is not negative and,
at depth 0, the data semaphore is free. -/
def Ready (f : ShmFifo) : Prop :=
  f.m_invalid = false ∧ 0 ≤ f.m_lockDepth ∧ (f.m_lockDepth = 0 → 0 < f.m_dataSem)

/-- A valid FIFO object that holds the lock. -/
def Held (f : ShmFifo) : Prop := f.m_invalid = false ∧ 1 ≤ f.m_lockDepth

end ShmFifo

/-! ## Messages and the RPC base class (`RemotePluginBase`, RemotePlugin.h) -/

/-- The enumerators of `enum RemoteMessageIDs` that the base classes use. -/
def IdUndefined : Int := 0
def IdHostInfoGotten : Int := 1
def IdInitDone : Int := 2
def IdQuit : Int := 3
def IdSampleRateInformation : Int := 4
def IdBufferSizeInformation : Int := 5
def IdInformationUpdated : Int := 6
def IdMidiEvent : Int := 7
def IdStartProcessing : Int := 8
def IdProcessingDone : Int := 9
def IdChangeSharedMemoryKey : Int := 10
def IdChangeInputCount : Int := 11
def IdChangeOutputCount : Int := 12
def IdChangeInputOutputCount : Int := 13
def IdShowUI : Int := 14
def IdHideUI : Int := 15
def IdToggleUI : Int := 16
def IdIsUIVisible : Int := 17
def IdSaveSettingsToString : Int := 18
def IdSaveSettingsToFile : Int := 19
def IdLoadSettingsFromString : Int := 20
def IdLoadSettingsFromFile : Int := 21
def IdSavePresetFile : Int := 22
def IdLoadPresetFile : Int := 23
def IdDebugMessage : Int := 24
def IdUserBase : Int := 64

/-- The struct `RemotePluginBase::message`: an id and a vector of strings. -/
structure message where
  id : Int
  data : List (List Nat)
deriving DecidableEq

/-- The default constructor `message()`: id `IdUndefined`, no data. -/
def message.empty : message := { id := IdUndefined, data := [] }

/-- The constructor `message(int _id)`. -/
def message.ofId (id : Int) : message := { id := id, data := [] }

/-- The class `RemotePluginBase` in the `SYNC_WITH_SHM_FIFO` build: the two FIFOs,
the static counter behind `waitDepthCounter()`, and the members `ext` of the
derived class. -/
structure RemotePluginBase (σ : Type) where
  m_in : ShmFifo
  m_out : ShmFifo
  waitDepth : Int
  ext : σ

/-- The virtual `processMessage` of the derived class and the event pump
`QCoreApplication::processEvents` that a busy wait calls. -/
structure Callbacks (σ : Type) where
  processMessage : message → RemotePluginBase σ → Option (Bool × RemotePluginBase σ)
  processEvents : RemotePluginBase σ → RemotePluginBase σ

namespace RemotePluginBase

variable {σ : Type}

/-- Method `RemotePluginBase::isInvalid`: `m_in->isInvalid() || m_out->isInvalid()`. -/
def isInvalid (e : RemotePluginBase σ) : Bool := e.m_in.isInvalid || e.m_out.isInvalid

/-- Method `RemotePluginBase::invalidate`. -/
def invalidate (e : RemotePluginBase σ) : RemotePluginBase σ :=
  { e with m_in := e.m_in.invalidate.messageSent, m_out := e.m_out.invalidate }

/-- The loop of `sendMessage`: `writeString(_m.data[i]); j += 4 + _m.data[i].size();`. -/
def sendArgs (fuel : Nat) : List (List Nat) → ShmFifo → Int → Option (ShmFifo × Int)
  | [], f, j => some (f, j)
  | s :: rest, f, j =>
    (f.writeString fuel s).bind fun f1 =>
      sendArgs fuel rest f1 (ShmFifo.toInt32 (j + 4 + s.length))

/-- Method `RemotePluginBase::sendMessage`; the first component is the returned `int`. -/
def sendMessage (fuel : Nat) (m : message) (e : RemotePluginBase σ) :
    Option (Int × RemotePluginBase σ) :=
  (e.m_out.lock).bind fun o1 =>
  (o1.writeInt fuel m.id).bind fun o2 =>
  (o2.writeInt fuel (ShmFifo.toInt32 m.data.length)).bind fun o3 =>
  (sendArgs fuel m.data o3 8).map fun r =>
    (r.2, { e with m_out := r.1.unlock.messageSent })

/-- The loop of `receiveMessage`: `for (i = 0; i < s; ++i) m.data.push_back(readString())`. -/
def recvArgs (fuel : Nat) : Nat → ShmFifo → Option (List (List Nat) × ShmFifo)
  | 0, f => some ([], f)
  | n + 1, f =>
    (f.readString fuel).bind fun r =>
      (recvArgs fuel n r.2).map fun q => (r.1 :: q.1, q.2)

/-- Method `RemotePluginBase::receiveMessage`. -/
def receiveMessage (fuel : Nat) (e : RemotePluginBase σ) :
    Option (message × RemotePluginBase σ) :=
  (e.m_in.waitForMessage).bind fun i0 =>
  (i0.lock).bind fun i1 =>
  (i1.readInt fuel).bind fun r1 =>
  (r1.2.readInt fuel).bind fun r2 =>
  (recvArgs fuel r2.1.toNat r2.2).map fun r3 =>
    ({ id := r1.1, data := r3.1 }, { e with m_in := r3.2.unlock })

/-- Method `RemotePluginBase::messagesLeft` (host build): `m_in->messagesLeft()`. -/
def messagesLeft (e : RemotePluginBase σ) : Option (Bool × RemotePluginBase σ) :=
  (e.m_in.messagesLeft).map fun r => (r.1, { e with m_in := r.2 })

/-- Method `RemotePluginBase::fetchAndProcessNextMessage`. -/
def fetchAndProcessNextMessage (cb : Callbacks σ) (fuel : Nat) (e : RemotePluginBase σ) :
    Option (message × RemotePluginBase σ) :=
  (receiveMessage fuel e).bind fun r =>
    (cb.processMessage r.1 r.2).map fun q => (r.1, q.2)

/-- Method `RemotePluginBase::fetchAndProcessAllMessages`:
`while (messagesLeft()) fetchAndProcessNextMessage();`, at most `n` rounds. -/
def fetchAndProcessAllMessages (cb : Callbacks σ) (fuel : Nat) :
    Nat → RemotePluginBase σ → Option (RemotePluginBase σ)
  | 0, e => (messagesLeft e).bind fun r => if r.1 then none else some r.2
  | n + 1, e =>
    (messagesLeft e).bind fun r =>
      if r.1 then
        (fetchAndProcessNextMessage cb fuel r.2).bind fun q =>
          fetchAndProcessAllMessages cb fuel n q.2
      else some r.2

/-- The `while (!isInvalid())` loop of `waitForMessage`, at most `n` rounds.
`log` collects, in call order, the messages handed to `processMessage`.
The result is the returned message, the log and the final state; leaving the
loop because the endpoint is invalid returns `message()`. -/
def waitLoop (cb : Callbacks σ) (fuel : Nat) (wm : message) (busy : Bool) :
    Nat → RemotePluginBase σ → List message →
      Option (message × List message × RemotePluginBase σ)
  | 0, e, log => if e.isInvalid then some (message.empty, log, e) else none
  | n + 1, e, log =>
    if e.isInvalid then some (message.empty, log, e)
    else
      (if busy then messagesLeft e else some (true, e)).bind fun l =>
        if busy && !l.1 then
          waitLoop cb fuel wm busy n (cb.processEvents l.2) log
        else
          (receiveMessage fuel l.2).bind fun r =>
          (cb.processMessage r.1 r.2).bind fun q =>
            if r.1.id == wm.id then some (r.1, log ++ [r.1], q.2)
            else if r.1.id == IdUndefined then some (r.1, log ++ [r.1], q.2)
            else waitLoop cb fuel wm busy n q.2 (log ++ [r.1])

/-- Method `RemotePluginBase::waitForMessage`. `mainThread` tells whether the caller
runs on the application's main thread; the `WaitDepthCounter` object raises
`waitDepth` for the duration of a busy wait. The second component of the result
lists the messages that were handed to `processMessage`. -/
def waitForMessage (cb : Callbacks σ) (fuel : Nat) (wm : message) (busy_waiting : Bool)
    (mainThread : Bool) (e : RemotePluginBase σ) :
    Option (message × List message × RemotePluginBase σ) :=
  let busy := busy_waiting && mainThread
  let e0 := if busy then { e with waitDepth := e.waitDepth + 1 } else e
  (waitLoop cb fuel wm busy fuel e0 []).map fun r =>
    (r.1, r.2.1, if busy then { r.2.2 with waitDepth := r.2.2.waitDepth - 1 } else r.2.2)

end RemotePluginBase

/-! ## The host side (`RemotePlugin`, RemotePlugin.cpp) -/

/-- Modelled from the spec: the engine's default channel count, declared in
`lmms_basics.h`, which is not under `src/`; every frame of an engine buffer
holds two samples (`in_buf[64][2]`). -/
def DEFAULT_CHANNELS : Nat := 2

/-- What `process` takes from outside `src/`: the value of
`Engine::mixer()->framesPerPeriod()` and the conversion of an `int` to the
type `ch_cnt_t` of `lmms_basics.h`, which `qMin<ch_cnt_t>` applies to its
arguments. -/
structure Engine where
  framesPerPeriod : Nat
  to_ch_cnt_t : Int → Int

/-- The members of `RemotePlugin` that `process` uses, with `running` for
`m_process.state() != QProcess::NotRunning` and `m_commMutex` for the number of
times the recursive mutex is held. Samples are opaque values that are copied
and cleared, never computed with; sample 0 is written as `0`. A sample buffer
is a function from the index of a `float` to its value, `m_shm = none` is the
null pointer. -/
structure RemotePluginFields where
  m_failed : Bool
  running : Bool
  m_commMutex : Int
  m_splitChannels : Bool
  m_shmSize : Nat
  m_shm : Option (Nat → Int)
  m_inputCount : Int
  m_outputCount : Int

/-- The host object: the base class with the members of `RemotePlugin`. -/
abbrev RemotePlugin := RemotePluginBase RemotePluginFields

namespace RemotePlugin

/-- Modelled from the spec: `BufferManager::clear(ab, frames)`, whose source is
not under `src/`, zeroes the `frames` frames of the buffer. -/
def clear (ab : Nat → Int) (frames : Nat) : Nat → Int :=
  fun i => if i < frames * DEFAULT_CHANNELS then 0 else ab i

/-- Method `RemotePlugin::lock`: `m_commMutex.lock()`. -/
def lock (p : RemotePlugin) : RemotePlugin :=
  { p with ext := { p.ext with m_commMutex := p.ext.m_commMutex + 1 } }

/-- Method `RemotePlugin::unlock`: `m_commMutex.unlock()`. -/
def unlock (p : RemotePlugin) : RemotePlugin :=
  { p with ext := { p.ext with m_commMutex := p.ext.m_commMutex - 1 } }

/-- The assignment `buf[i] = v`. -/
def setAt (buf : Nat → Int) (i : Int) (v : Int) : Nat → Int :=
  fun j => if (j : Int) = i then v else buf j

/-- Two nested loops `for (ch = 0; ch < chs; ++ch) for (frame = 0; frame < frames; ++frame)
dst[dstIdx ch frame] = src[srcIdx ch frame]`. -/
def copyLoops (chs frames : Nat) (dstIdx srcIdx : Nat → Nat → Int) (src dst : Nat → Int) :
    Nat → Int :=
  (List.range chs).foldl
    (fun d ch => (List.range frames).foldl
      (fun d2 frame => setAt d2 (dstIdx ch frame) (src (srcIdx ch frame).toNat)) d)
    dst

/-- The call `memset(m_shm, 0, m_shmSize)`: the floats that lie within the first
`m_shmSize` bytes become 0. -/
def zeroShm (shm : Nat → Int) (size : Nat) : Nat → Int :=
  fun i => if 4 * i + 4 ≤ size then 0 else shm i

/-- The input stage of `process` (lines 321-351): copy the engine's frames
into the segment in one of three layouts. -/
def copyInput (eng : Engine) (split : Bool) (inputCount : Int) (in_buf : Option (Nat → Int))
    (shm : Nat → Int) : Nat → Int :=
  let frames := eng.framesPerPeriod
  let inputs := min (eng.to_ch_cnt_t inputCount) (eng.to_ch_cnt_t DEFAULT_CHANNELS)
  match in_buf with
  | none => shm
  | some inb =>
    if inputs > 0 then
      if split then
        copyLoops inputs.toNat frames (fun ch frame => ch * frames + frame)
          (fun ch frame => frame * DEFAULT_CHANNELS + ch) inb shm
      else if inputs == DEFAULT_CHANNELS then
        fun i => if i < frames * DEFAULT_CHANNELS then inb i else shm i
      else
        copyLoops inputs.toNat frames (fun ch frame => frame * DEFAULT_CHANNELS + ch)
          (fun ch frame => frame * DEFAULT_CHANNELS + ch) inb shm
    else shm

/-- The output stage of `process` (lines 365-398): copy the output region of
the segment to the engine's buffer in one of three layouts. -/
def copyOutput (eng : Engine) (split : Bool) (inputCount outputCount : Int) (shm : Nat → Int)
    (out_buf : Nat → Int) : Nat → Int :=
  let frames := eng.framesPerPeriod
  let outputs := min (eng.to_ch_cnt_t outputCount) (eng.to_ch_cnt_t DEFAULT_CHANNELS)
  if split then
    copyLoops outputs.toNat frames (fun ch frame => frame * DEFAULT_CHANNELS + ch)
      (fun ch frame => (inputCount + ch) * frames + frame) shm out_buf
  else if outputs == DEFAULT_CHANNELS then
    fun i => if i < frames * DEFAULT_CHANNELS then shm (inputCount * frames + i).toNat else out_buf i
  else
    copyLoops (min (DEFAULT_CHANNELS : Int) outputs).toNat frames
      (fun ch frame => frame * DEFAULT_CHANNELS + ch)
      (fun ch frame => inputCount * frames + frame * DEFAULT_CHANNELS + ch) shm
      (clear out_buf frames)

/-- The result of the first half of `process`: it has returned, or it goes on
to wait for `IdProcessingDone`. -/
inductive Stage where
  | returned (ret : Bool) (out_buf : Option (Nat → Int)) (p : RemotePlugin)
  | waiting (out_buf : Nat → Int) (p : RemotePlugin)

/-- Method `RemotePlugin::process` up to the test after `sendMessage(IdStartProcessing)`
(lines 289-360); `none` for a buffer is the null pointer. -/
def processBegin (cb : Callbacks RemotePluginFields) (eng : Engine) (fuel : Nat)
    (in_buf out_buf : Option (Nat → Int)) (p : RemotePlugin) : Option Stage :=
  let frames := eng.framesPerPeriod
  if p.ext.m_failed || !p.ext.running then
    some (Stage.returned false (out_buf.map fun o => clear o frames) p)
  else
    match p.ext.m_shm with
    | none =>
      (if p.ext.m_shmSize == 0 then
          (RemotePluginBase.fetchAndProcessAllMessages cb fuel fuel (lock p)).map unlock
        else some p).map fun p1 =>
        Stage.returned false (out_buf.map fun o => clear o frames) p1
    | some shm =>
      let shm1 := zeroShm shm p.ext.m_shmSize
      let shm2 := copyInput eng p.ext.m_splitChannels p.ext.m_inputCount in_buf shm1
      let p1 : RemotePlugin := lock { p with ext := { p.ext with m_shm := some shm2 } }
      (RemotePluginBase.sendMessage fuel (message.ofId IdStartProcessing) p1).map fun r =>
        let p2 := r.2
        match out_buf with
        | none => Stage.returned false none (unlock p2)
        | some o =>
          if p2.ext.m_failed || p2.ext.m_outputCount == 0 then
            Stage.returned false (some o) (unlock p2)
          else Stage.waiting o p2

/-- Method `RemotePlugin::process` from `waitForMessage(IdProcessingDone)` to the end
(lines 362-400). -/
def processEnd (cb : Callbacks RemotePluginFields) (eng : Engine) (fuel : Nat)
    (out_buf : Nat → Int) (p : RemotePlugin) : Option (Bool × Option (Nat → Int) × RemotePlugin) :=
  (RemotePluginBase.waitForMessage cb fuel (message.ofId IdProcessingDone) false true p).bind
    fun r =>
      let p1 := unlock r.2.2
      match p1.ext.m_shm with
      | none => none
      | some shm =>
        some (true,
          some (copyOutput eng p1.ext.m_splitChannels p1.ext.m_inputCount p1.ext.m_outputCount
            shm out_buf),
          p1)

/-- Method `RemotePlugin::process(_in_buf, _out_buf)`: the returned `bool`, the
content of `_out_buf` on return, and the host object. -/
def process (cb : Callbacks RemotePluginFields) (eng : Engine) (fuel : Nat)
    (in_buf out_buf : Option (Nat → Int)) (p : RemotePlugin) :
    Option (Bool × Option (Nat → Int) × RemotePlugin) :=
  (processBegin cb eng fuel in_buf out_buf p).bind fun st =>
    match st with
    | Stage.returned ret o p1 => some (ret, o, p1)
    | Stage.waiting o p1 => processEnd cb eng fuel o p1

end RemotePlugin

/-! ## Call sequences used to state the properties -/

namespace ShmFifo

/-- The method `lock()` called `n` times in a row. -/
def lockTimes : Nat → ShmFifo → Option ShmFifo
  | 0, f => some f
  | n + 1, f => (f.lock).bind (lockTimes n)

/-- The method `unlock()` called `n` times in a row. -/
def unlockTimes : Nat → ShmFifo → ShmFifo
  | 0, f => f
  | n + 1, f => unlockTimes n f.unlock

/-- One call on a FIFO: `write(b, len(b))` or `read(buf, len)`. -/
inductive FifoCall where
  | write (b : List Nat)
  | read (len : Nat)

/-- Run a sequence of calls one after the other; the result lists what the
reads returned, in call order. -/
def runCalls (fuel : Nat) : List FifoCall → ShmFifo → Option (List (List Nat) × ShmFifo)
  | [], f => some ([], f)
  | FifoCall.write b :: cs, f => (write fuel b b.length f).bind (runCalls fuel cs)
  | FifoCall.read n :: cs, f =>
    (read fuel n f).bind fun r => (runCalls fuel cs r.2).map fun q => (r.1 :: q.1, q.2)

/-- The blocks written by a sequence of calls, in call order. -/
def writtenBlocks : List FifoCall → List (List Nat)
  | [] => []
  | FifoCall.write b :: cs => b :: writtenBlocks cs
  | FifoCall.read _ :: cs => writtenBlocks cs

/-- The number of reads in a sequence of calls. -/
def readCount : List FifoCall → Nat
  | [] => 0
  | FifoCall.write _ :: cs => readCount cs
  | FifoCall.read _ :: cs => readCount cs + 1

/-- The interleavings of the FIFO ordering property. `pending` are the blocks
written and not yet read. A write must keep the number of live bytes within
`SHM_FIFO_SIZE`; a read must come after the write of its block (a pending
block exists) and ask for exactly the length of the oldest pending block. -/
def admissible : List (List Nat) → List FifoCall → Bool
  | _, [] => true
  | pending, FifoCall.write b :: cs =>
    decide (((pending.flatten.length : Int) + b.length) ≤ SHM_FIFO_SIZE) &&
      admissible (pending ++ [b]) cs
  | [], FifoCall.read _ :: _ => false
  | p :: pending, FifoCall.read n :: cs => (n == p.length) && admissible pending cs

end ShmFifo

/-! ## The wire form of a message, as the specification words it -/

/-- The wire form of one argument in the words of the specification:
`arg := len:i32 bytes[0..len)`, no terminator. -/
def wireArg (a : List Nat) : List Nat := ShmFifo.int32Bytes a.length ++ a

/-- The wire form of a message in the words of the specification:
`message := id:i32 argc:i32 arg[0..argc)`. -/
def wire (m : message) : List Nat :=
  ShmFifo.int32Bytes m.id ++ ShmFifo.int32Bytes m.data.length ++ m.data.flatMap wireArg

/-- The encoded size of a message: `8 + sum (4 + len(arg))`. -/
def encodedSize (m : message) : Nat := 8 + (m.data.map fun a => 4 + a.length).sum

/-- A string cut at its first zero byte: what `std::string(const char *)` keeps. -/
def cString (a : List Nat) : List Nat := a.takeWhile fun c => c ≠ 0

/-- A message with every argument cut at its first zero byte. -/
def message.cStrings (m : message) : message := { id := m.id, data := m.data.map cString }

namespace RemotePluginBase

variable {σ : Type}

/-- The calls `sendMessage(m_1); ...; sendMessage(m_n)` on one endpoint. -/
def sendAll (fuel : Nat) : List message → RemotePluginBase σ → Option (RemotePluginBase σ)
  | [], e => some e
  | m :: ms, e => (sendMessage fuel m e).bind fun r => sendAll fuel ms r.2

/-- The method `receiveMessage()` called `n` times on one endpoint; the messages in call order. -/
def receiveTimes (fuel : Nat) : Nat → RemotePluginBase σ → Option (List message × RemotePluginBase σ)
  | 0, e => some ([], e)
  | n + 1, e =>
    (receiveMessage fuel e).bind fun r =>
      (receiveTimes fuel n r.2).map fun q => (r.1 :: q.1, q.2)

/-- The peer's view of an endpoint: a new endpoint whose in-FIFO is the
remote-side object on the segment of `e`'s out-FIFO, and whose out-FIFO is the
remote-side object on `e`'s in-FIFO (the keys are swapped for the child). -/
def peer (e : RemotePluginBase σ) (ext : σ) : RemotePluginBase σ :=
  { m_in := ShmFifo.remote e.m_out, m_out := ShmFifo.remote e.m_in, waitDepth := 0, ext := ext }

/-- The total encoded size of a list of messages. -/
def totalSize (ms : List message) : Nat := (ms.map encodedSize).sum

end RemotePluginBase

/-! ## Concrete hosts used as examples -/

namespace RemotePlugin

/-- Callbacks of a host whose `processMessage` accepts every message and
changes nothing, and whose event pump does nothing. -/
def ignoreAll : Callbacks RemotePluginFields :=
  { processMessage := fun _ e => some (true, e), processEvents := id }

/-- An engine with the given number of frames per period and an unsigned 8-bit
`ch_cnt_t`. -/
def exampleEngine (frames : Nat) : Engine :=
  { framesPerPeriod := frames, to_ch_cnt_t := fun x => x % 256 }

/-- A host on a pair of fresh FIFOs with two inputs, non-split channels and an
empty mutex; the flags, the audio segment and the output count are given. -/
def exampleHost (failed running : Bool) (shm : Option (Nat → Int)) (outputs : Int) :
    RemotePlugin :=
  { m_in := ShmFifo.master fun _ => 0
    m_out := ShmFifo.master fun _ => 0
    waitDepth := 0
    ext :=
      { m_failed := failed
        running := running
        m_commMutex := 0
        m_splitChannels := false
        m_shmSize := 0
        m_shm := shm
        m_inputCount := 2
        m_outputCount := outputs } }

end RemotePlugin

/-! ## A read whose wait is interrupted by another thread -/

namespace ShmFifo

/-- The wait loop of `read` when other threads of the process run during
`usleep(5)`: `during` is what they do to this object in each sleep, between the
`unlock()` and the `lock()` of the loop body. -/
def readWaitWith (during : ShmFifo → ShmFifo) : Nat → Int → ShmFifo → Option ShmFifo
  | 0, len, f =>
    if f.isInvalid == false && len > f.m_data.endPtr - f.m_data.startPtr then none else some f
  | fuel + 1, len, f =>
    if f.isInvalid == false && len > f.m_data.endPtr - f.m_data.startPtr then
      ((during f.unlock).lock).bind (readWaitWith during fuel len)
    else some f

/-- Method `ShmFifo::read` when other threads run during the sleeps of its
wait loop; with `during = id` this is `read`. -/
def readWith (during : ShmFifo → ShmFifo) (fuel : Nat) (len : Int) (f : ShmFifo) :
    Option (List Nat × ShmFifo) :=
  if f.isInvalid then
    if len < 0 then none else some (List.replicate len.toNat 0, f)
  else
    (f.lock).bind fun f1 => (readWaitWith during fuel len f1).bind fun f2 => readCopy len f2

end ShmFifo

/-! ## System-V shared memory (`class SharedMemorySysV`, IPCHelper.h) -/

/-- One segment as the operating system keeps it: its key, its identifier, its
size in bytes, and whether `IPC_RMID` has been requested for it (its key is
then free again). -/
structure Segment where
  key : Int
  shmid : Nat
  size : Nat
  removed : Bool
deriving DecidableEq

/-- The operating system's side of System-V shared memory: the segments, the
addresses at which the calling process has a segment attached, and the next
identifier to hand out. A segment is attached at the address that equals its
identifier. -/
structure SysV where
  segments : List Segment
  attached : List Nat
  nextId : Nat
deriving DecidableEq

namespace SysV

/-- A key is in use when a segment that is not removed carries it. -/
def keyInUse (os : SysV) (key : Int) : Bool :=
  os.segments.any fun s => s.key == key && !s.removed

/-- The smallest size in bytes that `shmget` accepts for a new segment
(`SHMMIN` of the Linux kernel). -/
def SHMMIN : Nat := 1

/-- The largest size in bytes that `shmget` accepts for a new segment
(`SHMMAX`; `ULONG_MAX - (1 << 24)` on a 64-bit Linux kernel unless the
administrator has changed it). -/
def SHMMAX : Nat := 18446744073692774399

/-- The call `shmget(key, size, IPC_CREAT | IPC_EXCL | 0600)`: -1 (`EINVAL`)
when the size is below `SHMMIN` or above `SHMMAX`; for key 0, which is
`IPC_PRIVATE`, always a new segment; for every other key a new segment and its
identifier when the key is not in use, -1 (`EEXIST`) when it is. -/
def shmgetCreate (os : SysV) (key : Int) (size : Nat) : Int × SysV :=
  if size < SHMMIN || size > SHMMAX then (-1, os)
  else if key != 0 && os.keyInUse key then (-1, os)
  else
    ((os.nextId : Int),
      { os with
        segments := os.segments ++ [{ key := key, shmid := os.nextId, size := size, removed := false }]
        nextId := os.nextId + 1 })

/-- The call `shmget(key, 0, readOnly ? 0400 : 0600)`: for key 0, which is
`IPC_PRIVATE`, -1 (a new segment of size 0 is refused); for every other key the
identifier of the segment with that key, -1 when there is none. Access modes
are not modelled. -/
def shmgetFind (os : SysV) (key : Int) (_readOnly : Bool) : Int :=
  if key == 0 then -1
  else
    match os.segments.find? (fun s => s.key == key && !s.removed) with
    | some s => (s.shmid : Int)
    | none => -1

/-- The call `shmat(shmid, 0, readOnly ? SHM_RDONLY : 0)`: the address of the
attachment, `none` for the failure value `(void*)-1`. -/
def shmat (os : SysV) (shmid : Int) (_readOnly : Bool) : Option Nat × SysV :=
  match os.segments.find? (fun s => (s.shmid : Int) == shmid) with
  | some s => (some s.shmid, { os with attached := s.shmid :: os.attached })
  | none => (none, os)

/-- The call `shmdt(addr)`: 0 when `addr` is the address of an attachment,
which is then dropped, -1 otherwise (a null pointer included). -/
def shmdt (os : SysV) (addr : Option Nat) : Int × SysV :=
  match addr with
  | some a =>
    if a ∈ os.attached then (0, { os with attached := os.attached.erase a }) else (-1, os)
  | none => (-1, os)

/-- The call `shmctl(shmid, IPC_RMID, nullptr)`: the result, whether `errno`
is `EINVAL` after a failure, and the new state. The only failure is an
identifier that names no segment. -/
def shmctlRmid (os : SysV) (shmid : Int) : Int × Bool × SysV :=
  if os.segments.any (fun s => (s.shmid : Int) == shmid && !s.removed) then
    (0, false,
      { os with
        segments := os.segments.map fun s =>
          if (s.shmid : Int) == shmid then { s with removed := true } else s })
  else (-1, true, os)

/-- The call `shmctl(shmid, IPC_STAT, &ds)`: the size `ds.shm_segsz`, `none`
when the call returns -1. -/
def shmctlStat (os : SysV) (shmid : Int) : Option Nat :=
  (os.segments.find? (fun s => (s.shmid : Int) == shmid)).map fun s => s.size

end SysV

/-- The members of `class SharedMemorySysV`; `m_data = none` is the null
pointer. -/
structure SharedMemorySysV where
  m_key : Int
  m_shmID : Int
  m_data : Option Nat
  m_size : Nat
  m_isMaster : Bool
deriving DecidableEq

namespace SharedMemorySysV

/-- The constructor `SharedMemorySysV(key_t key = 1)`. -/
def construct (key : Int) : SharedMemorySysV :=
  { m_key := key, m_shmID := -1, m_data := none, m_size := 0, m_isMaster := false }

/-- Method `SharedMemorySysV::attach(readOnly)`: the returned pointer, the
object and the operating system. -/
def attach (readOnly : Bool) (h : SharedMemorySysV) (os : SysV) :
    Option Nat × SharedMemorySysV × SysV :=
  if h.m_shmID == -1 then (none, h, os)
  else
    let h1 := if !h.m_isMaster then { h with m_shmID := os.shmgetFind h.m_key readOnly } else h
    if !h.m_isMaster && h1.m_shmID == -1 then (none, h1, os)
    else
      let r := os.shmat h1.m_shmID readOnly
      let h2 : SharedMemorySysV :=
        match r.1 with
        | some a => { h1 with m_data := some a }
        | none => { h1 with m_size := 0, m_data := none }
      let h3 : SharedMemorySysV :=
        if !h2.m_isMaster then
          match r.2.shmctlStat h2.m_shmID with
          | some sz => { h2 with m_size := sz }
          | none => h2
        else h2
      (h3.m_data, h3, r.2)

/-- Method `SharedMemorySysV::detach`: the returned `bool`, the object and the
operating system. -/
def detach (h : SharedMemorySysV) (os : SysV) : Bool × SharedMemorySysV × SysV :=
  if h.m_shmID == -1 then (false, h, os)
  else
    let h1 := { h with m_size := 0 }
    let r := os.shmdt h1.m_data
    if r.1 != -1 then (false, h1, r.2)
    else
      let h2 := { h1 with m_data := none }
      if h2.m_isMaster then
        let c := r.2.shmctlRmid h2.m_shmID
        if c.1 == -1 && !c.2.1 then (false, h2, c.2.2)
        else (true, { h2 with m_shmID := -1 }, c.2.2)
      else (true, { h2 with m_shmID := -1 }, r.2)

/-- Method `SharedMemorySysV::setKey`: `this->detach(); m_key = key;`. -/
def setKey (key : Int) (h : SharedMemorySysV) (os : SysV) : SharedMemorySysV × SysV :=
  let d := detach h os
  ({ d.2.1 with m_key := key }, d.2.2)

/-- Method `SharedMemorySysV::create(size)`: the returned pointer, the object
and the operating system. -/
def create (size : Nat) (h : SharedMemorySysV) (os : SysV) :
    Option Nat × SharedMemorySysV × SysV :=
  let g := os.shmgetCreate h.m_key size
  let h1 := { h with m_shmID := g.1 }
  if h1.m_shmID == -1 then (none, h1, g.2)
  else attach false { h1 with m_isMaster := true, m_size := size } g.2

end SharedMemorySysV

/-- The function `createShmWithFreeKey(shm, size, key)`:
`do { shm.setKey(++key); } while (!shm.create(size)); return shm.get();`, with
at most `fuel` repetitions of the loop body. The result is the returned
pointer, the object, the counter `key` and the operating system. The counter
is a `key_t`, a 32-bit `int`: `++key` at 2147483647 overflows, the behaviour is
undefined and the result is `none`. -/
def createShmWithFreeKey :
    Nat → SharedMemorySysV → Nat → Int → SysV →
      Option (Option Nat × SharedMemorySysV × Int × SysV)
  | 0, shm, size, key, os =>
    if key + 1 > 2147483647 then none
    else
      let s := SharedMemorySysV.setKey (key + 1) shm os
      let c := SharedMemorySysV.create size s.1 s.2
      if c.1.isNone then none else some (c.2.1.m_data, c.2.1, key + 1, c.2.2)
  | fuel + 1, shm, size, key, os =>
    if key + 1 > 2147483647 then none
    else
      let s := SharedMemorySysV.setKey (key + 1) shm os
      let c := SharedMemorySysV.create size s.1 s.2
      if c.1.isNone then createShmWithFreeKey fuel c.2.1 size (key + 1) c.2.2
      else some (c.2.1.m_data, c.2.1, key + 1, c.2.2)

/-- An operating system without segments. -/
def SysV.empty : SysV := { segments := [], attached := [], nextId := 0 }

/-- A master object right after `create(1024)` at key 5 in an operating system
without segments: the returned pointer, the object, the operating system. -/
def exampleMaster : Option Nat × SharedMemorySysV × SysV :=
  SharedMemorySysV.create 1024 (SharedMemorySysV.construct 5) SysV.empty

/-- An operating system in which keys 1 and 2 are in use. -/
def exampleKeysInUse : SysV :=
  { segments := [{ key := 1, shmid := 0, size := 16, removed := false }, { key := 2, shmid := 1, size := 16, removed := false }]
    attached := []
    nextId := 2 }

/-! ## Integers as message arguments (`message::addInt`, `message::getInt`) -/

/-- The decimal digits of a number as characters, most significant first;
`fuel` bounds the number of digits. -/
def decimalDigits : Nat → Nat → List Nat
  | 0, _ => []
  | fuel + 1, n => if n < 10 then [48 + n] else decimalDigits fuel (n / 10) ++ [48 + n % 10]

/-- The characters that `sprintf(buf, "%d", i)` writes for an `int`: a minus
sign for a negative value, then at most ten digits. -/
def sprintf_d (i : Int) : List Nat :=
  if i < 0 then 45 :: decimalDigits 10 i.natAbs else decimalDigits 10 i.natAbs

/-- The C function `isspace` in the "C" locale. -/
def isspace (c : Nat) : Bool := c == 32 || (9 ≤ c && c ≤ 13)

/-- The C function `isdigit`. -/
def isdigit (c : Nat) : Bool := 48 ≤ c && c ≤ 57

/-- The value of the leading decimal digits of a string, continuing from `acc`. -/
def digitsValue : List Nat → Nat → Nat
  | [], acc => acc
  | c :: cs, acc => if isdigit c then digitsValue cs (acc * 10 + (c - 48)) else acc

/-- The C function `atoi`: white space is skipped, then an optional sign and
the leading digits are converted; `none` when the value is not representable
as an `int` (the behaviour is undefined then). -/
def atoi (s : List Nat) : Option Int :=
  let t := s.dropWhile isspace
  let v : Int :=
    match t with
    | 45 :: r => -(digitsValue r 0 : Int)
    | 43 :: r => (digitsValue r 0 : Int)
    | _ => (digitsValue t 0 : Int)
  if -2147483648 ≤ v ∧ v ≤ 2147483647 then some v else none

/-- Method `message::addString`. -/
def message.addString (m : message) (s : List Nat) : message := { m with data := m.data ++ [s] }

/-- Method `message::addInt(int _i)`; the argument is converted to `int` at
the call. -/
def message.addInt (m : message) (i : Int) : message :=
  { m with data := m.data ++ [sprintf_d (ShmFifo.toInt32 i)] }

/-- Method `message::getInt(int _p = 0)`: `atoi(data[_p].c_str())`; `none` when
`data[_p]` does not exist. -/
def message.getInt (m : message) (p : Int) : Option Int :=
  if p < 0 then none else (m.data.get? p.toNat).bind fun a => atoi (cString a)

/-! ## More of the host side: `resizeSharedProcessingMemory`, `isUIVisible` -/

/-- What `resizeSharedProcessingMemory` uses besides `RemotePluginFields`: the
member `m_shmObj`, the function-static counter `shmKey`, and the operating
system. -/
structure AudioShm where
  m_shmObj : SharedMemorySysV
  shmKey : Int
  os : SysV

namespace RemotePlugin

/-- Method `RemotePlugin::resizeSharedProcessingMemory`. The product of the
channel count and the frame count is an `int` (`none` when it overflows), the
multiplication by `sizeof(float)` is done in the 64-bit `size_t`. A new
segment reads as zeros. -/
def resizeSharedProcessingMemory (eng : Engine) (fuel : Nat) (a : AudioShm) (p : RemotePlugin) :
    Option (AudioShm × RemotePlugin) :=
  let n : Int := (p.ext.m_inputCount + p.ext.m_outputCount) * eng.framesPerPeriod
  if n < -2147483648 ∨ 2147483647 < n then none
  else
    let s : Nat := ((n * 4) % 18446744073709551616).toNat
    let d := if p.ext.m_shm.isSome then a.m_shmObj.detach a.os else (false, a.m_shmObj, a.os)
    (createShmWithFreeKey fuel d.2.1 s a.shmKey d.2.2).bind fun c =>
      let p1 : RemotePlugin := { p with ext := { p.ext with m_shm := c.1.map fun _ => fun _ => 0 } }
      (RemotePluginBase.sendMessage fuel
          (((message.ofId IdChangeSharedMemoryKey).addInt c.2.2.1).addInt p.ext.m_shmSize) p1).map
        fun r => ({ m_shmObj := c.2.1, shmKey := c.2.2.1, os := c.2.2.2 }, r.2)

/-- Method `RemotePlugin::isUIVisible`: the returned `int` and the host object. -/
def isUIVisible (cb : Callbacks RemotePluginFields) (fuel : Nat) (mainThread : Bool)
    (p : RemotePlugin) : Option (Int × RemotePlugin) :=
  (RemotePluginBase.sendMessage fuel (message.ofId IdIsUIVisible) (lock p)).bind fun s =>
  (RemotePluginBase.waitForMessage cb fuel (message.ofId IdIsUIVisible) false mainThread
      (unlock s.2)).bind fun w =>
    if w.1.id != IdIsUIVisible then some (-1, w.2.2)
    else (w.1.getInt 0).map fun v => (if v != 0 then 1 else 0, w.2.2)

end RemotePlugin

/-! ## A client that passes the audio through -/

/-- An object on a FIFO after the peer's object has worked on the shared
segment and semaphores: its own flag and lock depth, the shared parts as the
peer left them. -/
def ShmFifo.sync (mine theirs : ShmFifo) : ShmFifo :=
  { mine with m_data := theirs.m_data, m_dataSem := theirs.m_dataSem, m_messageSem := theirs.m_messageSem }

namespace RemotePlugin

/-- The `process` of a pass-through client with `c` inputs and `c` outputs and
`f` frames: the input region `[0, c*f)` of the audio segment is copied to the
output region `[c*f, 2*c*f)`. -/
def passThrough (c f : Nat) (shm : Nat → Int) : Nat → Int :=
  fun i => if c * f ≤ i ∧ i < 2 * c * f then shm (i - c * f) else shm i

/-- One round of the pass-through client on the other side of the host `p`:
it receives a message, which has to be `IdStartProcessing`, runs its `process`
on the audio segment and sends `IdProcessingDone`. The result is the host
object afterwards. -/
def passThroughServe (fuel c f : Nat) (p : RemotePlugin) : Option RemotePlugin :=
  (RemotePluginBase.receiveMessage fuel
      ({ m_in := ShmFifo.remote p.m_out, m_out := ShmFifo.remote p.m_in, waitDepth := 0, ext := () } :
        RemotePluginBase Unit)).bind fun r =>
    if r.1.id == IdStartProcessing then
      (RemotePluginBase.sendMessage fuel (message.ofId IdProcessingDone) r.2).map fun q =>
        { p with
          m_in := p.m_in.sync q.2.m_out
          m_out := p.m_out.sync q.2.m_in
          ext := { p.ext with m_shm := p.ext.m_shm.map (passThrough c f) } }
    else none

/-- The call `process(in_buf, out_buf)` of the host with the pass-through
client serving the round while the host waits for `IdProcessingDone`. -/
def processWithClient (cb : Callbacks RemotePluginFields) (eng : Engine) (fuel c : Nat)
    (in_buf out_buf : Option (Nat → Int)) (p : RemotePlugin) :
    Option (Bool × Option (Nat → Int) × RemotePlugin) :=
  (processBegin cb eng fuel in_buf out_buf p).bind fun st =>
    match st with
    | Stage.returned ret o p1 => some (ret, o, p1)
    | Stage.waiting o p1 =>
      (passThroughServe fuel c eng.framesPerPeriod p1).bind fun p2 => processEnd cb eng fuel o p2

/-- A valid running host on a pair of fresh FIFOs with `c` inputs and `c`
outputs and the given audio segment. -/
def exampleHostChannels (split : Bool) (c : Int) (shm : Nat → Int) : RemotePlugin :=
  { m_in := ShmFifo.master fun _ => 0
    m_out := ShmFifo.master fun _ => 0
    waitDepth := 0
    ext :=
      { m_failed := false
        running := true
        m_commMutex := 0
        m_splitChannels := split
        m_shmSize := 0
        m_shm := some shm
        m_inputCount := c
        m_outputCount := c } }

/-- A valid running host whose in-FIFO holds `bytes`, with `count` messages
announced on the message semaphore. -/
def exampleHostPending (bytes : List Nat) (count : Nat) : RemotePlugin :=
  { exampleHost false true none 2 with
    m_in :=
      { m_invalid := false
        m_lockDepth := 0
        m_data := { startPtr := 0, endPtr := bytes.length, data := fun i => bytes.getD i 0 }
        m_dataSem := 1
        m_messageSem := count } }

end RemotePlugin

/-! ## The two message handlers (`RemotePlugin::processMessage`, `RemotePluginClient::processMessage`) -/

/-- Method `message::getString(int _p = 0)`: `data[_p]`; `none` when it does
not exist. -/
def message.getString (m : message) (p : Int) : Option (List Nat) :=
  if p < 0 then none else m.data.get? p.toNat

/-- The characters of a C string literal. -/
def cBytes (s : String) : List Nat := s.toList.map Char.toNat

/-- Modelled from the spec: class `MidiEvent` of `MidiEvent.h`, which is not
under `src/`: the type, the channel and the two parameters of an event, kept
as the `int`s the event is built from and read back as. -/
structure MidiEvent where
  type : Int
  channel : Int
  param0 : Int
  param1 : Int
deriving DecidableEq

namespace RemotePlugin

/-- The message that `RemotePlugin::processMidiEvent(_e, _offset)` builds. -/
def midiMessage (e : MidiEvent) (offset : Int) : message :=
  (((((message.ofId IdMidiEvent).addInt e.type).addInt e.channel).addInt e.param0).addInt
    e.param1).addInt offset

/-- Method `RemotePlugin::processMidiEvent`. -/
def processMidiEvent (fuel : Nat) (e : MidiEvent) (offset : Int) (p : RemotePlugin) :
    Option RemotePlugin :=
  (RemotePluginBase.sendMessage fuel (midiMessage e offset) (lock p)).map fun r => unlock r.2

/-- Method `RemotePlugin::processMessage`: the returned `bool`, the audio
segment object with its key counter, and the host object.
`processingSampleRate` is the value of `Engine::mixer()->processingSampleRate()`.
The output of `fprintf(stderr, ...)` is not kept. -/
def processMessage (eng : Engine) (processingSampleRate : Int) (fuel : Nat) (m : message)
    (a : AudioShm) (p : RemotePlugin) : Option (Bool × AudioShm × RemotePlugin) :=
  let p0 := lock p
  let reply_message := message.ofId m.id
  if m.id == IdUndefined then some (false, a, unlock p0)
  else
    let step : Option (Bool × message × AudioShm × RemotePlugin) :=
      if m.id == IdInitDone then some (true, reply_message, a, p0)
      else if m.id == IdSampleRateInformation then
        some (true, reply_message.addInt processingSampleRate, a, p0)
      else if m.id == IdBufferSizeInformation then
        some (true, reply_message.addInt eng.framesPerPeriod, a, p0)
      else if m.id == IdChangeInputCount then
        (m.getInt 0).bind fun i =>
          (resizeSharedProcessingMemory eng fuel a
            { p0 with ext := { p0.ext with m_inputCount := i } }).map fun r =>
              (false, reply_message, r.1, r.2)
      else if m.id == IdChangeOutputCount then
        (m.getInt 0).bind fun o =>
          (resizeSharedProcessingMemory eng fuel a
            { p0 with ext := { p0.ext with m_outputCount := o } }).map fun r =>
              (false, reply_message, r.1, r.2)
      else if m.id == IdChangeInputOutputCount then
        (m.getInt 0).bind fun i =>
          (m.getInt 1).bind fun o =>
            (resizeSharedProcessingMemory eng fuel a
              { p0 with ext := { p0.ext with m_inputCount := i, m_outputCount := o } }).map fun r =>
                (false, reply_message, r.1, r.2)
      else if m.id == IdDebugMessage then
        (m.getString 0).map fun _ => (false, reply_message, a, p0)
      else some (false, reply_message, a, p0)
    step.bind fun s =>
      (if s.1 then (RemotePluginBase.sendMessage fuel s.2.1 s.2.2.2).map fun r => r.2
        else some s.2.2.2).map fun p1 => (true, s.2.2.1, unlock p1)

end RemotePlugin

/-- One call of a virtual function of `RemotePluginClient` that the plugin
overrides. A pointer into the audio segment is the address of the segment and
an offset in `float`s; `none` is the null pointer. -/
inductive HookCall where
  | process (in_buf : Option (Nat × Int)) (out_buf : Nat × Int)
  | processMidiEvent (e : MidiEvent) (offset : Int)
  | updateSampleRate
  | updateBufferSize
deriving DecidableEq

/-- The members of `RemotePluginClient`, with the operating system that its
`m_shmObj` works on; `m_shm = none` is the null pointer, otherwise the address
of the attached segment. -/
structure ClientFields where
  m_shmObj : SharedMemorySysV
  os : SysV
  m_shm : Option Nat
  m_inputCount : Int
  m_outputCount : Int
  m_sampleRate : Int
  m_bufferSize : Int

/-- The client object: the base class with the members of `RemotePluginClient`. -/
abbrev RemotePluginClient := RemotePluginBase ClientFields

/-- What the client takes from outside `src/`: the plugin's overrides of the
virtual functions (`hook`), the text `strerror(errno)`, and the conversions
of an `int` to the types `sample_rate_t` and `fpp_t` of `lmms_basics.h`. -/
structure ClientEnv where
  hook : HookCall → RemotePluginClient → Option RemotePluginClient
  strerror : List Nat
  to_sample_rate_t : Int → Int
  to_fpp_t : Int → Int

namespace RemotePluginClient

/-- Method `RemotePluginClient::debugMessage`. -/
def debugMessage (fuel : Nat) (s : List Nat) (c : RemotePluginClient) : Option RemotePluginClient :=
  (RemotePluginBase.sendMessage fuel ((message.ofId IdDebugMessage).addString s) c).map fun r => r.2

/-- Method `RemotePluginClient::setShmKey(_key, _size)`. -/
def setShmKey (env : ClientEnv) (fuel : Nat) (key _size : Int) (c : RemotePluginClient) :
    Option RemotePluginClient :=
  let s := c.ext.m_shmObj.setKey key c.ext.os
  let att := SharedMemorySysV.attach false s.1 s.2
  let c1 : RemotePluginClient :=
    { c with ext := { c.ext with m_shmObj := att.2.1, os := att.2.2, m_shm := att.1 } }
  if att.1.isNone then
    debugMessage fuel (cBytes "failed getting shared memory: " ++ env.strerror ++ cBytes "\n") c1
  else some c1

/-- Method `RemotePluginClient::doProcessing`: the calls of virtual functions
it made, and the client object. -/
def doProcessing (env : ClientEnv) (fuel : Nat) (c : RemotePluginClient) :
    Option (List HookCall × RemotePluginClient) :=
  match c.ext.m_shm with
  | some base =>
    (env.hook
        (HookCall.process (if c.ext.m_inputCount > 0 then some (base, 0) else none)
          (base, c.ext.m_inputCount * c.ext.m_bufferSize)) c).map fun c1 =>
      ([HookCall.process (if c.ext.m_inputCount > 0 then some (base, 0) else none)
          (base, c.ext.m_inputCount * c.ext.m_bufferSize)], c1)
  | none =>
    (debugMessage fuel (cBytes "doProcessing(): have no shared memory!\n") c).map fun c1 => ([], c1)

/-- Method `RemotePluginClient::processMessage`: the returned `bool`, the
calls of virtual functions it made, in order, and the client object. -/
def processMessage (env : ClientEnv) (fuel : Nat) (m : message) (c : RemotePluginClient) :
    Option (Bool × List HookCall × RemotePluginClient) :=
  let reply_message := message.ofId m.id
  if m.id == IdUndefined then some (false, [], c)
  else if m.id == IdQuit then some (false, [], c)
  else
    let step : Option (Bool × message × List HookCall × RemotePluginClient) :=
      if m.id == IdSampleRateInformation then
        (m.getInt 0).bind fun v =>
          (env.hook HookCall.updateSampleRate
            { c with ext := { c.ext with m_sampleRate := env.to_sample_rate_t v } }).map fun c1 =>
              (true, { reply_message with id := IdInformationUpdated },
                [HookCall.updateSampleRate], c1)
      else if m.id == IdBufferSizeInformation then
        (m.getInt 0).bind fun v =>
          (env.hook HookCall.updateBufferSize
            { c with ext := { c.ext with m_bufferSize := env.to_fpp_t v } }).map fun c1 =>
              (false, reply_message, [HookCall.updateBufferSize], c1)
      else if m.id == IdMidiEvent then
        (m.getInt 0).bind fun t =>
        (m.getInt 1).bind fun ch =>
        (m.getInt 2).bind fun p0 =>
        (m.getInt 3).bind fun p1 =>
        (m.getInt 4).bind fun off =>
          (env.hook (HookCall.processMidiEvent ⟨t, ch, p0, p1⟩ off) c).map fun c1 =>
            (false, reply_message, [HookCall.processMidiEvent ⟨t, ch, p0, p1⟩ off], c1)
      else if m.id == IdStartProcessing then
        (doProcessing env fuel c).map fun r =>
          (true, { reply_message with id := IdProcessingDone }, r.1, r.2)
      else if m.id == IdChangeSharedMemoryKey then
        (m.getInt 0).bind fun k =>
        (m.getInt 1).bind fun sz =>
          (setShmKey env fuel k sz c).map fun c1 => (false, reply_message, [], c1)
      else if m.id == IdInitDone then some (false, reply_message, [], c)
      else
        (debugMessage fuel
          (cBytes "undefined message: " ++ sprintf_d (ShmFifo.toInt32 m.id) ++ cBytes "\n") c).map
          fun c1 => (false, reply_message, [], c1)
    step.bind fun s =>
      (if s.1 then (RemotePluginBase.sendMessage fuel s.2.1 s.2.2.2).map fun r => r.2
        else some s.2.2.2).map fun c1 => (true, s.2.2.1, c1)

end RemotePluginClient

/-! ## Sequences of `sendMessage` and `receiveMessage` calls on one channel -/

/-- One result of the system call `::read` on the socket: -1 (`error`), or the
bytes that arrived, none of them at the end of the stream (result 0). A call
that asks for fewer bytes than `bytes` holds gets the first ones and leaves
the others for the next call. -/
inductive ReadResult where
  | error
  | data (bytes : List Nat)
deriving DecidableEq

/-- One result of the system call `::write` on the socket: -1 (`error`), or
the number of bytes the socket is ready to accept (result 0 when none). -/
inductive WriteResult where
  | error
  | accepted (n : Nat)
deriving DecidableEq

/-- The members `m_invalid` and `m_socket` of the socket build. The socket is
the results that coming `::read` and `::write` calls will have, and the bytes
it has accepted so far. -/
structure SocketBase where
  m_invalid : Bool
  incoming : List ReadResult
  outcomes : List WriteResult
  sent : List Nat
deriving DecidableEq

namespace SocketBase

/-- Method `RemotePluginBase::isInvalid` (socket build): `m_invalid`. -/
def isInvalid (e : SocketBase) : Bool := e.m_invalid

/-- Method `RemotePluginBase::invalidate` (socket build): `m_invalid = true`. -/
def invalidate (e : SocketBase) : SocketBase := { e with m_invalid := true }

/-- The loop `while (remaining)` of `read`: the bytes collected when the loop
ends with `remaining == 0`, or `none` when a `::read` returned 0 or -1, and the
results left for later calls. The outer `none` is a `::read` that never returns. -/
def readLoop : List ReadResult → Nat → List Nat → Option (Option (List Nat) × List ReadResult)
  | script, 0, acc => some (some acc, script)
  | [], _ + 1, _ => none
  | ReadResult.error :: rs, _ + 1, _ => some (none, rs)
  | ReadResult.data bytes :: rs, n + 1, acc =>
    if bytes = [] then some (none, rs)
    else if bytes.length ≤ n + 1 then readLoop rs (n + 1 - bytes.length) (acc ++ bytes)
    else some (some (acc ++ bytes.take (n + 1)), ReadResult.data (bytes.drop (n + 1)) :: rs)

/-- Method `RemotePluginBase::read(_buf, _len)` (socket build): the content of
the `_len` bytes at `_buf` on return, and the endpoint. A negative `_len` is
`none`. -/
def read (len : Int) (e : SocketBase) : Option (List Nat × SocketBase) :=
  if len < 0 then none
  else if e.isInvalid then some (List.replicate len.toNat 0, e)
  else
    (readLoop e.incoming len.toNat []).map fun r =>
      match r.1 with
      | some bytes => (bytes, { e with incoming := r.2 })
      | none => (List.replicate len.toNat 0, { e.invalidate with incoming := r.2 })

/-- The loop `while (remaining)` of `write`: whether it ended with
`remaining == 0`, the bytes the socket has accepted, and the results left. -/
def writeLoop : List WriteResult → List Nat → List Nat → Option (Bool × List Nat × List WriteResult)
  | script, [], sent => some (true, sent, script)
  | [], _ :: _, _ => none
  | WriteResult.error :: rs, _ :: _, sent => some (false, sent, rs)
  | WriteResult.accepted n :: rs, b :: bs, sent =>
    if n = 0 then some (false, sent, rs)
    else writeLoop rs ((b :: bs).drop n) (sent ++ (b :: bs).take n)

/-- Method `RemotePluginBase::write(_buf, _len)` (socket build), `buf` being
the `_len` bytes at `_buf`. -/
def write (buf : List Nat) (e : SocketBase) : Option SocketBase :=
  if e.isInvalid then some e
  else
    (writeLoop e.outcomes buf e.sent).map fun r =>
      if r.1 then { e with sent := r.2.1, outcomes := r.2.2 }
      else { e.invalidate with sent := r.2.1, outcomes := r.2.2 }

end SocketBase

/-! ## The indices of the audio segment that `process` touches -/

namespace RemotePlugin

/-- The indices `idx ch frame` that the loops `for (ch = 0; ch < chs; ++ch)
for (frame = 0; frame < frames; ++frame)` visit, in order. -/
def loopIndices (chs frames : Nat) (idx : Nat → Nat → Int) : List Int :=
  (List.range chs).flatMap fun ch => (List.range frames).map fun frame => idx ch frame

/-- The indices of `m_shm` that the input stage of `process` (lines 321-351)
writes, branch by branch as in `copyInput`; `has_in` is `_in_buf != NULL`. -/
def inputWrites (eng : Engine) (split : Bool) (inputCount : Int) (has_in : Bool) : List Int :=
  let frames := eng.framesPerPeriod
  let inputs := min (eng.to_ch_cnt_t inputCount) (eng.to_ch_cnt_t DEFAULT_CHANNELS)
  if has_in && decide (inputs > 0) then
    if split then loopIndices inputs.toNat frames (fun ch frame => ch * frames + frame)
    else if inputs == DEFAULT_CHANNELS then
      (List.range (frames * DEFAULT_CHANNELS)).map fun i => (i : Int)
    else loopIndices inputs.toNat frames (fun ch frame => frame * DEFAULT_CHANNELS + ch)
  else []

/-- The indices of `m_shm` that the output stage of `process` (lines 365-398)
reads, branch by branch as in `copyOutput`. -/
def outputReads (eng : Engine) (split : Bool) (inputCount outputCount : Int) : List Int :=
  let frames := eng.framesPerPeriod
  let outputs := min (eng.to_ch_cnt_t outputCount) (eng.to_ch_cnt_t DEFAULT_CHANNELS)
  if split then
    loopIndices outputs.toNat frames (fun ch frame => (inputCount + ch) * frames + frame)
  else if outputs == DEFAULT_CHANNELS then
    (List.range (frames * DEFAULT_CHANNELS)).map fun i => inputCount * frames + (i : Int)
  else
    loopIndices (min (DEFAULT_CHANNELS : Int) outputs).toNat frames
      (fun ch frame => inputCount * frames + frame * DEFAULT_CHANNELS + ch)

end RemotePlugin

/-! ## Concrete clients used as examples -/

/-- A plugin whose overrides of the virtual functions do nothing, with an
empty `strerror` text and conversions that keep the value. -/
def ClientEnv.quiet : ClientEnv :=
  { hook := fun _ c => some c, strerror := [], to_sample_rate_t := id, to_fpp_t := id }

/-- A client as its constructor leaves it, on a pair of fresh FIFOs, with the
given audio segment pointer. -/
def exampleClient (shm : Option Nat) : RemotePluginClient :=
  { m_in := ShmFifo.master fun _ => 0
    m_out := ShmFifo.master fun _ => 0
    waitDepth := 0
    ext :=
      { m_shmObj := SharedMemorySysV.construct 1
        os := SysV.empty
        m_shm := shm
        m_inputCount := 0
        m_outputCount := 0
        m_sampleRate := 44100
        m_bufferSize := 0 } }

/-- Whether the first half of `process` has gone on to wait for
`IdProcessingDone`. -/
def RemotePlugin.Stage.isWaiting (st : RemotePlugin.Stage) : Bool :=
  match st with
  | RemotePlugin.Stage.returned _ _ _ => false
  | RemotePlugin.Stage.waiting _ _ => true

/-- The float at index `i` of the audio segment in the host object that the
first half of `process` has reached. -/
def RemotePlugin.Stage.shmAt (st : RemotePlugin.Stage) (i : Nat) : Option Int :=
  match st with
  | RemotePlugin.Stage.returned _ _ p => p.ext.m_shm.map fun shm => shm i
  | RemotePlugin.Stage.waiting _ p => p.ext.m_shm.map fun shm => shm i

/-- The audio segment object of a host before the first resize: no segment,
the key counter at 0, no key in use. -/
def exampleAudioShm : AudioShm :=
  { m_shmObj := SharedMemorySysV.construct 1, shmKey := 0, os := SysV.empty }

/-! ## Reference behaviour of the dispatch in `waitForMessage` -/

/-- The handler called exactly once on each of the arrivals `ms`, in their
order: every message is taken from the in-FIFO with `receiveMessage`, has to
be the expected one, and is handed to `processMessage` in the state that the
receive has left; the next message is taken in the state that the handler has
left. The result is the state after the last call. -/
def RemotePluginBase.dispatchInOrder {σ : Type} (cb : Callbacks σ) (fuel : Nat) :
    List message → RemotePluginBase σ → Option (RemotePluginBase σ)
  | [], e => some e
  | m :: ms, e =>
    (RemotePluginBase.receiveMessage fuel e).bind fun r =>
      if r.1 = m then
        (cb.processMessage m r.2).bind fun q => RemotePluginBase.dispatchInOrder cb fuel ms q.2
      else none

/-- A handler that appends every message it is called with to the members of
the derived class, which are the list of its calls so far. -/
def recordingCallbacks : Callbacks (List message) :=
  { processMessage := fun m e => some (true, { e with ext := e.ext ++ [m] })
    processEvents := id }

/-! ## `sendMessage` and `receiveMessage` as sequences of calls on the FIFO -/

/-- The number of arguments that the case of `id` in
`RemotePluginClient::processMessage` reads with `getInt`. -/
def RemotePluginClient.argumentsRead (id : Int) : Nat :=
  if id == IdSampleRateInformation then 1
  else if id == IdBufferSizeInformation then 1
  else if id == IdMidiEvent then 5
  else if id == IdChangeSharedMemoryKey then 2
  else 0

/-- The host's `fetchAndProcessNextMessage()` called `n` times in a row:
`message m = receiveMessage(); processMessage(m);` with
`RemotePlugin::processMessage` as the handler. -/
def RemotePlugin.handleArrivals (eng : Engine) (rate : Int) (fuel : Nat) :
    Nat → AudioShm → RemotePlugin → Option (AudioShm × RemotePlugin)
  | 0, a, p => some (a, p)
  | n + 1, a, p =>
    (RemotePluginBase.receiveMessage fuel p).bind fun r =>
      (RemotePlugin.processMessage eng rate fuel r.1 a r.2).bind fun q =>
        RemotePlugin.handleArrivals eng rate fuel n q.2.1 q.2.2

/-! ## Facts about the FIFO -/

namespace ShmFifo

theorem fetch_length (mem : Nat → Nat) (off len : Nat) : (fetch mem off len).length = len := by
  simp [fetch]

theorem fetch_zero (mem : Nat → Nat) (off : Nat) : fetch mem off 0 = [] := by
  simp [fetch]

theorem fetch_add (mem : Nat → Nat) (off a b : Nat) :
    fetch mem off (a + b) = fetch mem off a ++ fetch mem (off + a) b := by
  induction b with
  | zero => simp [fetch]
  | succ n ih =>
    have h1 : fetch mem off (a + (n + 1)) = fetch mem off (a + n) ++ [mem (off + (a + n))] := by
      simp [fetch, ← Nat.add_assoc, List.range_succ]
    have h2 : fetch mem (off + a) (n + 1) = fetch mem (off + a) n ++ [mem (off + a + n)] := by
      simp [fetch, List.range_succ]
    rw [h1, h2, ih, List.append_assoc, Nat.add_assoc]

theorem fetch_ext (m1 m2 : Nat → Nat) (o1 o2 len : Nat)
    (h : ∀ i, i < len → m1 (o1 + i) = m2 (o2 + i)) : fetch m1 o1 len = fetch m2 o2 len := by
  unfold fetch
  apply List.map_congr_left
  intro i hi
  have hi2 : i < len := by simpa using hi
  exact h i hi2

theorem fetch_congr (m1 m2 : Nat → Nat) (off len : Nat)
    (h : ∀ i, off ≤ i → i < off + len → m1 i = m2 i) : fetch m1 off len = fetch m2 off len := by
  apply fetch_ext
  intro i hi
  exact h (off + i) (by omega) (by omega)

theorem fetch_store_self (mem : Nat → Nat) (off : Nat) (buf : List Nat) :
    fetch (store mem off buf buf.length) off buf.length = buf := by
  apply List.ext_getElem
  · simp [fetch]
  · intro i h1 h2
    simp only [fetch, List.getElem_map, List.getElem_range, store]
    have h3 : off ≤ off + i ∧ off + i < off + buf.length := by omega
    rw [if_pos h3]
    have h4 : off + i - off = i := by omega
    rw [h4, List.getD_eq_getElem _ _ h2]

theorem fetch_store_before (mem : Nat → Nat) (off : Nat) (buf : List Nat) (len o n : Nat)
    (h : o + n ≤ off) : fetch (store mem off buf len) o n = fetch mem o n := by
  apply fetch_congr
  intro i h1 h2
  simp only [store]
  rw [if_neg]
  omega

theorem unlock_lock_of_held (g : ShmFifo) (h : Held g) : g.unlock.lock = some g := by
  obtain ⟨hv, hd⟩ := h
  cases g with
  | mk inv depth d ds ms =>
    simp only at hv hd
    subst hv
    by_cases h1 : depth = 1
    · subst h1
      simp [unlock, lock, isInvalid]
    · have h2 : ¬ depth ≤ 1 := by omega
      have h3 : ¬ depth - 1 = 0 := by omega
      simp [unlock, lock, isInvalid, h2, h3]

theorem lock_of_ready (f : ShmFifo) (h : Ready f) :
    ∃ g, f.lock = some g ∧ Held g ∧ g.m_data = f.m_data ∧ g.m_messageSem = f.m_messageSem ∧
      ∀ d, ({ g with m_data := d } : ShmFifo).unlock = { f with m_data := d } := by
  obtain ⟨hv, hd, hs⟩ := h
  cases f with
  | mk inv depth d ds ms =>
    simp only at hv hd hs
    subst hv
    by_cases h0 : depth = 0
    · subst h0
      have hds : ds ≠ 0 := by have := hs rfl; omega
      refine ⟨⟨false, 1, d, ds - 1, ms⟩, by simp [lock, isInvalid, hds], ?_, rfl, rfl, ?_⟩
      · exact ⟨rfl, by simp⟩
      · intro d2
        have : ds - 1 + 1 = ds := by omega
        simp [unlock, this]
    · refine ⟨⟨false, depth + 1, d, ds, ms⟩, by simp [lock, isInvalid, h0], ?_, rfl, rfl, ?_⟩
      · exact ⟨rfl, by simp; omega⟩
      · intro d2
        have h2 : ¬ depth + 1 ≤ 1 := by omega
        simp [unlock, h2]

theorem writeWait_no_wait (fuel : Nat) (len : Int) (g : ShmFifo)
    (h : ¬ len > SHM_FIFO_SIZE - g.m_data.endPtr) : writeWait fuel len g = some g := by
  cases fuel <;> simp [writeWait, h]

theorem writeWait_of_room (fuel : Nat) (hfuel : 1 ≤ fuel) (len : Int) (g : ShmFifo)
    (hh : Held g) (hb : InBounds g)
    (hroom : g.m_data.endPtr - g.m_data.startPtr + len ≤ SHM_FIFO_SIZE) :
    ∃ d, writeWait fuel len g = some { g with m_data := d } ∧
      0 ≤ d.startPtr ∧ d.startPtr ≤ d.endPtr ∧ d.endPtr + len ≤ SHM_FIFO_SIZE ∧
      fetch d.data d.startPtr.toNat (d.endPtr - d.startPtr).toNat = live g := by
  obtain ⟨hb0, hb1, hb2⟩ := hb
  by_cases hc : len > SHM_FIFO_SIZE - g.m_data.endPtr
  · obtain ⟨k, rfl⟩ : ∃ k, fuel = k + 1 := ⟨fuel - 1, by omega⟩
    have hs : g.m_data.startPtr > 0 := by omega
    refine ⟨moveToFront g.m_data, ?_, ?_, ?_, ?_, ?_⟩
    · have hheld : Held { g with m_data := moveToFront g.m_data } := hh
      have hnw : ¬ len > SHM_FIFO_SIZE - (moveToFront g.m_data).endPtr := by
        simp only [moveToFront]; omega
      simp only [writeWait, hc, hs, if_true, unlock_lock_of_held _ hheld, Option.bind]
      exact writeWait_no_wait k len _ hnw
    · simp [moveToFront]
    · simp only [moveToFront]; omega
    · simp only [moveToFront]; omega
    · simp only [moveToFront, live, sub_zero]
      apply fetch_ext
      intro i h2
      have h3 : (i : Int) < g.m_data.endPtr - g.m_data.startPtr := by omega
      simp [h3]
  · refine ⟨g.m_data, ?_, hb0, hb1, by omega, rfl⟩
    rw [writeWait_no_wait fuel len g hc]

/-- A write that fits next to the live bytes appends its bytes to them. -/
theorem write_of_room (fuel : Nat) (hfuel : 1 ≤ fuel) (buf : List Nat) (f : ShmFifo)
    (hr : Ready f) (hb : InBounds f)
    (hroom : ((live f).length : Int) + buf.length ≤ SHM_FIFO_SIZE) :
    ∃ d, write fuel buf buf.length f = some { f with m_data := d } ∧
      InBounds { f with m_data := d } ∧ live { f with m_data := d } = live f ++ buf := by
  obtain ⟨g, hlock, hheld, hgd, _, hunlock⟩ := lock_of_ready f hr
  have hb' := hb
  obtain ⟨hb0, hb1, hb2⟩ := hb
  have hlen : ((live f).length : Int) = f.m_data.endPtr - f.m_data.startPtr := by
    simp only [live, fetch_length]; omega
  have hgb : InBounds g := by unfold InBounds; rw [hgd]; exact hb'
  obtain ⟨d, hw, hd0, hd1, hd2, hdl⟩ :=
    writeWait_of_room fuel hfuel buf.length g hheld hgb (by rw [hgd]; omega)
  have hv : f.m_invalid = false := hr.1
  have hnot : ¬ ((buf.length : Int) > SHM_FIFO_SIZE) := by omega
  refine ⟨⟨d.startPtr, d.endPtr + buf.length, store d.data d.endPtr.toNat buf buf.length⟩,
    ?_, ?_, ?_⟩
  · have hneg : ¬ ((buf.length : Int) < 0) := by omega
    simp only [write, isInvalid, hv, hnot, hlock, hw, Option.bind, writeCopy, hneg,
      Bool.false_or, decide_False, if_false, Int.toNat_ofNat]
    rw [hunlock]
    simp [hv]
  · exact ⟨hd0, by simp only; omega, by simp only; omega⟩
  · have hlg : live g = live f := by simp only [live, hgd]
    simp only [live]
    have e1 : (d.endPtr + (buf.length : Int) - d.startPtr).toNat
        = (d.endPtr - d.startPtr).toNat + buf.length := by omega
    have e2 : d.startPtr.toNat + (d.endPtr - d.startPtr).toNat = d.endPtr.toNat := by omega
    rw [e1, fetch_add, e2, fetch_store_self, fetch_store_before _ _ _ _ _ _ (by omega), hdl, hlg]
    rfl

theorem readWait_no_wait (fuel : Nat) (len : Int) (g : ShmFifo)
    (h : len ≤ g.m_data.endPtr - g.m_data.startPtr) : readWait fuel len g = some g := by
  have h2 : ¬ (g.m_data.endPtr - g.m_data.startPtr < len) := by omega
  cases fuel <;> simp [readWait, h2]

theorem live_length (f : ShmFifo) :
    (live f).length = (f.m_data.endPtr - f.m_data.startPtr).toNat := by
  simp [live, fetch_length]

theorem live_length_le (f : ShmFifo) (hb : InBounds f) :
    ((live f).length : Int) ≤ SHM_FIFO_SIZE := by
  rw [live_length]; obtain ⟨h0, h1, h2⟩ := hb; omega

/-- A read of the first bytes of the live queue returns them and leaves the rest. -/
theorem read_of_avail (fuel : Nat) (b rest : List Nat) (f : ShmFifo)
    (hr : Ready f) (hb : InBounds f) (hl : live f = b ++ rest) :
    ∃ d, read fuel b.length f = some (b, { f with m_data := d }) ∧
      InBounds { f with m_data := d } ∧ live { f with m_data := d } = rest := by
  obtain ⟨g, hlock, hheld, hgd, _, hunlock⟩ := lock_of_ready f hr
  obtain ⟨hb0, hb1, hb2⟩ := hb
  have hv : f.m_invalid = false := hr.1
  have hlen : (f.m_data.endPtr - f.m_data.startPtr).toNat = b.length + rest.length := by
    rw [← live_length, hl, List.length_append]
  have hsplit : fetch f.m_data.data f.m_data.startPtr.toNat b.length
      ++ fetch f.m_data.data (f.m_data.startPtr.toNat + b.length) rest.length = b ++ rest := by
    rw [← fetch_add, ← hlen]; exact hl
  have hb_eq := (List.append_inj hsplit (by simp [fetch_length])).1
  have hrest_eq := (List.append_inj hsplit (by simp [fetch_length])).2
  have hrw : readWait fuel b.length g = some g :=
    readWait_no_wait fuel b.length g (by rw [hgd]; omega)
  have hneg : ¬ ((b.length : Int) < 0) := by omega
  by_cases hdrain : f.m_data.startPtr + b.length = f.m_data.endPtr
  · refine ⟨⟨0, 0, f.m_data.data⟩, ?_, ?_, ?_⟩
    · simp only [read, isInvalid, hv, hlock, hrw, Option.bind, readCopy, hneg, hgd, hdrain,
        if_false, Int.toNat_ofNat, beq_self_eq_true, if_true, hb_eq]
      rw [hunlock]
      simp [hv]
    · exact ⟨le_refl _, le_refl _, by simp [SHM_FIFO_SIZE]⟩
    · have : rest.length = 0 := by omega
      simp [live, fetch_zero, List.length_eq_zero.mp this]
  · refine ⟨⟨f.m_data.startPtr + b.length, f.m_data.endPtr, f.m_data.data⟩, ?_, ?_, ?_⟩
    · have hne : (f.m_data.startPtr + (b.length : Int) == f.m_data.endPtr) = false := by
        simpa using hdrain
      simp only [read, isInvalid, hv, hlock, hrw, Option.bind, readCopy, hneg, hgd, hne,
        if_false, Int.toNat_ofNat, hb_eq]
      rw [hunlock]
      simp [hv]
    · exact ⟨by simp only; omega, by simp only; omega, hb2⟩
    · simp only [live]
      have e1 : (f.m_data.startPtr + (b.length : Int)).toNat = f.m_data.startPtr.toNat + b.length := by
        omega
      have e2 : (f.m_data.endPtr - (f.m_data.startPtr + (b.length : Int))).toNat = rest.length := by
        omega
      rw [e1, e2]; exact hrest_eq

theorem unlock_data (f : ShmFifo) : f.unlock.m_data = f.m_data := by
  simp only [unlock]; split <;> rfl

theorem unlock_messageSem (f : ShmFifo) : f.unlock.m_messageSem = f.m_messageSem := by
  simp only [unlock]; split <;> rfl

theorem ready_setData (f : ShmFifo) (d : ShmData) :
    Ready { f with m_data := d } ↔ Ready f := Iff.rfl

theorem unlockTimes_succ (n : Nat) (f : ShmFifo) :
    unlockTimes (n + 1) f = (unlockTimes n f).unlock := by
  induction n generalizing f with
  | zero => rfl
  | succ k ih =>
    show unlockTimes (k + 1) f.unlock = _
    rw [ih]; rfl

theorem lockTimes_of_held (n : Nat) (g : ShmFifo) (h : Held g) :
    lockTimes n g = some { g with m_lockDepth := g.m_lockDepth + n } := by
  induction n generalizing g with
  | zero => simp [lockTimes]
  | succ k ih =>
    obtain ⟨hv, hd⟩ := h
    have h0 : ¬ g.m_lockDepth = 0 := by omega
    have hl : g.lock = some { g with m_lockDepth := g.m_lockDepth + 1 } := by
      simp [lock, isInvalid, hv, h0]
    simp only [lockTimes, hl, Option.bind]
    rw [ih { g with m_lockDepth := g.m_lockDepth + 1 } ⟨hv, by simp only; omega⟩]
    simp only [Nat.cast_add, Nat.cast_one, Option.some.injEq]
    have : g.m_lockDepth + 1 + (k : Int) = g.m_lockDepth + ((k : Int) + 1) := by omega
    rw [this]

theorem unlockTimes_below (j : Nat) (g : ShmFifo) (h : (j : Int) < g.m_lockDepth) :
    unlockTimes j g = { g with m_lockDepth := g.m_lockDepth - j } := by
  induction j with
  | zero => simp [unlockTimes]
  | succ k ih =>
    rw [unlockTimes_succ, ih (by omega)]
    have h1 : ¬ g.m_lockDepth - (k : Int) ≤ 1 := by omega
    simp only [unlock, h1, if_false, Nat.cast_add, Nat.cast_one]
    have : g.m_lockDepth - (k : Int) - 1 = g.m_lockDepth - ((k : Int) + 1) := by omega
    rw [this]

/-- C6 (as amended): for every N >= 1 and every FIFO object whose lock depth
is 0, N calls of `lock()` on an invalidated object change nothing (no acquire);
on a valid object whose data semaphore is free they return, and the semaphore
is acquired exactly once (its count drops by one), the first N - 1 calls of
`unlock()` that follow leave the semaphore alone, and the N-th releases it,
which restores the count, the depth 0 and the whole object. -/
theorem lock_unlock_recursive (N : Nat) (hN : 1 ≤ N) (f : ShmFifo) (hd : f.m_lockDepth = 0) :
    (f.m_invalid = true → lockTimes N f = some f) ∧
    (f.m_invalid = false → 0 < f.m_dataSem →
      ∃ g, lockTimes N f = some g ∧ g.m_dataSem + 1 = f.m_dataSem ∧ g.m_lockDepth = N ∧
        (∀ j, j < N → (unlockTimes j g).m_dataSem = g.m_dataSem) ∧
        (unlockTimes N g).m_dataSem = g.m_dataSem + 1 ∧
        (unlockTimes N g).m_lockDepth = 0 ∧ unlockTimes N g = f) := by
  constructor
  · intro hv
    have hl : f.lock = some f := by simp [lock, isInvalid, hv]
    clear hN
    induction N with
    | zero => rfl
    | succ k ih => simp only [lockTimes, hl, Option.bind]; exact ih
  · intro hv hs
    obtain ⟨k, rfl⟩ : ∃ k, N = k + 1 := ⟨N - 1, by omega⟩
    cases f with
    | mk inv depth d ds ms =>
      simp only at hd hv hs
      subst hd hv
      have hds : ds ≠ 0 := by omega
      have hl : lock ⟨false, 0, d, ds, ms⟩ = some ⟨false, 1, d, ds - 1, ms⟩ := by
        simp [lock, isInvalid, hds]
      have hk : lockTimes (k + 1) ⟨false, 0, d, ds, ms⟩ = some ⟨false, 1 + k, d, ds - 1, ms⟩ := by
        simp only [lockTimes, hl, Option.bind]
        rw [lockTimes_of_held k _ ⟨rfl, le_refl _⟩]
      have hbelow : ∀ j, j < k + 1 →
          unlockTimes j ⟨false, 1 + k, d, ds - 1, ms⟩ = ⟨false, 1 + k - j, d, ds - 1, ms⟩ := by
        intro j hj
        rw [unlockTimes_below j _ (by simp only; omega)]
      have hlast : unlockTimes (k + 1) ⟨false, 1 + k, d, ds - 1, ms⟩ = ⟨false, 0, d, ds, ms⟩ := by
        rw [unlockTimes_succ, hbelow k (by omega)]
        have e1 : (1 : Int) + k - k = 1 := by omega
        have e2 : ds - 1 + 1 = ds := by omega
        simp [unlock, e1, e2]
      refine ⟨_, hk, by simp only; omega, by simp only [Nat.cast_add, Nat.cast_one]; omega,
        ?_, ?_, ?_, hlast⟩
      · intro j hj; rw [hbelow j hj]
      · rw [hlast]; simp only; omega
      · rw [hlast]

/-- The recursive lock at N = 2 on a fresh, valid FIFO. -/
theorem lock_unlock_recursive_witness :
    ∃ g, lockTimes 2 (master fun _ => 0) = some g ∧ g.m_dataSem + 1 = 1 ∧ g.m_lockDepth = 2 ∧
      (unlockTimes 1 g).m_dataSem = g.m_dataSem ∧ (unlockTimes 2 g).m_dataSem = g.m_dataSem + 1 ∧
      (unlockTimes 2 g).m_lockDepth = 0 := by
  obtain ⟨g, h1, h2, h3, h4, h5, h6, _⟩ :=
    (lock_unlock_recursive 2 (by decide) (master fun _ => 0) rfl).2 rfl (by decide)
  exact ⟨g, h1, h2, h3, h4 1 (by decide), h5, h6⟩

/-- C6 fails on an invalidated FIFO: two calls of `lock()` change nothing, and
each of the two calls of `unlock()` releases the semaphore (count 1, 2, 3) and
lowers the depth, which ends at -2. -/
theorem lock_unlock_invalidated_counterexample :
    lockTimes 2 (master fun _ => 0).invalidate = some (master fun _ => 0).invalidate ∧
    (unlockTimes 1 (master fun _ => 0).invalidate).m_dataSem = 2 ∧
    (unlockTimes 2 (master fun _ => 0).invalidate).m_dataSem = 3 ∧
    (unlockTimes 2 (master fun _ => 0).invalidate).m_lockDepth = -2 := by
  refine ⟨rfl, rfl, rfl, rfl⟩

/-- C7: after `invalidate()`, a read of n >= 0 bytes returns n zero bytes,
`readInt` returns 0, `readString` returns the empty string and a write of any
buffer and length returns at once; each of them leaves the object as it was, so
`startPtr`, `endPtr` and the data area are those from before `invalidate()`. -/
theorem invalidated_read_zero_write_noop (f : ShmFifo) (fuel : Nat) :
    (∀ n : Nat, read fuel n f.invalidate = some (List.replicate n 0, f.invalidate)) ∧
    readInt fuel f.invalidate = some (0, f.invalidate) ∧
    readString fuel f.invalidate = some ([], f.invalidate) ∧
    (∀ (buf : List Nat) (len : Int), write fuel buf len f.invalidate = some f.invalidate) ∧
    f.invalidate.m_data = f.m_data := by
  have hr : ∀ n : Nat, read fuel n f.invalidate = some (List.replicate n 0, f.invalidate) := by
    intro n
    simp [read, isInvalid, invalidate]
  have hi : readInt fuel f.invalidate = some (0, f.invalidate) := by
    have h4 := hr 4
    simp only [Nat.cast_ofNat] at h4
    simp only [readInt, h4, Option.map]
    rfl
  refine ⟨hr, hi, ?_, ?_, rfl⟩
  · simp [readString, hi]
  · intro buf len
    simp [write, isInvalid, invalidate]

theorem runCalls_of_admissible (fuel : Nat) (hfuel : 1 ≤ fuel) (calls : List FifoCall) :
    ∀ (pending : List (List Nat)) (f : ShmFifo), Ready f → InBounds f →
      live f = pending.flatten → admissible pending calls = true →
      ∃ g, runCalls fuel calls f
        = some ((pending ++ writtenBlocks calls).take (readCount calls), g) := by
  induction calls with
  | nil =>
    intro pending f _ _ _ _
    exact ⟨f, by simp [runCalls, readCount]⟩
  | cons c cs ih =>
    intro pending f hr hb hl ha
    cases c with
    | write b =>
      simp only [admissible, Bool.and_eq_true, decide_eq_true_eq] at ha
      obtain ⟨hroom, ha2⟩ := ha
      obtain ⟨d, hw, hb2, hl2⟩ := write_of_room fuel hfuel b f hr hb (by rw [hl]; exact hroom)
      obtain ⟨g, hg⟩ := ih (pending ++ [b]) { f with m_data := d } hr hb2
        (by rw [hl2, hl]; simp) ha2
      refine ⟨g, ?_⟩
      simp only [runCalls, hw, Option.bind, hg, writtenBlocks, readCount,
        List.append_assoc, List.singleton_append]
    | read n =>
      cases pending with
      | nil => simp [admissible] at ha
      | cons p rest =>
        simp only [admissible, Bool.and_eq_true, beq_iff_eq] at ha
        obtain ⟨hn, ha2⟩ := ha
        subst hn
        obtain ⟨d, hrd, hb2, hl2⟩ := read_of_avail fuel p rest.flatten f hr hb
          (by rw [hl]; simp)
        obtain ⟨g, hg⟩ := ih rest { f with m_data := d } hr hb2 hl2 ha2
        refine ⟨g, ?_⟩
        simp only [runCalls, hrd, Option.bind, hg, Option.map, writtenBlocks, readCount,
          List.cons_append, List.take_succ_cons]

theorem ready_master (mem : Nat → Nat) : Ready (master mem) :=
  ⟨rfl, le_refl _, fun _ => Nat.one_pos⟩

theorem inBounds_master (mem : Nat → Nat) : InBounds (master mem) :=
  ⟨le_refl _, le_refl _, by simp [master, SHM_FIFO_SIZE]⟩

theorem live_master (mem : Nat → Nat) : live (master mem) = [] := by
  simp [live, master, fetch_zero]

/-- C2: on a freshly created FIFO, every sequence of `write(b_i)` and
`read(len(b_k))` calls in which each read follows the write of its block and
the live bytes never exceed `SHM_FIFO_SIZE` runs to completion (each wait loop
needs at most one round), the k-th read returns the k-th written block, and
once every written block has been read the concatenation of the reads is the
concatenation of the writes. -/
theorem fifo_reads_return_writes_in_order (fuel : Nat) (hfuel : 1 ≤ fuel) (mem : Nat → Nat)
    (calls : List FifoCall) (ha : admissible [] calls = true) :
    ∃ reads g, runCalls fuel calls (master mem) = some (reads, g) ∧
      reads = (writtenBlocks calls).take (readCount calls) ∧
      (readCount calls = (writtenBlocks calls).length →
        reads.flatten = (writtenBlocks calls).flatten) := by
  obtain ⟨g, hg⟩ := runCalls_of_admissible fuel hfuel calls [] (master mem)
    (ready_master mem) (inBounds_master mem) (by simp [live_master]) ha
  refine ⟨_, g, hg, by simp, ?_⟩
  intro h
  simp [h]

/-- The FIFO ordering on the interleaving write [1,2,3], write [4], read 3,
write [5,6], read 1, read 2. -/
theorem fifo_reads_return_writes_in_order_witness :
    ∃ reads g, runCalls 1
        [FifoCall.write [1, 2, 3], FifoCall.write [4], FifoCall.read 3, FifoCall.write [5, 6],
          FifoCall.read 1, FifoCall.read 2] (master fun _ => 0) = some (reads, g) ∧
      reads = [[1, 2, 3], [4], [5, 6]] := by
  obtain ⟨reads, g, h1, h2, _⟩ := fifo_reads_return_writes_in_order 1 (le_refl 1) (fun _ => 0)
    [FifoCall.write [1, 2, 3], FifoCall.write [4], FifoCall.read 3, FifoCall.write [5, 6],
      FifoCall.read 1, FifoCall.read 2] (by decide)
  exact ⟨reads, g, h1, by rw [h2]; rfl⟩

theorem int32Bytes_length (i : Int) : (int32Bytes i).length = 4 := rfl

theorem toInt32_of_range (i : Int) (h1 : -2147483648 ≤ i) (h2 : i < 2147483648) :
    toInt32 i = i := by
  unfold toInt32; omega

theorem bytesInt32_int32Bytes (i : Int) (h1 : -2147483648 ≤ i) (h2 : i < 2147483648) :
    bytesInt32 (int32Bytes i) = i := by
  simp only [bytesInt32, int32Bytes, List.getD_cons_zero, List.getD_cons_succ, toInt32]
  omega

theorem writeInt_of_room (fuel : Nat) (hfuel : 1 ≤ fuel) (i : Int) (f : ShmFifo)
    (hr : Ready f) (hb : InBounds f) (hroom : ((live f).length : Int) + 4 ≤ SHM_FIFO_SIZE) :
    ∃ d, writeInt fuel i f = some { f with m_data := d } ∧
      InBounds { f with m_data := d } ∧ live { f with m_data := d } = live f ++ int32Bytes i := by
  have h := write_of_room fuel hfuel (int32Bytes i) f hr hb
    (by rw [int32Bytes_length]; exact hroom)
  rw [int32Bytes_length] at h
  exact h

theorem readInt_of_avail (fuel : Nat) (i : Int) (rest : List Nat) (f : ShmFifo)
    (h1 : -2147483648 ≤ i) (h2 : i < 2147483648)
    (hr : Ready f) (hb : InBounds f) (hl : live f = int32Bytes i ++ rest) :
    ∃ d, readInt fuel f = some (i, { f with m_data := d }) ∧
      InBounds { f with m_data := d } ∧ live { f with m_data := d } = rest := by
  obtain ⟨d, hrd, hb2, hl2⟩ := read_of_avail fuel (int32Bytes i) rest f hr hb hl
  rw [int32Bytes_length] at hrd
  refine ⟨d, ?_, hb2, hl2⟩
  simp only [readInt, Nat.cast_ofNat] at hrd ⊢
  rw [hrd]
  simp [bytesInt32_int32Bytes i h1 h2]

theorem wireArg_length (a : List Nat) : (wireArg a).length = 4 + a.length := by
  simp [wireArg, int32Bytes_length]

theorem writeString_of_room (fuel : Nat) (hfuel : 1 ≤ fuel) (s : List Nat) (f : ShmFifo)
    (hr : Ready f) (hb : InBounds f)
    (hroom : ((live f).length : Int) + 4 + s.length ≤ SHM_FIFO_SIZE) :
    ∃ d, writeString fuel s f = some { f with m_data := d } ∧
      InBounds { f with m_data := d } ∧ live { f with m_data := d } = live f ++ wireArg s := by
  have hs : toInt32 (s.length : Int) = s.length := by
    apply toInt32_of_range <;> simp only [SHM_FIFO_SIZE] at hroom <;> omega
  obtain ⟨d1, hw1, hb1, hl1⟩ := writeInt_of_room fuel hfuel s.length f hr hb (by omega)
  obtain ⟨d2, hw2, hb2, hl2⟩ := write_of_room fuel hfuel s { f with m_data := d1 } hr hb1
    (by rw [hl1, List.length_append, int32Bytes_length]; push_cast; omega)
  refine ⟨d2, ?_, hb2, ?_⟩
  · simp only [writeString, hs, hw1, Option.bind]
    exact hw2
  · rw [hl2, hl1, List.append_assoc]; rfl

theorem readString_of_avail (fuel : Nat) (s rest : List Nat) (f : ShmFifo)
    (hr : Ready f) (hb : InBounds f) (hl : live f = wireArg s ++ rest) :
    ∃ d, readString fuel f = some (cString s, { f with m_data := d }) ∧
      InBounds { f with m_data := d } ∧ live { f with m_data := d } = rest := by
  have hlen : ((live f).length : Int) ≤ SHM_FIFO_SIZE := by
    rw [live_length]; obtain ⟨h0, h1, h2⟩ := hb; omega
  rw [hl, List.length_append, wireArg_length] at hlen
  simp only [SHM_FIFO_SIZE] at hlen
  push_cast at hlen
  obtain ⟨d1, hr1, hb1, hl1⟩ := readInt_of_avail fuel s.length (s ++ rest) f
    (by omega) (by omega) hr hb (by rw [hl, wireArg, List.append_assoc])
  by_cases hs : s = []
  · subst hs
    refine ⟨d1, ?_, hb1, by simpa using hl1⟩
    simp only [List.length_nil, Nat.cast_zero] at hr1
    simp [readString, hr1, cString]
  · obtain ⟨d2, hr2, hb2, hl2⟩ := read_of_avail fuel s rest { f with m_data := d1 } hr hb1 hl1
    refine ⟨d2, ?_, hb2, hl2⟩
    have hne : ¬ ((s.length : Int) = 0) := by
      have := List.length_pos.mpr hs; omega
    simp only [readString, hr1, Option.bind, hne, ne_eq, not_false_eq_true, if_true, hr2,
      Option.map, cString]

end ShmFifo

/-! ## Facts about the message codec -/

namespace RemotePluginBase

open ShmFifo

variable {σ : Type}

theorem flatMap_wireArg_length (args : List (List Nat)) :
    (args.flatMap wireArg).length = (args.map fun a => 4 + a.length).sum := by
  induction args with
  | nil => rfl
  | cons a rest ih => simp [List.flatMap_cons, wireArg_length, ih]

theorem wire_length (m : message) : (wire m).length = encodedSize m := by
  simp only [wire, encodedSize, List.length_append, int32Bytes_length, flatMap_wireArg_length]

theorem length_le_sum (args : List (List Nat)) :
    4 * args.length ≤ (args.map fun a => 4 + a.length).sum := by
  induction args with
  | nil => simp
  | cons a rest ih => simp only [List.length_cons, List.map_cons, List.sum_cons]; omega

theorem sendArgs_of_room (fuel : Nat) (hfuel : 1 ≤ fuel) (args : List (List Nat)) :
    ∀ (f : ShmFifo) (j : Int), Ready f → InBounds f →
      ((live f).length : Int) + (args.flatMap wireArg).length ≤ SHM_FIFO_SIZE →
      0 ≤ j → j ≤ (live f).length + 8 →
      ∃ d, sendArgs fuel args f j
          = some ({ f with m_data := d }, j + ((args.map fun a => 4 + a.length).sum : Nat)) ∧
        InBounds { f with m_data := d } ∧
        live { f with m_data := d } = live f ++ args.flatMap wireArg := by
  induction args with
  | nil =>
    intro f j _ hb _ _ _
    exact ⟨f.m_data, by simp [sendArgs], hb, by simp [live]⟩
  | cons a rest ih =>
    intro f j hr hb hroom hj0 hj8
    simp only [List.flatMap_cons, List.length_append, wireArg_length, Nat.cast_add,
      Nat.cast_ofNat] at hroom
    obtain ⟨d1, hw1, hb1, hl1⟩ := writeString_of_room fuel hfuel a f hr hb (by omega)
    have hl1len : ((live { f with m_data := d1 }).length : Int)
        = (live f).length + 4 + a.length := by
      rw [hl1, List.length_append, wireArg_length]; push_cast; omega
    have hroom2 := hroom
    simp only [SHM_FIFO_SIZE] at hroom2
    have hj : toInt32 (j + 4 + (a.length : Int)) = j + 4 + a.length := by
      apply toInt32_of_range <;> omega
    obtain ⟨d2, hw2, hb2, hl2⟩ := ih { f with m_data := d1 } (j + 4 + a.length) hr hb1
      (by rw [hl1len]; omega) (by omega) (by rw [hl1len]; omega)
    refine ⟨d2, ?_, hb2, ?_⟩
    · simp only [sendArgs, hw1, Option.bind, hj]
      rw [hw2]
      simp only [List.map_cons, List.sum_cons, Nat.cast_add, Nat.cast_ofNat, Option.some.injEq,
        Prod.mk.injEq, true_and]
      omega
    · rw [hl2, hl1, List.flatMap_cons, List.append_assoc]

/-- A message that fits next to the live bytes of the out-FIFO is appended to
them in wire form; the message semaphore is released once and the returned
count is the encoded size. -/
theorem sendMessage_of_room (fuel : Nat) (hfuel : 1 ≤ fuel) (m : message)
    (e : RemotePluginBase σ) (hr : Ready e.m_out) (hb : InBounds e.m_out)
    (hroom : ((live e.m_out).length : Int) + encodedSize m ≤ SHM_FIFO_SIZE) :
    ∃ d, sendMessage fuel m e
        = some ((encodedSize m : Int),
            { e with m_out := ShmFifo.messageSent { e.m_out with m_data := d } }) ∧
      InBounds { e.m_out with m_data := d } ∧
      live { e.m_out with m_data := d } = live e.m_out ++ wire m := by
  obtain ⟨g, hlock, hheld, hgd, hgm, hunlock⟩ := lock_of_ready e.m_out hr
  have hrg : Ready g := ⟨hheld.1, by have := hheld.2; omega, fun h => by have := hheld.2; omega⟩
  have hbg : InBounds g := by unfold InBounds; rw [hgd]; exact hb
  have hlg : live g = live e.m_out := by simp only [live, hgd]
  have hsum := length_le_sum m.data
  simp only [encodedSize, SHM_FIFO_SIZE, Nat.cast_add, Nat.cast_ofNat] at hroom
  have hlen0 : (0 : Int) ≤ (live e.m_out).length := by omega
  obtain ⟨d1, hw1, hb1, hl1⟩ := writeInt_of_room fuel hfuel m.id g hrg hbg
    (by rw [hlg]; simp only [SHM_FIFO_SIZE]; omega)
  have hl1len : ((live { g with m_data := d1 }).length : Int) = (live e.m_out).length + 4 := by
    rw [hl1, List.length_append, int32Bytes_length, hlg]; push_cast; omega
  obtain ⟨d2, hw2, hb2, hl2⟩ := writeInt_of_room fuel hfuel (toInt32 m.data.length)
    { g with m_data := d1 } hrg hb1 (by rw [hl1len]; simp only [SHM_FIFO_SIZE]; omega)
  have hl2len : ((live { g with m_data := d2 }).length : Int) = (live e.m_out).length + 8 := by
    rw [hl2, List.length_append, int32Bytes_length]; push_cast; omega
  have hargc : toInt32 (m.data.length : Int) = m.data.length := by
    apply toInt32_of_range <;> omega
  obtain ⟨d3, hw3, hb3, hl3⟩ := sendArgs_of_room fuel hfuel m.data { g with m_data := d2 } 8 hrg hb2
    (by rw [hl2len, flatMap_wireArg_length]; simp only [SHM_FIFO_SIZE]; omega)
    (by omega) (by rw [hl2len]; omega)
  refine ⟨d3, ?_, ?_, ?_⟩
  · simp only [sendMessage, hlock, Option.bind, hw1, hw2, hw3, Option.map]
    rw [hunlock]
    simp only [encodedSize, Nat.cast_add, Nat.cast_ofNat]
  · exact hb3
  · have : live ({ e.m_out with m_data := d3 } : ShmFifo) = live ({ g with m_data := d3 } : ShmFifo) := rfl
    rw [this, hl3, hl2, hl1, hlg, hargc, wire]
    simp only [List.append_assoc]

theorem recvArgs_of_avail (fuel : Nat) (args : List (List Nat)) :
    ∀ (f : ShmFifo) (rest : List Nat), Ready f → InBounds f →
      live f = args.flatMap wireArg ++ rest →
      ∃ d, recvArgs fuel args.length f = some (args.map cString, { f with m_data := d }) ∧
        InBounds { f with m_data := d } ∧ live { f with m_data := d } = rest := by
  induction args with
  | nil =>
    intro f rest _ hb hl
    exact ⟨f.m_data, by simp [recvArgs], hb, by simpa using hl⟩
  | cons a more ih =>
    intro f rest hr hb hl
    obtain ⟨d1, hr1, hb1, hl1⟩ := readString_of_avail fuel a (more.flatMap wireArg ++ rest) f hr hb
      (by rw [hl, List.flatMap_cons, List.append_assoc])
    obtain ⟨d2, hr2, hb2, hl2⟩ := ih { f with m_data := d1 } rest hr hb1 hl1
    refine ⟨d2, ?_, hb2, hl2⟩
    simp only [List.length_cons, recvArgs, hr1, Option.bind, hr2, Option.map, List.map_cons]

/-- The state of the in-FIFO after one message has been taken from it: the
message semaphore was acquired once and the segment is `d`. -/
theorem receiveMessage_of_avail (fuel : Nat) (m : message) (rest : List Nat)
    (e : RemotePluginBase σ) (h1 : -2147483648 ≤ m.id) (h2 : m.id < 2147483648)
    (hr : Ready e.m_in) (hb : InBounds e.m_in) (hsem : 0 < e.m_in.m_messageSem)
    (hl : live e.m_in = wire m ++ rest) :
    ∃ d, receiveMessage fuel e
        = some (m.cStrings,
            { e with m_in := { e.m_in with m_data := d, m_messageSem := e.m_in.m_messageSem - 1 } }) ∧
      InBounds { e.m_in with m_data := d } ∧ live { e.m_in with m_data := d } = rest := by
  have hv : e.m_in.m_invalid = false := hr.1
  have hne : ¬ e.m_in.m_messageSem = 0 := by omega
  have hwait : e.m_in.waitForMessage
      = some { e.m_in with m_messageSem := e.m_in.m_messageSem - 1 } := by
    simp [ShmFifo.waitForMessage, ShmFifo.isInvalid, hv, hne]
  have hr0 : Ready ({ e.m_in with m_messageSem := e.m_in.m_messageSem - 1 } : ShmFifo) := hr
  obtain ⟨g, hlock, hheld, hgd, hgm, hunlock⟩ := lock_of_ready _ hr0
  have hrg : Ready g := ⟨hheld.1, by have := hheld.2; omega, fun h => by have := hheld.2; omega⟩
  have hbg : InBounds g := by unfold InBounds; rw [hgd]; exact hb
  have hlg : live g = live e.m_in := by simp only [live, hgd]
  have hlen : ((live e.m_in).length : Int) ≤ SHM_FIFO_SIZE := by
    rw [live_length]; obtain ⟨h0, h1, h2⟩ := hb; omega
  rw [hl, List.length_append, wire_length] at hlen
  have hsum := length_le_sum m.data
  simp only [encodedSize, SHM_FIFO_SIZE, Nat.cast_add, Nat.cast_ofNat] at hlen
  obtain ⟨d1, hr1, hb1, hl1⟩ := readInt_of_avail fuel m.id
    (int32Bytes m.data.length ++ m.data.flatMap wireArg ++ rest) g h1 h2 hrg hbg
    (by rw [hlg, hl, wire]; simp only [List.append_assoc])
  obtain ⟨d2, hr2, hb2, hl2⟩ := readInt_of_avail fuel m.data.length
    (m.data.flatMap wireArg ++ rest) { g with m_data := d1 } (by omega) (by omega) hrg hb1
    (by rw [hl1]; simp only [List.append_assoc])
  obtain ⟨d3, hr3, hb3, hl3⟩ := recvArgs_of_avail fuel m.data { g with m_data := d2 } rest hrg hb2 hl2
  refine ⟨d3, ?_, hb3, hl3⟩
  simp only [receiveMessage, hwait, Option.bind, hlock, hr1, hr2, Int.toNat_ofNat, hr3, Option.map]
  rw [hunlock]
  rfl

theorem sendAll_of_room (fuel : Nat) (hfuel : 1 ≤ fuel) (ms : List message) :
    ∀ (e : RemotePluginBase σ), Ready e.m_out → InBounds e.m_out →
      ((live e.m_out).length : Int) + totalSize ms ≤ SHM_FIFO_SIZE →
      ∃ d, sendAll fuel ms e
          = some { e with m_out := { e.m_out with m_data := d, m_messageSem := e.m_out.m_messageSem + ms.length } } ∧
        InBounds { e.m_out with m_data := d } ∧
        live { e.m_out with m_data := d } = live e.m_out ++ ms.flatMap wire := by
  induction ms with
  | nil =>
    intro e _ hb _
    exact ⟨e.m_out.m_data, by simp [sendAll], hb, by simp [live]⟩
  | cons m more ih =>
    intro e hr hb hroom
    simp only [totalSize, List.map_cons, List.sum_cons, Nat.cast_add] at hroom
    have hmore : (0 : Int) ≤ ((more.map encodedSize).sum : Nat) := by omega
    obtain ⟨d1, hs1, hb1, hl1⟩ := sendMessage_of_room fuel hfuel m e hr hb (by omega)
    have hlen1 : ((live { e.m_out with m_data := d1 }).length : Int)
        = (live e.m_out).length + encodedSize m := by
      rw [hl1, List.length_append, wire_length]; push_cast; rfl
    obtain ⟨d2, hs2, hb2, hl2⟩ :=
      ih { e with m_out := ShmFifo.messageSent { e.m_out with m_data := d1 } } hr hb1
        (by
          have : live (ShmFifo.messageSent { e.m_out with m_data := d1 })
              = live ({ e.m_out with m_data := d1 } : ShmFifo) := rfl
          simp only [this, hlen1, totalSize]; omega)
    refine ⟨d2, ?_, hb2, ?_⟩
    · simp only [sendAll, hs1, Option.bind]
      rw [hs2]
      have : e.m_out.m_messageSem + 1 + more.length = e.m_out.m_messageSem + (more.length + 1) := by
        omega
      simp only [ShmFifo.messageSent, List.length_cons, this]
    · have h3 : live ({ e.m_out with m_data := d2 } : ShmFifo)
          = live (ShmFifo.messageSent { e.m_out with m_data := d1 }) ++ more.flatMap wire := hl2
      have h4 : live (ShmFifo.messageSent { e.m_out with m_data := d1 })
          = live ({ e.m_out with m_data := d1 } : ShmFifo) := rfl
      rw [h3, h4, hl1, List.flatMap_cons, List.append_assoc]

theorem receiveTimes_of_avail (fuel : Nat) (ms : List message) :
    ∀ (e : RemotePluginBase σ) (rest : List Nat),
      (∀ m ∈ ms, -2147483648 ≤ m.id ∧ m.id < 2147483648) →
      Ready e.m_in → InBounds e.m_in → ms.length ≤ e.m_in.m_messageSem →
      live e.m_in = ms.flatMap wire ++ rest →
      ∃ d, receiveTimes fuel ms.length e
          = some (ms.map message.cStrings,
              { e with m_in := { e.m_in with m_data := d, m_messageSem := e.m_in.m_messageSem - ms.length } }) ∧
        InBounds { e.m_in with m_data := d } ∧ live { e.m_in with m_data := d } = rest := by
  induction ms with
  | nil =>
    intro e rest _ _ hb _ hl
    exact ⟨e.m_in.m_data, by simp [receiveTimes], hb, by simpa using hl⟩
  | cons m more ih =>
    intro e rest hid hr hb hsem hl
    have hm := hid m (List.mem_cons_self _ _)
    simp only [List.length_cons] at hsem
    obtain ⟨d1, hr1, hb1, hl1⟩ := receiveMessage_of_avail fuel m (more.flatMap wire ++ rest) e
      hm.1 hm.2 hr hb (by omega) (by rw [hl, List.flatMap_cons, List.append_assoc])
    obtain ⟨d2, hr2, hb2, hl2⟩ :=
      ih { e with m_in := { e.m_in with m_data := d1, m_messageSem := e.m_in.m_messageSem - 1 } }
        rest (fun x hx => hid x (List.mem_cons_of_mem _ hx)) hr hb1
        (by simp only; omega) hl1
    refine ⟨d2, ?_, hb2, hl2⟩
    simp only [List.length_cons, receiveTimes, hr1, Option.bind, hr2, Option.map, List.map_cons,
      Option.some.injEq, Prod.mk.injEq, true_and]
    have : e.m_in.m_messageSem - 1 - more.length = e.m_in.m_messageSem - (more.length + 1) := by
      omega
    rw [this]

/-- Messages sent on a fresh out-FIFO and received by the peer arrive in
order, each with its arguments cut at their first zero byte. -/
theorem send_receive_cStrings (fuel : Nat) (hfuel : 1 ≤ fuel) (ms : List message)
    (e : RemotePluginBase σ) (mem : Nat → Nat) (ext : σ) (hfresh : e.m_out = master mem)
    (hid : ∀ m ∈ ms, -2147483648 ≤ m.id ∧ m.id < 2147483648)
    (hsize : (totalSize ms : Int) ≤ SHM_FIFO_SIZE) :
    ∃ e' p', sendAll fuel ms e = some e' ∧ e'.isInvalid = e.m_in.isInvalid ∧
      receiveTimes fuel ms.length (peer e' ext) = some (ms.map message.cStrings, p') ∧
      live p'.m_in = [] := by
  obtain ⟨d, hs, hb, hl⟩ := sendAll_of_room fuel hfuel ms e (by rw [hfresh]; exact ready_master mem)
    (by rw [hfresh]; exact inBounds_master mem)
    (by rw [hfresh, live_master]; simpa using hsize)
  rw [hfresh, live_master, List.nil_append] at hl
  obtain ⟨d2, hr2, _, hl2⟩ := receiveTimes_of_avail fuel ms
    (peer { e with m_out := { e.m_out with m_data := d, m_messageSem := e.m_out.m_messageSem + ms.length } } ext)
    [] hid
    ⟨rfl, le_refl _, fun _ => by simp [peer, remote, hfresh, master]⟩
    (by rw [hfresh] at hb; exact hb)
    (by simp [peer, remote])
    (by rw [hfresh]; simpa [peer, remote, live] using hl)
  refine ⟨_, _, hs, ?_, hr2, hl2⟩
  simp [isInvalid, ShmFifo.isInvalid, hfresh, master]

/-- C4: `sendMessage(m)` on an endpoint whose out-FIFO is valid and has room
for the message returns and appends to the live bytes of the out-FIFO exactly
the wire form of the specification, `i32(id) i32(argc) (i32(len) bytes)^argc`
with no terminator, and nothing else; the in-FIFO is not touched. -/
theorem sendMessage_appends_wire_form (fuel : Nat) (hfuel : 1 ≤ fuel) (m : message)
    (e : RemotePluginBase σ) (hr : Ready e.m_out) (hb : InBounds e.m_out)
    (hroom : ((live e.m_out).length : Int) + encodedSize m ≤ SHM_FIFO_SIZE) :
    ∃ j e', sendMessage fuel m e = some (j, e') ∧
      live e'.m_out = live e.m_out ++ wire m ∧
      wire m = int32Bytes m.id ++ int32Bytes m.data.length
        ++ m.data.flatMap (fun a => int32Bytes a.length ++ a) ∧
      e'.m_in = e.m_in ∧ e'.m_out.m_invalid = false := by
  obtain ⟨d, hs, _, hl⟩ := sendMessage_of_room fuel hfuel m e hr hb hroom
  exact ⟨_, _, hs, hl, rfl, rfl, hr.1⟩

/-- The message `IdStartProcessing` with the argument "hi" on a fresh out-FIFO. -/
theorem sendMessage_appends_wire_form_witness :
    ∃ j e', sendMessage 1 ⟨8, [[104, 105]]⟩
        (⟨master fun _ => 0, master fun _ => 0, 0, ()⟩ : RemotePluginBase Unit) = some (j, e') ∧
      live e'.m_out = [8, 0, 0, 0, 1, 0, 0, 0, 2, 0, 0, 0, 104, 105] := by
  obtain ⟨j, e', h1, h2, _⟩ := sendMessage_appends_wire_form 1 (le_refl 1) ⟨8, [[104, 105]]⟩
    (⟨master fun _ => 0, master fun _ => 0, 0, ()⟩ : RemotePluginBase Unit)
    (ready_master _) (inBounds_master _) (by simp [live_master, encodedSize, SHM_FIFO_SIZE])
  exact ⟨j, e', h1, by rw [h2]; simp [live_master, wire, wireArg, int32Bytes]⟩

theorem cString_of_no_zero (a : List Nat) (h : 0 ∉ a) : cString a = a := by
  unfold cString
  rw [List.takeWhile_eq_self_iff]
  intro c hc
  have : c ≠ 0 := fun h0 => h (h0 ▸ hc)
  simpa using this

theorem cStrings_of_no_zero (m : message) (h : ∀ a ∈ m.data, 0 ∉ a) : m.cStrings = m := by
  cases m with
  | mk id data =>
    simp only [message.cStrings, message.mk.injEq, true_and]
    simp only at h
    induction data with
    | nil => rfl
    | cons a rest ih =>
      simp only [List.map_cons, List.cons.injEq]
      exact ⟨cString_of_no_zero a (h a (List.mem_cons_self _ _)),
        ih fun b hb => h b (List.mem_cons_of_mem _ hb)⟩

/-- C1 (as amended): for every list of messages with 32-bit ids whose total
encoded size, 8 + sum (4 + len(arg)) for each message, is at most
`SHM_FIFO_SIZE - 8`, sending them on an endpoint whose out-FIFO is fresh and
then calling `receiveMessage` n times on the peer returns n messages, in
order, with the same id and the same number of arguments, each argument being
the sent one cut at its first zero byte; so the messages are exactly those sent
when no argument contains a zero byte. -/
theorem send_receive_roundtrip (fuel : Nat) (hfuel : 1 ≤ fuel) (ms : List message)
    (e : RemotePluginBase σ) (mem : Nat → Nat) (ext : σ) (hfresh : e.m_out = master mem)
    (hid : ∀ m ∈ ms, -2147483648 ≤ m.id ∧ m.id < 2147483648)
    (hsize : (totalSize ms : Int) ≤ SHM_FIFO_SIZE - 8) :
    ∃ e' received p', sendAll fuel ms e = some e' ∧
      receiveTimes fuel ms.length (peer e' ext) = some (received, p') ∧
      received = ms.map message.cStrings ∧
      received.map (fun m => m.id) = ms.map (fun m => m.id) ∧
      received.map (fun m => m.data.length) = ms.map (fun m => m.data.length) ∧
      ((∀ m ∈ ms, ∀ a ∈ m.data, 0 ∉ a) → received = ms) := by
  obtain ⟨e', p', h1, _, h2, _⟩ := send_receive_cStrings fuel hfuel ms e mem ext hfresh hid
    (by omega)
  refine ⟨e', _, p', h1, h2, rfl, ?_, ?_, ?_⟩
  · simp [message.cStrings, Function.comp_def]
  · simp [message.cStrings, Function.comp_def]
  · intro h
    conv_rhs => rw [← List.map_id ms]
    apply List.map_congr_left
    intro m hm
    exact cStrings_of_no_zero m (h m hm)

/-- The messages `IdStartProcessing("hi")` and `IdProcessingDone()` round-trip. -/
theorem send_receive_roundtrip_witness :
    ∃ e' p', sendAll 1 [⟨8, [[104, 105]]⟩, ⟨9, []⟩]
        (⟨master fun _ => 0, master fun _ => 0, 0, ()⟩ : RemotePluginBase Unit) = some e' ∧
      receiveTimes 1 2 (peer e' ()) = some ([⟨8, [[104, 105]]⟩, ⟨9, []⟩], p') := by
  obtain ⟨e', r, p', h1, h2, _, _, _, h3⟩ := send_receive_roundtrip 1 (le_refl 1)
    [⟨8, [[104, 105]]⟩, ⟨9, []⟩]
    (⟨master fun _ => 0, master fun _ => 0, 0, ()⟩ : RemotePluginBase Unit) (fun _ => 0) () rfl
    (by decide) (by decide)
  have h4 := h3 (by decide)
  subst h4
  exact ⟨e', p', h1, h2⟩

/-- C1 fails for an argument with a zero byte: the message with id 1 and the
3-byte argument 97, 0, 98 is received with the 1-byte argument 97. -/
theorem send_receive_zero_byte_counterexample :
    ∃ e' p', sendAll 1 [⟨1, [[97, 0, 98]]⟩]
        (⟨master fun _ => 0, master fun _ => 0, 0, ()⟩ : RemotePluginBase Unit) = some e' ∧
      receiveTimes 1 1 (peer e' ()) = some ([⟨1, [[97]]⟩], p') ∧
      (⟨1, [[97]]⟩ : message) ≠ ⟨1, [[97, 0, 98]]⟩ := by
  obtain ⟨e', p', h1, _, h2, _⟩ := send_receive_cStrings 1 (le_refl 1) [⟨1, [[97, 0, 98]]⟩]
    (⟨master fun _ => 0, master fun _ => 0, 0, ()⟩ : RemotePluginBase Unit) (fun _ => 0) () rfl
    (by decide) (by decide)
  exact ⟨e', p', h1, h2, by decide⟩

theorem readWait_blocks (len : Int) (g : ShmFifo) (hh : Held g)
    (h : g.m_data.endPtr - g.m_data.startPtr < len) : ∀ fuel, readWait fuel len g = none := by
  intro fuel
  have hv : g.m_invalid = false := hh.1
  induction fuel with
  | zero => simp [readWait, ShmFifo.isInvalid, hv, h]
  | succ k ih =>
    simp only [readWait, ShmFifo.isInvalid, hv, beq_self_eq_true, gt_iff_lt, h, decide_True,
      Bool.and_self, if_true, unlock_lock_of_held g hh, Option.bind]
    exact ih

/-- A read of more bytes than are live never returns in a sequential run. -/
theorem read_blocks (len : Int) (f : ShmFifo) (hr : Ready f) (hb : InBounds f)
    (h : ((live f).length : Int) < len) : ∀ fuel, ShmFifo.read fuel len f = none := by
  intro fuel
  obtain ⟨g, hlock, hheld, hgd, _, _⟩ := lock_of_ready f hr
  have hlen : ((live f).length : Int) = f.m_data.endPtr - f.m_data.startPtr := by
    rw [live_length]; obtain ⟨h0, h1, h2⟩ := hb; omega
  have hw := readWait_blocks len g hheld (by rw [hgd]; omega) fuel
  simp [ShmFifo.read, ShmFifo.isInvalid, hr.1, hlock, hw]

/-- A message whose single argument is longer than the FIFO leaves its id, its
argument count and the length of the argument in the FIFO: only the bytes of
the argument are dropped. -/
theorem sendMessage_oversize (fuel : Nat) (hfuel : 1 ≤ fuel) (id : Int) (s : List Nat)
    (e : RemotePluginBase σ) (hr : Ready e.m_out) (hb : InBounds e.m_out)
    (hroom : ((live e.m_out).length : Int) + 12 ≤ SHM_FIFO_SIZE)
    (hbig : SHM_FIFO_SIZE < s.length) (hint : (s.length : Int) + 12 < 2147483648) :
    ∃ d, sendMessage fuel ⟨id, [s]⟩ e
        = some (12 + (s.length : Int),
            { e with m_out := ShmFifo.messageSent { e.m_out with m_data := d } }) ∧
      InBounds { e.m_out with m_data := d } ∧
      live { e.m_out with m_data := d }
        = live e.m_out ++ (int32Bytes id ++ int32Bytes 1 ++ int32Bytes s.length) := by
  obtain ⟨g, hlock, hheld, hgd, hgm, hunlock⟩ := lock_of_ready e.m_out hr
  have hrg : Ready g := ⟨hheld.1, by have := hheld.2; omega, fun h => by have := hheld.2; omega⟩
  have hbg : InBounds g := by unfold InBounds; rw [hgd]; exact hb
  have hlg : live g = live e.m_out := by simp only [live, hgd]
  have hlen0 : (0 : Int) ≤ (live e.m_out).length := by omega
  obtain ⟨d1, hw1, hb1, hl1⟩ := writeInt_of_room fuel hfuel id g hrg hbg (by rw [hlg]; omega)
  have hl1len : ((live { g with m_data := d1 }).length : Int) = (live e.m_out).length + 4 := by
    rw [hl1, List.length_append, int32Bytes_length, hlg]; push_cast; omega
  obtain ⟨d2, hw2, hb2, hl2⟩ := writeInt_of_room fuel hfuel 1
    { g with m_data := d1 } hrg hb1 (by rw [hl1len]; omega)
  have hl2len : ((live { g with m_data := d2 }).length : Int) = (live e.m_out).length + 8 := by
    rw [hl2, List.length_append, int32Bytes_length]; push_cast; omega
  obtain ⟨d3, hw3, hb3, hl3⟩ := writeInt_of_room fuel hfuel s.length
    { g with m_data := d2 } hrg hb2 (by rw [hl2len]; omega)
  have hslen : toInt32 (s.length : Int) = s.length := by
    apply toInt32_of_range <;> omega
  have hdrop : ShmFifo.write fuel s s.length ({ g with m_data := d3 } : ShmFifo)
      = some { g with m_data := d3 } := by
    simp [ShmFifo.write, hbig]
  have hj : toInt32 (8 + 4 + (s.length : Int)) = 12 + s.length := by
    rw [toInt32_of_range] <;> simp only [SHM_FIFO_SIZE] at hbig <;> omega
  refine ⟨d3, ?_, hb3, ?_⟩
  · have h1 : toInt32 ((([s] : List (List Nat)).length : Nat) : Int) = 1 := by
      rw [toInt32_of_range] <;> simp
    simp only [sendMessage, hlock, Option.bind, hw1, h1, hw2, sendArgs, writeString, hslen, hw3,
      hdrop, hj, Option.map]
    rw [hunlock]
  · have : live ({ e.m_out with m_data := d3 } : ShmFifo) = live ({ g with m_data := d3 } : ShmFifo) := rfl
    rw [this, hl3, hl2, hl1, hlg]
    simp only [List.append_assoc]

/-- A receiver that finds the header of an oversize argument at the head of the
FIFO waits for more bytes than the FIFO can ever hold. -/
theorem receiveMessage_blocks (id L : Int) (rest : List Nat) (e : RemotePluginBase σ)
    (h1 : -2147483648 ≤ id) (h2 : id < 2147483648)
    (hL1 : SHM_FIFO_SIZE < L) (hL2 : L < 2147483648)
    (hr : Ready e.m_in) (hb : InBounds e.m_in) (hsem : 0 < e.m_in.m_messageSem)
    (hl : live e.m_in = int32Bytes id ++ int32Bytes 1 ++ int32Bytes L ++ rest) :
    ∀ fuel, receiveMessage fuel e = none := by
  intro fuel
  have hv : e.m_in.m_invalid = false := hr.1
  have hne : ¬ e.m_in.m_messageSem = 0 := by omega
  have hwait : e.m_in.waitForMessage
      = some { e.m_in with m_messageSem := e.m_in.m_messageSem - 1 } := by
    simp [ShmFifo.waitForMessage, ShmFifo.isInvalid, hv, hne]
  have hr0 : Ready ({ e.m_in with m_messageSem := e.m_in.m_messageSem - 1 } : ShmFifo) := hr
  obtain ⟨g, hlock, hheld, hgd, hgm, hunlock⟩ := lock_of_ready _ hr0
  have hrg : Ready g := ⟨hheld.1, by have := hheld.2; omega, fun h => by have := hheld.2; omega⟩
  have hbg : InBounds g := by unfold InBounds; rw [hgd]; exact hb
  have hlg : live g = live e.m_in := by simp only [live, hgd]
  obtain ⟨d1, hr1, hb1, hl1⟩ := readInt_of_avail fuel id
    (int32Bytes 1 ++ int32Bytes L ++ rest) g h1 h2 hrg hbg
    (by rw [hlg, hl]; simp only [List.append_assoc])
  obtain ⟨d2, hr2, hb2, hl2⟩ := readInt_of_avail fuel 1
    (int32Bytes L ++ rest) { g with m_data := d1 } (by omega) (by omega) hrg hb1
    (by rw [hl1]; simp only [List.append_assoc])
  obtain ⟨d3, hr3, hb3, hl3⟩ := readInt_of_avail fuel L rest { g with m_data := d2 }
    (by simp only [SHM_FIFO_SIZE] at hL1; omega) hL2 hrg hb2 hl2
  have hshort : ((live ({ g with m_data := d3 } : ShmFifo)).length : Int) < L :=
    lt_of_le_of_lt (live_length_le _ hb3) hL1
  have hblock := read_blocks L { g with m_data := d3 } hrg hb3 hshort fuel
  have hL0 : L ≠ 0 := by simp only [SHM_FIFO_SIZE] at hL1; omega
  have hone : (1 : Int).toNat = 1 := rfl
  simp only [receiveMessage, hwait, Option.bind, hlock, hr1, hr2, hone, recvArgs, readString,
    hr3, hL0, ne_eq, not_false_eq_true, if_true, hblock, Option.map]

/-- C3 at its failing input: on a fresh out-FIFO, `sendMessage` of a message
with one 716800-byte argument returns and leaves 12 bytes of that message in
the FIFO (id 20, argument count 1, length 716800): the write is not dropped as
a whole. The endpoint stays valid and a following `IdStartProcessing` message
is sent, but the peer's `receiveMessage` then never returns, whatever the
number of wait rounds: it waits for 716800 bytes in a FIFO of 524288. -/
theorem oversize_message_blocks_receiver :
    ∃ j1 e1 j2 e2,
      sendMessage 1 ⟨20, [List.replicate 716800 65]⟩
        (⟨master fun _ => 0, master fun _ => 0, 0, ()⟩ : RemotePluginBase Unit) = some (j1, e1) ∧
      live e1.m_out = [20, 0, 0, 0, 1, 0, 0, 0, 0, 240, 10, 0] ∧
      e1.isInvalid = false ∧
      sendMessage 1 ⟨8, []⟩ e1 = some (j2, e2) ∧
      ∀ fuel, receiveMessage fuel (peer e2 ()) = none := by
  have hlenS : (List.replicate 716800 65 : List Nat).length = 716800 := List.length_replicate _ _
  obtain ⟨d1, hs1, hb1, hl1⟩ := sendMessage_oversize 1 (le_refl 1) 20 (List.replicate 716800 65)
    (⟨master fun _ => 0, master fun _ => 0, 0, ()⟩ : RemotePluginBase Unit)
    (ready_master _) (inBounds_master _)
    (by simp [live_master, SHM_FIFO_SIZE])
    (by rw [hlenS]; simp [SHM_FIFO_SIZE]) (by rw [hlenS]; simp)
  rw [hlenS] at hs1 hl1
  simp only [live_master, List.nil_append] at hl1
  have hlen1 : (live ({ (master fun _ => 0) with m_data := d1 } : ShmFifo)).length = 12 := by
    rw [hl1]; rfl
  obtain ⟨d2, hs2, hb2, hl2⟩ := sendMessage_of_room 1 (le_refl 1) ⟨8, []⟩
    (⟨master fun _ => 0, ShmFifo.messageSent { (master fun _ => 0) with m_data := d1 }, 0, ()⟩ :
      RemotePluginBase Unit)
    ⟨rfl, le_refl _, fun _ => Nat.one_pos⟩ hb1
    (by
      have : live (ShmFifo.messageSent { (master fun _ => 0) with m_data := d1 })
          = live ({ (master fun _ => 0) with m_data := d1 } : ShmFifo) := rfl
      rw [this, hlen1]; simp [encodedSize, SHM_FIFO_SIZE])
  have hl2' : live ({ (master fun _ => 0) with m_data := d2 } : ShmFifo)
      = int32Bytes 20 ++ int32Bytes 1 ++ int32Bytes 716800 ++ wire ⟨8, []⟩ := by
    have h3 : live ({ (master fun _ => 0) with m_data := d2 } : ShmFifo)
        = live (ShmFifo.messageSent { (master fun _ => 0) with m_data := d1 }) ++ wire ⟨8, []⟩ := hl2
    have h4 : live (ShmFifo.messageSent { (master fun _ => 0) with m_data := d1 })
        = live ({ (master fun _ => 0) with m_data := d1 } : ShmFifo) := rfl
    rw [h3, h4, hl1]; rfl
  refine ⟨_, _, _, _, hs1, ?_, rfl, hs2, ?_⟩
  · have : live (ShmFifo.messageSent { (master fun _ => 0) with m_data := d1 })
        = live ({ (master fun _ => 0) with m_data := d1 } : ShmFifo) := rfl
    rw [this, hl1]
    simp [int32Bytes]
  · exact receiveMessage_blocks 20 716800 (wire ⟨8, []⟩) _ (by norm_num) (by norm_num)
      (by simp [SHM_FIFO_SIZE]) (by norm_num)
      ⟨rfl, le_refl _, fun _ => Nat.one_pos⟩ hb2 (by simp [peer, remote, ShmFifo.messageSent, master])
      hl2'

theorem waitLoop_of_arrivals (cb : Callbacks σ) (fuel : Nat) (wm x : message)
    (post : List message)
    (hcb : ∀ m e1, ∃ b e2, cb.processMessage m e1 = some (b, e2) ∧ e2.m_in = e1.m_in ∧
      e2.m_out.m_invalid = e1.m_out.m_invalid)
    (hx : x.id = wm.id ∨ x.id = IdUndefined)
    (hxc : -2147483648 ≤ x.id ∧ x.id < 2147483648)
    (pre : List message) :
    ∀ (e : RemotePluginBase σ) (log : List message) (n : Nat), pre.length + 1 ≤ n →
      Ready e.m_in → InBounds e.m_in → e.m_out.m_invalid = false →
      pre.length + 1 ≤ e.m_in.m_messageSem →
      live e.m_in = (pre ++ x :: post).flatMap wire →
      (∀ m ∈ pre, m.id ≠ wm.id ∧ m.id ≠ IdUndefined ∧
        -2147483648 ≤ m.id ∧ m.id < 2147483648) →
      ∃ e', waitLoop cb fuel wm false n e log
          = some (x.cStrings, log ++ (pre ++ [x]).map message.cStrings, e') ∧
        dispatchInOrder cb fuel ((pre ++ [x]).map message.cStrings) e = some e' ∧
        live e'.m_in = post.flatMap wire ∧
        e'.m_in.m_messageSem + (pre.length + 1) = e.m_in.m_messageSem := by
  induction pre with
  | nil =>
    intro e log n hn hr hb hout hsem hl _
    obtain ⟨k, rfl⟩ : ∃ k, n = k + 1 := ⟨n - 1, by omega⟩
    have hval : e.isInvalid = false := by
      simp [isInvalid, ShmFifo.isInvalid, hr.1, hout]
    obtain ⟨d, hrecv, hb2, hl2⟩ := receiveMessage_of_avail fuel x (post.flatMap wire) e
      hxc.1 hxc.2 hr hb (by omega) (by simpa using hl)
    obtain ⟨b, e2, hp, hin2, _⟩ := hcb x.cStrings
      { e with m_in := { e.m_in with m_data := d, m_messageSem := e.m_in.m_messageSem - 1 } }
    refine ⟨e2, ?_, ?_, ?_, ?_⟩
    · have hid : x.cStrings.id = x.id := rfl
      simp only [waitLoop, hval, Bool.false_eq_true, if_false, Option.bind, Bool.false_and,
        hrecv, hp, List.nil_append, List.map_cons, List.map_nil, hid]
      rcases hx with h | h
      · simp [h]
      · simp [h]
    · simp only [List.nil_append, List.map_cons, List.map_nil, dispatchInOrder, hrecv,
        Option.some_bind, if_true, hp]
    · rw [hin2]; exact hl2
    · rw [hin2]; simp only [List.length_nil] at hsem ⊢; omega
  | cons m more ih =>
    intro e log n hn hr hb hout hsem hl hpre
    obtain ⟨k, rfl⟩ : ∃ k, n = k + 1 := ⟨n - 1, by omega⟩
    simp only [List.length_cons] at hn hsem
    have hm := hpre m (List.mem_cons_self _ _)
    have hval : e.isInvalid = false := by
      simp [isInvalid, ShmFifo.isInvalid, hr.1, hout]
    obtain ⟨d, hrecv, hb2, hl2⟩ := receiveMessage_of_avail fuel m
      ((more ++ x :: post).flatMap wire) e hm.2.2.1 hm.2.2.2 hr hb (by omega)
      (by rw [hl]; simp)
    obtain ⟨b, e2, hp, hin2, hout2⟩ := hcb m.cStrings
      { e with m_in := { e.m_in with m_data := d, m_messageSem := e.m_in.m_messageSem - 1 } }
    obtain ⟨e', hw, hdis, hl', hs'⟩ := ih e2 (log ++ [m.cStrings]) k (by omega)
      (by rw [hin2]; exact hr) (by rw [hin2]; exact hb2) (by rw [hout2]; exact hout)
      (by rw [hin2]; simp only; omega) (by rw [hin2]; exact hl2)
      (fun y hy => hpre y (List.mem_cons_of_mem _ hy))
    refine ⟨e', ?_, ?_, hl', ?_⟩
    · have hid : m.cStrings.id = m.id := rfl
      have hne1 : (m.id == wm.id) = false := by simpa using hm.1
      have hne2 : (m.id == IdUndefined) = false := by simpa using hm.2.1
      simp only [waitLoop, hval, Bool.false_eq_true, if_false, Option.bind, Bool.false_and,
        hrecv, hp, hid, hne1, hne2, hw, List.append_assoc, List.singleton_append,
        List.cons_append, List.nil_append, List.map_cons]
    · simp only [List.cons_append, List.map_cons, dispatchInOrder, hrecv, Option.some_bind,
        if_true, hp]
      exact hdis
    · rw [hin2] at hs'; simp only [List.length_cons] at hs' ⊢; omega

/-- With the recording handler, the calls made on the arrivals are in the
final state: the list of calls has grown by exactly these arrivals, in order. -/
theorem dispatchInOrder_records (fuel : Nat) (ms : List message) :
    ∀ e e' : RemotePluginBase (List message),
      dispatchInOrder recordingCallbacks fuel ms e = some e' → e'.ext = e.ext ++ ms := by
  induction ms with
  | nil =>
    intro e e' h
    simp only [dispatchInOrder, Option.some.injEq] at h
    rw [← h]; simp
  | cons m more ih =>
    intro e e' h
    simp only [dispatchInOrder, Option.bind_eq_some] at h
    obtain ⟨r, hr, h2⟩ := h
    have hext : r.2.ext = e.ext := by
      simp only [receiveMessage, Option.bind_eq_some, Option.map_eq_some'] at hr
      obtain ⟨i0, _, i1, _, r1, _, r2, _, r3, _, hr⟩ := hr
      rw [← hr]
    split at h2
    · simp only [recordingCallbacks, Option.some_bind] at h2
      have := ih _ _ h2
      rw [this, hext]
      simp
    · exact absurd h2 (by simp)

/-- C5: in non-busy mode, on a valid endpoint whose in-FIFO holds the wire
forms of the messages pre, x, post (32-bit ids), the arriving messages are
these with every argument as `receiveMessage` yields it (cut at its first zero
byte, `message.cStrings`). If no message of pre has the expected id or id
`IdUndefined` and x has one of the two, and the handler returns, leaves the
in-FIFO alone and does not invalidate the endpoint, then `waitForMessage`
returns the arrival of x, and the state it returns in is the state that
`dispatchInOrder` gives: the one reached by handing the arrivals of pre and
then of x to `processMessage`, each exactly once and in arrival order, whatever
the handler does with the rest of the state. The messages of post are still
in the in-FIFO, unread. -/
theorem waitForMessage_returns_first_match (cb : Callbacks σ) (fuel : Nat) (wm x : message)
    (busy_waiting mainThread : Bool) (pre post : List message) (e : RemotePluginBase σ)
    (hnb : (busy_waiting && mainThread) = false)
    (hcb : ∀ m e1, ∃ b e2, cb.processMessage m e1 = some (b, e2) ∧ e2.m_in = e1.m_in ∧
      e2.m_out.m_invalid = e1.m_out.m_invalid)
    (hx : x.id = wm.id ∨ x.id = IdUndefined)
    (hpre : ∀ m ∈ pre, m.id ≠ wm.id ∧ m.id ≠ IdUndefined)
    (hid : ∀ m ∈ pre ++ [x], -2147483648 ≤ m.id ∧ m.id < 2147483648)
    (hfuel : pre.length + 1 ≤ fuel)
    (hr : Ready e.m_in) (hb : InBounds e.m_in) (hout : e.m_out.m_invalid = false)
    (hsem : pre.length + 1 ≤ e.m_in.m_messageSem)
    (hl : live e.m_in = (pre ++ x :: post).flatMap wire) :
    ∃ e', waitForMessage cb fuel wm busy_waiting mainThread e
        = some (x.cStrings, (pre ++ [x]).map message.cStrings, e') ∧
      dispatchInOrder cb fuel ((pre ++ [x]).map message.cStrings) e = some e' ∧
      live e'.m_in = post.flatMap wire ∧
      e'.m_in.m_messageSem + (pre.length + 1) = e.m_in.m_messageSem := by
  obtain ⟨e', hw, hdis, hl', hs'⟩ := waitLoop_of_arrivals cb fuel wm x post hcb hx
    (hid x (by simp)) pre e [] fuel hfuel hr hb hout hsem hl
    (fun m hm => ⟨(hpre m hm).1, (hpre m hm).2, hid m (by simp [hm])⟩)
  refine ⟨e', ?_, hdis, hl', hs'⟩
  simp only [waitForMessage, hnb, Bool.false_eq_true, if_false, hw, Option.map, List.nil_append]

/-- An in-FIFO that holds `IdInformationUpdated`, `IdProcessingDone` and a
`IdMidiEvent` message, and a handler that records its calls: waiting for
`IdProcessingDone` returns that message, the handler has been called on the
first two messages, once each and in this order, and the third is left. -/
theorem waitForMessage_returns_first_match_witness :
    ∃ e', waitForMessage recordingCallbacks 2 ⟨9, []⟩ false true
        ⟨⟨false, 0, ⟨0, 29, fun i => ([6, 0, 0, 0, 0, 0, 0, 0, 9, 0, 0, 0, 0, 0, 0, 0,
            7, 0, 0, 0, 1, 0, 0, 0, 1, 0, 0, 0, 49] : List Nat).getD i 0⟩, 1, 3⟩,
          master fun _ => 0, 0, []⟩
        = some (⟨9, []⟩, [⟨6, []⟩, ⟨9, []⟩], e') ∧
      e'.ext = [⟨6, []⟩, ⟨9, []⟩] ∧
      live e'.m_in = [7, 0, 0, 0, 1, 0, 0, 0, 1, 0, 0, 0, 49] := by
  obtain ⟨e', h1, hd, h2, _⟩ := waitForMessage_returns_first_match
    recordingCallbacks 2 ⟨9, []⟩ ⟨9, []⟩ false true
    [⟨6, []⟩] [⟨7, [[49]]⟩]
    ⟨⟨false, 0, ⟨0, 29, fun i => ([6, 0, 0, 0, 0, 0, 0, 0, 9, 0, 0, 0, 0, 0, 0, 0,
        7, 0, 0, 0, 1, 0, 0, 0, 1, 0, 0, 0, 49] : List Nat).getD i 0⟩, 1, 3⟩,
      master fun _ => 0, 0, []⟩
    rfl (fun _ e1 => ⟨true, _, rfl, rfl, rfl⟩) (Or.inl rfl) (by decide) (by decide) (by decide)
    ⟨rfl, le_refl _, fun _ => Nat.one_pos⟩ ⟨by decide, by decide, by decide⟩ rfl (by decide)
    (by decide)
  exact ⟨e', h1, dispatchInOrder_records 2 _ _ _ hd, by rw [h2]; decide⟩

/-- C8: on an endpoint that has been invalidated (its in-FIFO carries the
invalid flag), `waitForMessage` returns, for every expected message and in
every wait mode, the message `message()` with id `IdUndefined` = 0 and no
argument, without handing anything to `processMessage` and without changing
the endpoint; `receiveMessage` returns the same message and takes nothing from
the in-FIFO (its segment and its message semaphore are unchanged). -/
theorem invalidated_endpoint_returns_sentinel (cb : Callbacks σ) (fuel : Nat) (wm : message)
    (busy_waiting mainThread : Bool) (e : RemotePluginBase σ) (hin : e.m_in.m_invalid = true) :
    waitForMessage cb fuel wm busy_waiting mainThread e = some (message.empty, [], e) ∧
    (∃ e', receiveMessage fuel e = some (message.empty, e') ∧
      e'.m_in.m_data = e.m_in.m_data ∧ e'.m_in.m_messageSem = e.m_in.m_messageSem ∧
      e'.m_out = e.m_out) ∧
    message.empty.id = 0 ∧ message.empty.data = [] := by
  refine ⟨?_, ?_, rfl, rfl⟩
  · have hinv : ∀ w, ({ e with waitDepth := w } : RemotePluginBase σ).isInvalid = true := by
      intro w; simp [isInvalid, ShmFifo.isInvalid, hin]
    have hinv0 : e.isInvalid = true := hinv e.waitDepth
    have hloop : ∀ (e1 : RemotePluginBase σ) (b : Bool), e1.isInvalid = true →
        waitLoop cb fuel wm b fuel e1 [] = some (message.empty, [], e1) := by
      intro e1 b h1
      cases fuel <;> simp [waitLoop, h1]
    cases hbm : (busy_waiting && mainThread)
    · simp only [waitForMessage, hbm, Bool.false_eq_true, if_false, hloop e false hinv0,
        Option.map]
    · simp only [waitForMessage, hbm, if_true, hloop _ true (hinv _), Option.map,
        add_sub_cancel_right]
  · have hread : ∀ n : Nat, ShmFifo.read fuel n e.m_in = some (List.replicate n 0, e.m_in) := by
      intro n; simp [ShmFifo.read, ShmFifo.isInvalid, hin]
    have hi : ShmFifo.readInt fuel e.m_in = some (0, e.m_in) := by
      have h4 := hread 4
      simp only [Nat.cast_ofNat] at h4
      simp only [ShmFifo.readInt, h4, Option.map]
      rfl
    refine ⟨{ e with m_in := e.m_in.unlock }, ?_, unlock_data _, unlock_messageSem _, rfl⟩
    simp only [receiveMessage, ShmFifo.waitForMessage, ShmFifo.lock, ShmFifo.isInvalid, hin,
      Bool.not_true, Bool.false_eq_true, if_false, Option.bind, hi, Int.toNat_zero, recvArgs,
      Option.map]
    rfl

/-- The sentinel on the invalidated endpoint of a fresh pair of FIFOs. -/
theorem invalidated_endpoint_returns_sentinel_witness :
    waitForMessage (⟨fun _ e => some (true, e), id⟩ : Callbacks Unit) 0 ⟨9, []⟩ true true
        (invalidate ⟨master fun _ => 0, master fun _ => 0, 0, ()⟩)
      = some (⟨0, []⟩, [], invalidate ⟨master fun _ => 0, master fun _ => 0, 0, ()⟩) :=
  (invalidated_endpoint_returns_sentinel (⟨fun _ e => some (true, e), id⟩ : Callbacks Unit) 0
    ⟨9, []⟩ true true (invalidate ⟨master fun _ => 0, master fun _ => 0, 0, ()⟩) rfl).1

theorem sendMessage_frame (fuel : Nat) (m : message) (e e' : RemotePluginBase σ) (j : Int)
    (h : sendMessage fuel m e = some (j, e')) :
    e'.ext = e.ext ∧ e'.m_in = e.m_in ∧ e'.waitDepth = e.waitDepth := by
  simp only [sendMessage, Option.bind_eq_some, Option.map_eq_some'] at h
  obtain ⟨o1, _, o2, _, o3, _, r, _, hr⟩ := h
  have h2 := (Prod.mk.inj hr).2
  subst h2
  exact ⟨rfl, rfl, rfl⟩

end RemotePluginBase

/-! ## Facts about `RemotePlugin::process` -/

namespace RemotePlugin

open RemotePluginBase ShmFifo

theorem clear_zero (ab : Nat → Int) (frames i : Nat) (h : i < frames * DEFAULT_CHANNELS) :
    clear ab frames i = 0 := by
  simp [clear, h]

theorem fetchAll_of_invalid (cb : Callbacks RemotePluginFields) (fuel n : Nat) (p : RemotePlugin)
    (hin : p.m_in.m_invalid = true) :
    fetchAndProcessAllMessages cb fuel n p = some p := by
  have hm : RemotePluginBase.messagesLeft p = some (false, p) := by
    simp [RemotePluginBase.messagesLeft, ShmFifo.messagesLeft, ShmFifo.isInvalid, hin]
  cases n <;> simp [fetchAndProcessAllMessages, hm]

/-- C9 (as amended): if the endpoint has been invalidated (its in-FIFO carries
the invalid flag) when `process(in, out)` is called with a non-null `out`, and
the failed flag is set, or the child is not running, or the SHM pointer is
null, then `process` returns false and every sample of `out[0..frames)` is 0
on return. -/
theorem process_invalid_early_return_silence (cb : Callbacks RemotePluginFields)
    (eng : Engine) (fuel : Nat) (in_buf : Option (Nat → Int)) (out_buf : Nat → Int)
    (p : RemotePlugin)
    (hin : p.m_in.m_invalid = true)
    (hstate : p.ext.m_failed = true ∨ p.ext.running = false ∨ p.ext.m_shm = none) :
    ∃ o p', process cb eng fuel in_buf (some out_buf) p = some (false, some o, p') ∧
      ∀ i, i < eng.framesPerPeriod * DEFAULT_CHANNELS → o i = 0 := by
  by_cases h1 : (p.ext.m_failed || !p.ext.running) = true
  · refine ⟨clear out_buf eng.framesPerPeriod, p, ?_, fun i hi => clear_zero _ _ _ hi⟩
    simp [process, processBegin, h1]
  · have hshm : p.ext.m_shm = none := by
      rcases hstate with h | h | h
      · simp [h] at h1
      · simp [h] at h1
      · exact h
    by_cases h2 : (p.ext.m_shmSize == 0) = true
    · refine ⟨clear out_buf eng.framesPerPeriod, unlock (lock p), ?_, fun i hi => clear_zero _ _ _ hi⟩
      have hf := fetchAll_of_invalid cb fuel fuel (lock p) hin
      simp [process, processBegin, h1, hshm, h2, hf]
    · refine ⟨clear out_buf eng.framesPerPeriod, p, ?_, fun i hi => clear_zero _ _ _ hi⟩
      simp [process, processBegin, h1, hshm, h2]

/-- An invalidated host whose failed flag is set. -/
theorem process_invalid_early_return_silence_witness :
    ∃ o p', process ignoreAll (exampleEngine 1) 0 none (some fun _ => 5)
        (RemotePluginBase.invalidate (exampleHost true true none 2)) = some (false, some o, p') ∧
      o 0 = 0 ∧ o 1 = 0 := by
  obtain ⟨o, p', h1, h2⟩ := process_invalid_early_return_silence ignoreAll (exampleEngine 1) 0 none (fun _ => 5)
    (RemotePluginBase.invalidate (exampleHost true true none 2)) rfl (Or.inl rfl)
  exact ⟨o, p', h1, h2 0 (by decide), h2 1 (by decide)⟩

/-- C9 fails when the failed flag is clear, the child is running and the audio
segment is attached: on an invalidated endpoint `process` with a non-null `out`
and two outputs returns true. -/
theorem process_invalid_returns_true_counterexample :
    (process ignoreAll (exampleEngine 1) 0 none (some fun _ => 5)
        (RemotePluginBase.invalidate (exampleHost false true (some fun _ => 0) 2))).map
      (fun r => r.1) = some true := by
  decide

/-- C10 fails when the output count is 0: with the failed flag clear, the child
running and the audio segment attached, `process` returns false from the test
after `sendMessage(IdStartProcessing)` and leaves `out` as it was, here with
sample 5 at index 0. -/
theorem process_false_out_untouched_counterexample :
    (process ignoreAll (exampleEngine 1) 1 none (some fun _ => 5)
        (exampleHost false true (some fun _ => 0) 0)).map
      (fun r => (r.1, r.2.1.map fun o => o 0)) = some (false, some 5) := by
  decide

/-- C10 (as amended): whenever `process(in, out)` with a non-null `out`
returns false, either every sample of `out[0..frames)` is 0 on return, or the
return is the one after `sendMessage(IdStartProcessing)`, taken with the failed
flag clear, the child running, the audio segment attached and an output count
of 0, and `out` is as it was at the call. So a false return is silence
whenever the output count is not 0. -/
theorem process_false_silence_or_no_outputs (cb : Callbacks RemotePluginFields)
    (eng : Engine) (fuel : Nat) (in_buf : Option (Nat → Int)) (out_buf : Nat → Int)
    (p p' : RemotePlugin) (r : Option (Nat → Int))
    (h : process cb eng fuel in_buf (some out_buf) p = some (false, r, p')) :
    (∃ o, r = some o ∧
      ((∀ i, i < eng.framesPerPeriod * DEFAULT_CHANNELS → o i = 0) ∨
        (o = out_buf ∧ p.ext.m_failed = false ∧ p.ext.running = true ∧
          p.ext.m_shm ≠ none ∧ p.ext.m_outputCount = 0))) ∧
    (p.ext.m_outputCount ≠ 0 →
      ∃ o, r = some o ∧ ∀ i, i < eng.framesPerPeriod * DEFAULT_CHANNELS → o i = 0) := by
  have key : ∃ o, r = some o ∧
      ((∀ i, i < eng.framesPerPeriod * DEFAULT_CHANNELS → o i = 0) ∨
        (o = out_buf ∧ p.ext.m_failed = false ∧ p.ext.running = true ∧
          p.ext.m_shm ≠ none ∧ p.ext.m_outputCount = 0)) := by
    by_cases h1 : (p.ext.m_failed || !p.ext.running) = true
    · simp only [process, processBegin, h1, if_true, Option.map, Option.bind,
        Option.some.injEq, Prod.mk.injEq, true_and] at h
      exact ⟨clear out_buf eng.framesPerPeriod, h.1.symm, Or.inl fun i hi => clear_zero _ _ _ hi⟩
    · have hf : p.ext.m_failed = false := by
        cases hx : p.ext.m_failed <;> simp [hx] at h1 ⊢
      have hrun : p.ext.running = true := by
        cases hx : p.ext.running <;> simp [hx, hf] at h1 ⊢
      cases hshm : p.ext.m_shm with
      | none =>
        simp only [process, processBegin, h1, hshm, Bool.false_eq_true, if_false,
          Option.bind_eq_some, Option.map_eq_some'] at h
        obtain ⟨st, ⟨p1, _, rfl⟩, h3⟩ := h
        simp only [Option.some.injEq, Prod.mk.injEq, true_and] at h3
        exact ⟨clear out_buf eng.framesPerPeriod, h3.1.symm, Or.inl fun i hi => clear_zero _ _ _ hi⟩
      | some shm =>
        simp only [process, processBegin, h1, hshm, Bool.false_eq_true, if_false,
          Option.bind_eq_some, Option.map_eq_some'] at h
        obtain ⟨st, ⟨q, hsend, rfl⟩, h3⟩ := h
        obtain ⟨j, p2⟩ := q
        have hext := (sendMessage_frame fuel _ _ p2 j hsend).1
        have hf2 : p2.ext.m_failed = false := by rw [hext]; exact hf
        have ho2 : p2.ext.m_outputCount = p.ext.m_outputCount := by rw [hext]; rfl
        simp only [hf2, ho2, Bool.false_or] at h3
        by_cases hz : (p.ext.m_outputCount == 0) = true
        · simp only [hz, if_true, Option.some.injEq, Prod.mk.injEq, true_and] at h3
          refine ⟨out_buf, h3.1.symm, Or.inr ⟨rfl, hf, hrun, by simp, by simpa using hz⟩⟩
        · simp only [hz, Bool.false_eq_true, if_false, processEnd, Option.bind_eq_some] at h3
          obtain ⟨w, _, h4⟩ := h3
          cases hs2 : (unlock w.2.2).ext.m_shm with
          | none => simp [hs2] at h4
          | some s2 => simp [hs2] at h4
  refine ⟨key, fun hne => ?_⟩
  obtain ⟨o, ho, hcase⟩ := key
  rcases hcase with hzero | ⟨_, _, _, _, h0⟩
  · exact ⟨o, ho, hzero⟩
  · exact absurd h0 hne

/-- A false return of a host whose failed flag is set. -/
theorem process_false_silence_or_no_outputs_witness :
    ∃ o, some (clear (fun _ => 5) 1) = some o ∧ ∀ i, i < 1 * DEFAULT_CHANNELS → o i = 0 :=
  (process_false_silence_or_no_outputs ignoreAll (exampleEngine 1) 0 none (fun _ => 5)
    (exampleHost true true none 2) (exampleHost true true none 2)
    (some (clear (fun _ => 5) 1)) rfl).2 (by decide)

end RemotePlugin

/-! ## Oversize writes, the returned byte count, pending messages, interrupted reads -/

namespace ShmFifo

/-- C19: for every FIFO object, valid or not, whatever its offsets, lock depth
and semaphores, and every `len > SHM_FIFO_SIZE`, `write(buf, len)` returns
without a single wait round (fuel 0 included) and leaves the whole object,
hence `startPtr`, `endPtr`, the data area and the invalid flag, as it was. -/
theorem write_oversize_is_dropped (fuel : Nat) (buf : List Nat) (len : Int) (f : ShmFifo)
    (h : SHM_FIFO_SIZE < len) :
    write fuel buf len f = some f ∧ write 0 buf len f = some f := by
  constructor <;> simp [write, h]

/-- A write of 716800 bytes on a fresh FIFO. -/
theorem write_oversize_is_dropped_witness :
    write 0 [] 716800 (master fun _ => 0) = some (master fun _ => 0) :=
  (write_oversize_is_dropped 0 [] 716800 (master fun _ => 0) (by decide)).1

theorem readWaitWith_id (fuel : Nat) (len : Int) (f : ShmFifo) :
    readWaitWith id fuel len f = readWait fuel len f := by
  induction fuel generalizing f with
  | zero => rfl
  | succ k ih =>
    simp only [readWaitWith, readWait, id]
    split
    · cases h : f.unlock.lock with
      | none => rfl
      | some g => simp only [Option.bind]; exact ih g
    · rfl

theorem readWith_id (fuel : Nat) (len : Int) (f : ShmFifo) :
    readWith id fuel len f = read fuel len f := by
  simp only [readWith, read, readWaitWith_id]

/-- C18 at its failing input: `read(buf, 4)` on a fresh FIFO finds no data and
waits; `invalidate()` is called by another thread during the first sleep. The
loop ends, the copy is not skipped: `read` returns four bytes of the data area
(here 7, 7, 7, 7, not zeros) and adds 4 to `startPtr`, which ends at 4 above
`endPtr` = 0. -/
theorem read_invalidated_while_waiting_overshoots :
    (readWith invalidate 1 4 (master fun _ => 7)).map
      (fun r => (r.1, r.2.m_data.startPtr, r.2.m_data.endPtr, r.2.m_invalid))
      = some ([7, 7, 7, 7], 4, 0, true) := by
  decide

end ShmFifo

namespace RemotePluginBase

open ShmFifo

variable {σ : Type}

theorem sendArgs_count (fuel : Nat) (args : List (List Nat)) :
    ∀ (f f' : ShmFifo) (j j' : Int), sendArgs fuel args f j = some (f', j') →
      0 ≤ j → j + ((args.map fun a => 4 + a.length).sum : Nat) < 2147483648 →
      j' = j + ((args.map fun a => 4 + a.length).sum : Nat) := by
  induction args with
  | nil =>
    intro f f' j j' h _ _
    simp only [sendArgs, Option.some.injEq, Prod.mk.injEq] at h
    simp [h.2]
  | cons a rest ih =>
    intro f f' j j' h h0 hlt
    simp only [List.map_cons, List.sum_cons, Nat.cast_add, Nat.cast_ofNat] at hlt ⊢
    have hrest : (0 : Int) ≤ ((rest.map fun a => 4 + a.length).sum : Nat) := by omega
    have hj : toInt32 (j + 4 + (a.length : Int)) = j + 4 + a.length := by
      apply toInt32_of_range <;> omega
    simp only [sendArgs, Option.bind_eq_some, hj] at h
    obtain ⟨f1, _, h2⟩ := h
    have := ih f1 f' (j + 4 + a.length) j' h2 (by omega) (by omega)
    omega

/-- The `int` that `sendMessage` returns is computed from the lengths of the
arguments alone. -/
theorem sendMessage_count (fuel : Nat) (m : message) (e e' : RemotePluginBase σ) (j : Int)
    (h : sendMessage fuel m e = some (j, e')) (hsize : (encodedSize m : Int) < 2147483648) :
    j = encodedSize m := by
  simp only [sendMessage, Option.bind_eq_some, Option.map_eq_some'] at h
  obtain ⟨o1, _, o2, _, o3, _, r, hr, hres⟩ := h
  obtain ⟨f', j'⟩ := r
  have hj := (Prod.mk.inj hres).1
  simp only at hj
  subst hj
  simp only [encodedSize, Nat.cast_add, Nat.cast_ofNat] at hsize ⊢
  have := sendArgs_count fuel m.data o3 f' 8 j' hr (by omega) (by omega)
  omega

/-- C13 (as amended): for every message whose encoded size 8 + sum (4 +
len(arg)) is below 2^31 and every endpoint state in which `sendMessage`
returns, valid or not, with or without room, the returned `int` is that encoded
size; on an endpoint whose out-FIFO is valid and has room, `sendMessage`
returns and this is the number of bytes it appended to the out-FIFO. -/
theorem sendMessage_returns_encoded_size (fuel : Nat) (m : message) (e : RemotePluginBase σ)
    (hsize : (encodedSize m : Int) < 2147483648) :
    (∀ j e', sendMessage fuel m e = some (j, e') → j = encodedSize m) ∧
    (1 ≤ fuel → Ready e.m_out → InBounds e.m_out →
      ((live e.m_out).length : Int) + encodedSize m ≤ SHM_FIFO_SIZE →
      ∃ j e', sendMessage fuel m e = some (j, e') ∧ j = encodedSize m ∧
        (live e'.m_out).length = (live e.m_out).length + encodedSize m) := by
  refine ⟨fun j e' h => sendMessage_count fuel m e e' j h hsize, ?_⟩
  intro hfuel hr hb hroom
  obtain ⟨d, hs, _, hl⟩ := sendMessage_of_room fuel hfuel m e hr hb hroom
  refine ⟨_, _, hs, rfl, ?_⟩
  have h1 : live (ShmFifo.messageSent { e.m_out with m_data := d })
      = live ({ e.m_out with m_data := d } : ShmFifo) := rfl
  simp only [h1, hl, List.length_append, wire_length]

/-- The count returned for `IdMidiEvent("1")` on a fresh out-FIFO is the 13
bytes that were appended. -/
theorem sendMessage_returns_encoded_size_witness :
    ∃ j e', sendMessage 1 ⟨7, [[49]]⟩
        (⟨master fun _ => 0, master fun _ => 0, 0, ()⟩ : RemotePluginBase Unit) = some (j, e') ∧
      j = 13 ∧ (live e'.m_out).length = 13 := by
  obtain ⟨j, e', h1, h2, h3⟩ := (sendMessage_returns_encoded_size 1 ⟨7, [[49]]⟩
    (⟨master fun _ => 0, master fun _ => 0, 0, ()⟩ : RemotePluginBase Unit) (by decide)).2
      (le_refl 1) (ready_master _) (inBounds_master _)
      (by simp [live_master, encodedSize, SHM_FIFO_SIZE])
  exact ⟨j, e', h1, by rw [h2]; rfl, by rw [h3, live_master]; rfl⟩

/-- C13 fails on an invalidated endpoint: `sendMessage` of `IdMidiEvent("1")`
returns 13 and has written nothing, `endPtr` of the out-FIFO is still 0. -/
theorem sendMessage_invalid_count_counterexample :
    (sendMessage 1 ⟨7, [[49]]⟩
        (invalidate (⟨master fun _ => 0, master fun _ => 0, 0, ()⟩ : RemotePluginBase Unit))).map
      (fun r => (r.1, r.2.m_out.m_data.startPtr, r.2.m_out.m_data.endPtr)) = some (13, 0, 0) := by
  decide

/-- C14 at its failing input: after `sendMessage` of a message with one
716800-byte argument on a fresh FIFO the out-FIFO holds 12 bytes, the header of
a message whose argument was dropped. On the peer `messagesLeft()` returns
true, yet no complete message is buffered: `receiveMessage` never returns,
whatever the number of wait rounds. -/
theorem messagesLeft_true_without_complete_message :
    ∃ j e1,
      sendMessage 1 ⟨20, [List.replicate 716800 65]⟩
        (⟨master fun _ => 0, master fun _ => 0, 0, ()⟩ : RemotePluginBase Unit) = some (j, e1) ∧
      live e1.m_out = [20, 0, 0, 0, 1, 0, 0, 0, 0, 240, 10, 0] ∧
      (messagesLeft (peer e1 ())).map (fun r => r.1) = some true ∧
      ∀ fuel, receiveMessage fuel (peer e1 ()) = none := by
  have hlenS : (List.replicate 716800 65 : List Nat).length = 716800 := List.length_replicate _ _
  obtain ⟨d1, hs1, hb1, hl1⟩ := sendMessage_oversize 1 (le_refl 1) 20 (List.replicate 716800 65)
    (⟨master fun _ => 0, master fun _ => 0, 0, ()⟩ : RemotePluginBase Unit)
    (ready_master _) (inBounds_master _)
    (by simp [live_master, SHM_FIFO_SIZE])
    (by rw [hlenS]; simp [SHM_FIFO_SIZE]) (by rw [hlenS]; simp)
  rw [hlenS] at hs1 hl1
  simp only [live_master, List.nil_append] at hl1
  have hlive : live (ShmFifo.messageSent { (master fun _ => 0) with m_data := d1 })
      = live ({ (master fun _ => 0) with m_data := d1 } : ShmFifo) := rfl
  have hne : d1.startPtr ≠ d1.endPtr := by
    intro heq
    have hlen : (live ({ (master fun _ => 0) with m_data := d1 } : ShmFifo)).length = 12 := by
      rw [hl1]; rfl
    rw [live_length] at hlen
    simp only [heq, sub_self, Int.toNat_zero] at hlen
    omega
  refine ⟨_, _, hs1, ?_, ?_, ?_⟩
  · rw [hlive, hl1]; simp [int32Bytes]
  · simp [messagesLeft, peer, remote, ShmFifo.messagesLeft, ShmFifo.isInvalid, ShmFifo.lock,
      ShmFifo.messageSent, master, hne]
  · exact receiveMessage_blocks 20 716800 [] _ (by norm_num) (by norm_num)
      (by simp [SHM_FIFO_SIZE]) (by norm_num)
      ⟨rfl, le_refl _, fun _ => Nat.one_pos⟩ hb1
      (by simp [peer, remote, ShmFifo.messageSent, master])
      (by
        have : live (peer (⟨master fun _ => 0,
            ShmFifo.messageSent { (master fun _ => 0) with m_data := d1 }, 0, ()⟩ :
            RemotePluginBase Unit) ()).m_in
            = live ({ (master fun _ => 0) with m_data := d1 } : ShmFifo) := rfl
        rw [this, hl1]; simp)

end RemotePluginBase

/-! ## System-V shared memory: attach, detach, the search for a free key -/

namespace SharedMemorySysV

theorem detach_of_unset (h : SharedMemorySysV) (os : SysV) (hid : h.m_shmID = -1) :
    detach h os = (false, h, os) := by
  simp [detach, hid]

theorem setKey_of_unset (key : Int) (h : SharedMemorySysV) (os : SysV) (hid : h.m_shmID = -1) :
    setKey key h os = ({ h with m_key := key }, os) := by
  simp [setKey, detach_of_unset h os hid]

theorem attach_of_unset (readOnly : Bool) (h : SharedMemorySysV) (os : SysV)
    (hid : h.m_shmID = -1) : attach readOnly h os = (none, h, os) := by
  simp [attach, hid]

theorem create_of_inUse (size : Nat) (h : SharedMemorySysV) (os : SysV)
    (h0 : h.m_key ≠ 0) (hk : os.keyInUse h.m_key = true) :
    create size h os = (none, { h with m_shmID := -1 }, os) := by
  have hne : (h.m_key != 0) = true := by simpa using h0
  by_cases hs : (decide (size < SysV.SHMMIN) || decide (size > SysV.SHMMAX)) = true
  · simp [create, SysV.shmgetCreate, hs]
  · simp [create, SysV.shmgetCreate, hs, hk, hne]

theorem create_of_bad_size (size : Nat) (h : SharedMemorySysV) (os : SysV)
    (hs : size < SysV.SHMMIN ∨ SysV.SHMMAX < size) :
    create size h os = (none, { h with m_shmID := -1 }, os) := by
  have hs2 : (decide (size < SysV.SHMMIN) || decide (size > SysV.SHMMAX)) = true := by
    simpa using hs
  simp [create, SysV.shmgetCreate, hs2]

theorem create_of_free (size : Nat) (h : SharedMemorySysV) (os : SysV)
    (hmin : SysV.SHMMIN ≤ size) (hmax : size ≤ SysV.SHMMAX)
    (hk : os.keyInUse h.m_key = false) :
    create size h os =
      (some os.nextId,
        { m_key := h.m_key, m_shmID := (os.nextId : Int), m_data := some os.nextId, m_size := size, m_isMaster := true },
        { segments := os.segments ++ [{ key := h.m_key, shmid := os.nextId, size := size, removed := false }], attached := os.nextId :: os.attached, nextId := os.nextId + 1 }) := by
  have hne : ((os.nextId : Int) == -1) = false := by
    simp only [beq_eq_false_iff_ne, ne_eq]
    omega
  have hs : (decide (size < SysV.SHMMIN) || decide (size > SysV.SHMMAX)) = false := by
    simp only [Bool.or_eq_false_iff, decide_eq_false_iff_not]
    omega
  simp only [create, SysV.shmgetCreate, hs, hk, Bool.and_false, Bool.false_eq_true, if_false,
    hne, attach, Bool.not_true, SysV.shmat, Bool.false_and]
  cases hf : List.find? (fun s : Segment => ((s.shmid : Int) == (os.nextId : Int)))
      (os.segments ++ [{ key := h.m_key, shmid := os.nextId, size := size, removed := false }]) with
  | none =>
    exfalso
    rw [List.find?_eq_none] at hf
    have := hf { key := h.m_key, shmid := os.nextId, size := size, removed := false } (by simp)
    simp at this
  | some s =>
    have hs := List.find?_some hf
    simp only [beq_iff_eq, Nat.cast_inj] at hs
    simp [hs]

end SharedMemorySysV

open SharedMemorySysV in
theorem createShmWithFreeKey_of_free (size : Nat) (hmin : SysV.SHMMIN ≤ size)
    (hmax : size ≤ SysV.SHMMAX) :
    ∀ (n fuel : Nat) (shm : SharedMemorySysV) (key : Int) (os : SysV), n ≤ fuel →
      0 ≤ key → key + 1 + n ≤ 2147483647 →
      (∀ j : Nat, j < n → (detach shm os).2.2.keyInUse (key + 1 + j) = true) →
      (detach shm os).2.2.keyInUse (key + 1 + n) = false →
      createShmWithFreeKey fuel shm size key os =
        some (some (detach shm os).2.2.nextId,
          { m_key := key + 1 + n, m_shmID := ((detach shm os).2.2.nextId : Int), m_data := some (detach shm os).2.2.nextId, m_size := size, m_isMaster := true },
          key + 1 + n,
          { segments := (detach shm os).2.2.segments ++ [{ key := key + 1 + n, shmid := (detach shm os).2.2.nextId, size := size, removed := false }], attached := (detach shm os).2.2.nextId :: (detach shm os).2.2.attached, nextId := (detach shm os).2.2.nextId + 1 }) := by
  intro n
  induction n with
  | zero =>
    intro fuel shm key os _ hk0 hrange _ hfree
    simp only [Nat.cast_zero, add_zero] at hfree hrange ⊢
    have hc := create_of_free size { (detach shm os).2.1 with m_key := key + 1 }
      (detach shm os).2.2 hmin hmax hfree
    have hov : ¬ (key + 1 > 2147483647) := by omega
    cases fuel <;> simp only [createShmWithFreeKey, hov, if_false, setKey, hc] <;> simp
  | succ n ih =>
    intro fuel shm key os hfuel hk0 hrange hused hfree
    cases fuel with
    | zero => omega
    | succ k =>
      have h0 := hused 0 (by omega)
      simp only [Nat.cast_zero, add_zero] at h0
      have hov : ¬ (key + 1 > 2147483647) := by push_cast at hrange; omega
      have hc := create_of_inUse size { (detach shm os).2.1 with m_key := key + 1 }
        (detach shm os).2.2 (by show key + 1 ≠ 0; omega) h0
      have hd : detach { ({ (detach shm os).2.1 with m_key := key + 1 } : SharedMemorySysV) with m_shmID := -1 } (detach shm os).2.2
          = (false, { ({ (detach shm os).2.1 with m_key := key + 1 } : SharedMemorySysV) with m_shmID := -1 }, (detach shm os).2.2) :=
        detach_of_unset _ _ rfl
      have := ih k { ({ (detach shm os).2.1 with m_key := key + 1 } : SharedMemorySysV) with m_shmID := -1 } (key + 1)
        (detach shm os).2.2 (by omega) (by omega) (by push_cast at hrange ⊢; omega)
        (by
          intro j hj
          rw [hd]
          have := hused (j + 1) (by omega)
          rw [← this]
          congr 1
          push_cast
          ring)
        (by
          rw [hd, ← hfree]
          congr 1
          push_cast
          ring)
      rw [hd] at this
      simp only [createShmWithFreeKey, hov, if_false, setKey, hc, Option.isNone_none, if_true]
      rw [this]
      have hk : key + 1 + 1 + (n : Int) = key + 1 + ((n + 1 : Nat) : Int) := by
        push_cast
        ring
      rw [hk]

open SharedMemorySysV in
theorem createShmWithFreeKey_of_bad_size (size : Nat)
    (hs : size < SysV.SHMMIN ∨ SysV.SHMMAX < size) :
    ∀ (fuel : Nat) (shm : SharedMemorySysV) (key : Int) (os : SysV),
      createShmWithFreeKey fuel shm size key os = none := by
  intro fuel
  induction fuel with
  | zero =>
    intro shm key os
    unfold createShmWithFreeKey
    by_cases hov : key + 1 > 2147483647
    · simp only [hov, if_true]
    · simp only [hov, if_false, create_of_bad_size size _ _ hs, Option.isNone_none, if_true]
  | succ k ih =>
    intro shm key os
    unfold createShmWithFreeKey
    by_cases hov : key + 1 > 2147483647
    · simp only [hov, if_true]
    · simp only [hov, if_false, create_of_bad_size size _ _ hs, Option.isNone_none, if_true]
      exact ih _ _ _

theorem createShmWithFreeKey_of_overflow (fuel : Nat) (shm : SharedMemorySysV) (size : Nat)
    (key : Int) (os : SysV) (hov : 2147483647 ≤ key) :
    createShmWithFreeKey fuel shm size key os = none := by
  have h : key + 1 > 2147483647 := by omega
  cases fuel <;> simp only [createShmWithFreeKey, h, if_true]

theorem createShmWithFreeKey_succ (size : Nat) :
    ∀ (fuel : Nat) (shm : SharedMemorySysV) (key : Int) (os : SysV)
      (r : Option Nat × SharedMemorySysV × Int × SysV),
      createShmWithFreeKey fuel shm size key os = some r →
      createShmWithFreeKey (fuel + 1) shm size key os = some r := by
  intro fuel
  induction fuel with
  | zero =>
    intro shm key os r h
    unfold createShmWithFreeKey at h
    unfold createShmWithFreeKey
    by_cases hov : key + 1 > 2147483647
    · simp only [hov, if_true] at h
      exact absurd h (by simp)
    · simp only [hov, if_false] at h ⊢
      by_cases hc : (SharedMemorySysV.create size (SharedMemorySysV.setKey (key + 1) shm os).1
          (SharedMemorySysV.setKey (key + 1) shm os).2).1.isNone = true
      · simp only [hc, if_true] at h
        exact absurd h (by simp)
      · simp only [hc, if_false] at h ⊢
        exact h
  | succ k ih =>
    intro shm key os r h
    unfold createShmWithFreeKey at h
    unfold createShmWithFreeKey
    by_cases hov : key + 1 > 2147483647
    · simp only [hov, if_true] at h
      exact absurd h (by simp)
    · simp only [hov, if_false] at h ⊢
      by_cases hc : (SharedMemorySysV.create size (SharedMemorySysV.setKey (key + 1) shm os).1
          (SharedMemorySysV.setKey (key + 1) shm os).2).1.isNone = true
      · simp only [hc, if_true] at h ⊢
        exact ih _ _ _ _ h
      · simp only [hc, if_false] at h ⊢
        exact h

theorem createShmWithFreeKey_mono (size : Nat) (shm : SharedMemorySysV) (key : Int) (os : SysV)
    (r : Option Nat × SharedMemorySysV × Int × SysV) (fuel : Nat)
    (h : createShmWithFreeKey fuel shm size key os = some r) :
    ∀ extra : Nat, createShmWithFreeKey (fuel + extra) shm size key os = some r := by
  intro extra
  induction extra with
  | zero => exact h
  | succ e ih => exact createShmWithFreeKey_succ size _ _ _ _ _ ih

theorem SysV.exists_free_key (os : SysV) (key : Int) :
    ∃ n : Nat, n ≤ os.segments.length ∧ os.keyInUse (key + 1 + n) = false ∧
      ∀ j : Nat, j < n → os.keyInUse (key + 1 + j) = true := by
  have hex : ∃ n : Nat, n ≤ os.segments.length ∧ os.keyInUse (key + 1 + n) = false := by
    by_contra hno
    push_neg at hno
    have hsub : (Finset.range (os.segments.length + 1)).image (fun n : Nat => key + 1 + (n : Int))
        ⊆ (os.segments.map fun s => s.key).toFinset := by
      intro x hx
      simp only [Finset.mem_image, Finset.mem_range] at hx
      obtain ⟨n, hn, rfl⟩ := hx
      have hu := hno n (by omega)
      simp only [ne_eq, Bool.not_eq_false] at hu
      simp only [SysV.keyInUse, List.any_eq_true, Bool.and_eq_true, beq_iff_eq] at hu
      obtain ⟨s, hs, hk, _⟩ := hu
      simp only [List.mem_toFinset, List.mem_map]
      exact ⟨s, hs, hk⟩
    have hcard := Finset.card_le_card hsub
    rw [Finset.card_image_of_injective _ (by intro a b hab; simpa using hab)] at hcard
    have hle := List.toFinset_card_le (os.segments.map fun s => s.key)
    simp only [Finset.card_range, List.length_map] at hcard hle
    omega
  classical
  refine ⟨Nat.find hex, (Nat.find_spec hex).1, (Nat.find_spec hex).2, ?_⟩
  intro j hj
  have hmin := Nat.find_min hex hj
  have hjle : j ≤ os.segments.length := le_trans (le_of_lt hj) (Nat.find_spec hex).1
  by_contra hc
  exact hmin ⟨hjle, by simpa using hc⟩

namespace SharedMemorySysV

/-- C15 (failing input): a master has created a segment of 1024 bytes at key
5. An object that did not create it calls `setKey(5)` and `attach()`: the
result is the null pointer and `size()` stays 0, because `attach` returns at
its first test, `m_shmID == -1`, before the `shmget` that looks the key up.
The last part says the same for every operating system, key and access mode. -/
theorem attach_null_although_segment_exists :
    exampleMaster.2.2.keyInUse 5 = true ∧
    (attach false (setKey 5 (construct 1) exampleMaster.2.2).1 (setKey 5 (construct 1) exampleMaster.2.2).2).1 = none ∧
    (attach false (setKey 5 (construct 1) exampleMaster.2.2).1 (setKey 5 (construct 1) exampleMaster.2.2).2).2.1.m_size = 0 ∧
    ∀ (os : SysV) (k0 k : Int) (readOnly : Bool),
      (attach readOnly (setKey k (construct k0) os).1 (setKey k (construct k0) os).2).1 = none := by
  refine ⟨by decide, by decide, by decide, ?_⟩
  intro os k0 k readOnly
  rw [setKey_of_unset k (construct k0) os rfl]
  exact congrArg Prod.fst (attach_of_unset readOnly _ os rfl)

/-- C16 (failing input): a master object has created and attached a segment of
1024 bytes at key 5 (first part). Its `detach()` returns false: the `shmdt`
call succeeds, the attachment is gone, but the pointer and the segment
identifier are still set and the segment is not marked for removal (second
part). Only a second `detach()`, whose `shmdt` fails, reaches `IPC_RMID` and
unsets the object (third part). `setKey(6)` on the attached master leaves the
segment at key 5 in place as well (fourth part). -/
theorem detach_master_returns_before_removal :
    exampleMaster =
      (some 0, { m_key := 5, m_shmID := 0, m_data := some 0, m_size := 1024, m_isMaster := true },
        { segments := [{ key := 5, shmid := 0, size := 1024, removed := false }], attached := [0], nextId := 1 }) ∧
    detach exampleMaster.2.1 exampleMaster.2.2 =
      (false, { m_key := 5, m_shmID := 0, m_data := some 0, m_size := 0, m_isMaster := true },
        { segments := [{ key := 5, shmid := 0, size := 1024, removed := false }], attached := [], nextId := 1 }) ∧
    detach (detach exampleMaster.2.1 exampleMaster.2.2).2.1 (detach exampleMaster.2.1 exampleMaster.2.2).2.2 =
      (true, { m_key := 5, m_shmID := -1, m_data := none, m_size := 0, m_isMaster := true },
        { segments := [{ key := 5, shmid := 0, size := 1024, removed := true }], attached := [], nextId := 1 }) ∧
    setKey 6 exampleMaster.2.1 exampleMaster.2.2 =
      ({ m_key := 6, m_shmID := 0, m_data := some 0, m_size := 0, m_isMaster := true },
        { segments := [{ key := 5, shmid := 0, size := 1024, removed := false }], attached := [], nextId := 1 }) := by
  refine ⟨by decide, by decide, by decide, by decide⟩

end SharedMemorySysV

/-- C17 (counterexample): with the counter at 2147483647 the increment `++key`
overflows, and the search has no defined result although no key is in use.
With the counter at -1 the first key tried is 0, which is `IPC_PRIVATE`: a
second search started at -1 while the segment of the first is alive returns
key 0 again. A segment of size 0 is refused at every key, and the search never
returns. -/
theorem createShmWithFreeKey_counter_overflows :
    (∀ fuel, createShmWithFreeKey fuel (SharedMemorySysV.construct 1) 16 2147483647 SysV.empty
      = none) ∧
    ((createShmWithFreeKey 0 (SharedMemorySysV.construct 1) 16 (-1) SysV.empty).bind fun r =>
        (createShmWithFreeKey 0 (SharedMemorySysV.construct 1) 16 (-1) r.2.2.2).map fun q =>
          (r.2.2.1, q.2.2.1, q.2.2.2.segments.map fun s => (s.key, s.removed))) =
      some (0, 0, [(0, false), (0, false)]) ∧
    (∀ fuel, createShmWithFreeKey fuel (SharedMemorySysV.construct 1) 0 0 SysV.empty = none) :=
  ⟨fun fuel => createShmWithFreeKey_of_overflow fuel _ _ _ _ (le_refl _), by decide,
    fun fuel => createShmWithFreeKey_of_bad_size 0 (Or.inl (by decide)) fuel _ _ _⟩

/-- C17 (amended): with the operating system as a finite list of segments in
which `create` with a size from `SHMMIN` to `SHMMAX` succeeds exactly when the
key is not in use, `createShmWithFreeKey` started with a counter `key` that is
not negative and so far below 2147483647 that a free key is found before the
increment overflows returns once the fuel covers the number of segments, and
whenever it returns the counter is `k`, the smallest key above `key` that was
not in use when the search began (after the `detach` of the first `setKey`).
`k` is a 32-bit key. The segment is created at `k` with the requested size and
the object is attached to it. `k` differs from the key of every segment in
use, so a later call made while this segment is alive returns another key. -/
theorem createShmWithFreeKey_smallest_free_key (shm : SharedMemorySysV) (size : Nat) (key : Int)
    (os : SysV) (hmin : SysV.SHMMIN ≤ size) (hmax : size ≤ SysV.SHMMAX) (hk0 : 0 ≤ key)
    (hrange : key + (SharedMemorySysV.detach shm os).2.2.segments.length + 1 ≤ 2147483647) :
    ∃ k : Int, key < k ∧ k ≤ 2147483647 ∧
      (SharedMemorySysV.detach shm os).2.2.keyInUse k = false ∧
      (∀ j : Int, key < j → j < k → (SharedMemorySysV.detach shm os).2.2.keyInUse j = true) ∧
      (∀ j : Int, (SharedMemorySysV.detach shm os).2.2.keyInUse j = true → k ≠ j) ∧
      (∀ fuel r, createShmWithFreeKey fuel shm size key os = some r → r.2.2.1 = k) ∧
      ∀ fuel, (SharedMemorySysV.detach shm os).2.2.segments.length ≤ fuel →
        ∃ r, createShmWithFreeKey fuel shm size key os = some r ∧ r.1.isSome = true ∧
          r.1 = r.2.1.m_data ∧ r.2.1.m_key = k ∧ r.2.1.m_size = size ∧ r.2.2.1 = k ∧
          r.2.2.2.segments = (SharedMemorySysV.detach shm os).2.2.segments ++
            [{ key := k, shmid := (SharedMemorySysV.detach shm os).2.2.nextId, size := size, removed := false }] ∧
          r.2.2.2.keyInUse k = true := by
  obtain ⟨n, hn, hfree, hused⟩ := SysV.exists_free_key (SharedMemorySysV.detach shm os).2.2 key
  have hrn : key + 1 + (n : Int) ≤ 2147483647 := by
    have : (n : Int) ≤ ((SharedMemorySysV.detach shm os).2.2.segments.length : Int) := by
      exact_mod_cast hn
    omega
  have hval := fun fuel (hle : n ≤ fuel) =>
    createShmWithFreeKey_of_free size hmin hmax n fuel shm key os hle hk0 hrn hused hfree
  refine ⟨key + 1 + n, by omega, hrn, hfree, ?_, ?_, ?_, ?_⟩
  · intro j hlo hhi
    have := hused (j - key - 1).toNat (by omega)
    rw [← this]
    congr 1
    omega
  · intro j hj heq
    rw [← heq, hfree] at hj
    exact absurd hj (by simp)
  · intro fuel r hr
    have h1 := createShmWithFreeKey_mono size shm key os r fuel hr n
    rw [hval (fuel + n) (by omega)] at h1
    rw [← Option.some.inj h1]
  · intro fuel hfuel
    refine ⟨_, hval fuel (le_trans hn hfuel), rfl, rfl, rfl, rfl, rfl, rfl, ?_⟩
    simp [SysV.keyInUse]

/-- With keys 1 and 2 in use and the counter at 0 the search returns key 3;
the next search, for a second object, returns key 4. -/
theorem createShmWithFreeKey_smallest_free_key_witness :
    (∃ k : Int, (0 : Int) < k ∧
      (SharedMemorySysV.detach (SharedMemorySysV.construct 1) exampleKeysInUse).2.2.keyInUse k = false ∧
      ∀ fuel r, createShmWithFreeKey fuel (SharedMemorySysV.construct 1) 16 0 exampleKeysInUse = some r →
        r.2.2.1 = k) ∧
    (createShmWithFreeKey 2 (SharedMemorySysV.construct 1) 16 0 exampleKeysInUse).map
        (fun r => (r.2.2.1, r.2.2.2.segments.map fun s => (s.key, s.size))) =
      some (3, [(1, 16), (2, 16), (3, 16)]) ∧
    ((createShmWithFreeKey 2 (SharedMemorySysV.construct 1) 16 0 exampleKeysInUse).bind fun r =>
        (createShmWithFreeKey 3 (SharedMemorySysV.construct 1) 16 0 r.2.2.2).map fun q => q.2.2.1) =
      some 4 := by
  refine ⟨?_, by decide, by decide⟩
  obtain ⟨k, h1, _, h2, _, _, h5, _⟩ :=
    createShmWithFreeKey_smallest_free_key (SharedMemorySysV.construct 1) 16 0 exampleKeysInUse
      (by decide) (by decide) (by decide) (by decide)
  exact ⟨k, h1, h2, h5⟩

/-! ## The audio round trip, the resize message, `isUIVisible` -/

namespace RemotePlugin

open RemotePluginBase ShmFifo

theorem receiveMessage_ext {σ : Type} (fuel : Nat) (e : RemotePluginBase σ)
    (r : message × RemotePluginBase σ) (h : receiveMessage fuel e = some r) :
    r.2.ext = e.ext := by
  simp only [receiveMessage, Option.bind_eq_some, Option.map_eq_some'] at h
  obtain ⟨i0, _, i1, _, r1, _, r2, _, r3, _, hr⟩ := h
  rw [← hr]

theorem waitLoop_ext {σ : Type} (cb : Callbacks σ)
    (hcb : ∀ m e q, cb.processMessage m e = some q → q.2.ext = e.ext) (fuel : Nat) (wm : message) :
    ∀ (n : Nat) (e : RemotePluginBase σ) (log : List message)
      (r : message × List message × RemotePluginBase σ),
      waitLoop cb fuel wm false n e log = some r → r.2.2.ext = e.ext := by
  intro n
  induction n with
  | zero =>
    intro e log r h
    simp only [waitLoop] at h
    split at h
    · rw [← Option.some.inj h]
    · exact absurd h (by simp)
  | succ k ih =>
    intro e log r h
    simp only [waitLoop, Bool.false_eq_true, if_false, Option.bind, Bool.false_and] at h
    split at h
    · rw [← Option.some.inj h]
    · cases hrecv : receiveMessage fuel e with
      | none => simp [hrecv] at h
      | some r1 =>
        have he1 := receiveMessage_ext fuel e r1 hrecv
        cases hpm : cb.processMessage r1.1 r1.2 with
        | none => simp [hrecv, hpm] at h
        | some q =>
          have he2 := hcb _ _ _ hpm
          simp only [hrecv, hpm] at h
          split at h
          · rw [← Option.some.inj h]
            exact he2.trans he1
          · split at h
            · rw [← Option.some.inj h]
              exact he2.trans he1
            · exact (ih _ _ _ h).trans (he2.trans he1)

/-- The audio path of one round with the pass-through client: when the host
is valid and running, has a segment and an output count other than 0, and
its handler leaves the members alone, whatever `process` returns is true with
the output stage applied to the client's copy of what the input stage wrote. -/
theorem processWithClient_out (cb : Callbacks RemotePluginFields)
    (hcb : ∀ m e q, cb.processMessage m e = some q → q.2.ext = e.ext)
    (eng : Engine) (fuel c : Nat) (inb o shm : Nat → Int) (p : RemotePlugin)
    (r : Bool × Option (Nat → Int) × RemotePlugin)
    (hok : (p.ext.m_failed || !p.ext.running) = false) (hshm : p.ext.m_shm = some shm)
    (hout : (p.ext.m_outputCount == 0) = false)
    (h : processWithClient cb eng fuel c (some inb) (some o) p = some r) :
    r.1 = true ∧
    r.2.1 = some (copyOutput eng p.ext.m_splitChannels p.ext.m_inputCount p.ext.m_outputCount
      (passThrough c eng.framesPerPeriod
        (copyInput eng p.ext.m_splitChannels p.ext.m_inputCount (some inb)
          (zeroShm shm p.ext.m_shmSize))) o) := by
  have hf : p.ext.m_failed = false := by
    cases hx : p.ext.m_failed <;> simp [hx] at hok ⊢
  simp only [processWithClient, processBegin, hok, hshm, Bool.false_eq_true, if_false,
    Option.bind_eq_some, Option.map_eq_some'] at h
  obtain ⟨st, ⟨q, hsend, rfl⟩, h3⟩ := h
  obtain ⟨j, p2⟩ := q
  have hext := (sendMessage_frame fuel _ _ p2 j hsend).1
  have hf2 : p2.ext.m_failed = false := by rw [hext]; exact hf
  have ho2 : p2.ext.m_outputCount = p.ext.m_outputCount := by rw [hext]; rfl
  simp only [hf2, ho2, hout, Bool.false_or, Bool.false_eq_true, if_false,
    Option.bind_eq_some] at h3
  obtain ⟨p3, hserve, hend⟩ := h3
  simp only [passThroughServe, Option.bind_eq_some] at hserve
  obtain ⟨r1, _, hserve⟩ := hserve
  split at hserve
  · simp only [Option.map_eq_some'] at hserve
    obtain ⟨q2, _, rfl⟩ := hserve
    simp only [processEnd, RemotePluginBase.waitForMessage, Bool.false_and, Bool.false_eq_true,
      if_false, Option.bind_eq_some, Option.map_eq_some'] at hend
    obtain ⟨w, ⟨w0, hloop, rfl⟩, hend⟩ := hend
    have hwext := waitLoop_ext cb hcb fuel _ _ _ _ _ hloop
    simp only [unlock, hwext, hext, lock, Option.map_some'] at hend
    rw [← Option.some.inj hend]
    exact ⟨rfl, rfl⟩
  · exact absurd hserve (by simp)

/-- C11 (failing input): one input and one output, two frames per period,
non-split mode, an audio segment of 2*1*2 = 4 floats (index `i` shows
`100 + i`, past the end of the segment too), `in_buf[0][0] = 10`,
`in_buf[1][0] = 12`, and the pass-through client. `process` returns true and
`out_buf[0][0] = 10`, but `out_buf[1][0]` is 104, the content of index 4, which
lies outside the segment: the host reads and writes the mono regions with a
stride of two floats per frame. In split mode the same round returns 10 and 12
(second part). -/
theorem process_mono_nonsplit_reads_past_segment :
    (processWithClient ignoreAll (exampleEngine 2) 1 1 (some fun i => 10 + i) (some fun _ => 0)
        (exampleHostChannels false 1 fun i => 100 + i)).map
      (fun r => (r.1, r.2.1.map fun o => (o 0, o 2))) = some (true, some (10, 104)) ∧
    (processWithClient ignoreAll (exampleEngine 2) 1 1 (some fun i => 10 + i) (some fun _ => 0)
        (exampleHostChannels true 1 fun i => 100 + i)).map
      (fun r => (r.1, r.2.1.map fun o => (o 0, o 2))) = some (true, some (10, 12)) := by
  have hcb : ∀ (m : message) (e : RemotePlugin) (q : Bool × RemotePlugin),
      ignoreAll.processMessage m e = some q → q.2.ext = e.ext := by
    intro m e q hq
    rw [← Option.some.inj hq]
  constructor
  · cases h : processWithClient ignoreAll (exampleEngine 2) 1 1 (some fun i => 10 + i)
        (some fun _ => 0) (exampleHostChannels false 1 fun i => 100 + i) with
    | none =>
      have hs : (processWithClient ignoreAll (exampleEngine 2) 1 1 (some fun i => 10 + i)
        (some fun _ => 0) (exampleHostChannels false 1 fun i => 100 + i)).isSome = true := by
        decide
      rw [h] at hs
      exact absurd hs (by simp)
    | some r =>
      obtain ⟨h1, h2⟩ := processWithClient_out ignoreAll hcb (exampleEngine 2) 1 1
        (fun i => 10 + i) (fun _ => 0) (fun i => 100 + i)
        (exampleHostChannels false 1 fun i => 100 + i) r rfl rfl rfl h
      simp only [Option.map_some', h1, h2, Option.some.injEq, Prod.mk.injEq, true_and]
      constructor <;> decide
  · cases h : processWithClient ignoreAll (exampleEngine 2) 1 1 (some fun i => 10 + i)
        (some fun _ => 0) (exampleHostChannels true 1 fun i => 100 + i) with
    | none =>
      have hs : (processWithClient ignoreAll (exampleEngine 2) 1 1 (some fun i => 10 + i)
        (some fun _ => 0) (exampleHostChannels true 1 fun i => 100 + i)).isSome = true := by
        decide
      rw [h] at hs
      exact absurd hs (by simp)
    | some r =>
      obtain ⟨h1, h2⟩ := processWithClient_out ignoreAll hcb (exampleEngine 2) 1 1
        (fun i => 10 + i) (fun _ => 0) (fun i => 100 + i)
        (exampleHostChannels true 1 fun i => 100 + i) r rfl rfl rfl h
      simp only [Option.map_some', h1, h2, Option.some.injEq, Prod.mk.injEq, true_and]
      constructor <;> decide

/-- C12 (failing input): two inputs, two outputs, 64 frames per period, no
segment yet, the key counter at 0, no key in use. `resizeSharedProcessingMemory`
creates a segment of (2 + 2) * 64 * 4 = 1024 bytes at key 1 and sends one
message with id `IdChangeSharedMemoryKey` = 10 and the two arguments "1" and
"0": the second argument is the member `m_shmSize`, which is still 0 after the
call, not the size 1024 of the segment. The peer receives that message. -/
theorem resize_sends_zero_size :
    (resizeSharedProcessingMemory (exampleEngine 64) 1
        { m_shmObj := SharedMemorySysV.construct 1, shmKey := 0, os := SysV.empty }
        (exampleHost false true none 2)).map
      (fun r => (r.1.os.segments.map (fun s => (s.key, s.size)), r.1.shmKey, live r.2.m_out,
        r.2.ext.m_shmSize, (receiveMessage 1 (peer r.2 r.2.ext)).map fun q => q.1)) =
      some ([(1, 1024)], 1, [10, 0, 0, 0, 2, 0, 0, 0, 1, 0, 0, 0, 49, 1, 0, 0, 0, 48], 0,
        some { id := 10, data := [[49], [48]] }) ∧
    sprintf_d 1024 = [49, 48, 50, 52] := by
  constructor <;> decide

/-- C20: let `isUIVisible` have sent its request and let `waitForMessage(IdIsUIVisible)`
have returned the message `w.1`, whose argument 0, if the id is `IdIsUIVisible`,
exists and converts to an `int`. Then `isUIVisible` returns, its result is -1
exactly when the id of `w.1` is not `IdIsUIVisible`; otherwise it is 1 when
argument 0 converts to a non-zero integer and 0 when it converts to zero; so
the result is one of -1, 0, 1. -/
theorem isUIVisible_result (cb : Callbacks RemotePluginFields) (fuel : Nat) (mainThread : Bool)
    (p : RemotePlugin) (s : Int × RemotePlugin) (w : message × List message × RemotePlugin)
    (hs : sendMessage fuel (message.ofId IdIsUIVisible) (lock p) = some s)
    (hw : waitForMessage cb fuel (message.ofId IdIsUIVisible) false mainThread (unlock s.2) = some w)
    (harg : w.1.id = IdIsUIVisible → ∃ v, w.1.getInt 0 = some v) :
    ∃ r : Int, isUIVisible cb fuel mainThread p = some (r, w.2.2) ∧
      (r = -1 ↔ w.1.id ≠ IdIsUIVisible) ∧
      (∀ v, w.1.id = IdIsUIVisible → w.1.getInt 0 = some v → (v ≠ 0 → r = 1) ∧ (v = 0 → r = 0)) ∧
      (r = -1 ∨ r = 0 ∨ r = 1) := by
  by_cases hid : w.1.id = IdIsUIVisible
  · obtain ⟨v, hv⟩ := harg hid
    by_cases hz : v = 0
    · refine ⟨0, ?_, ?_, ?_, Or.inr (Or.inl rfl)⟩
      · simp [isUIVisible, hs, hw, hid, hv, hz]
      · simp [hid]
      · intro v' _ hv'
        rw [hv] at hv'
        have : v' = 0 := by rw [← Option.some.inj hv', hz]
        exact ⟨fun h => absurd this h, fun _ => rfl⟩
    · refine ⟨1, ?_, ?_, ?_, Or.inr (Or.inr rfl)⟩
      · simp [isUIVisible, hs, hw, hid, hv, hz]
      · simp [hid]
      · intro v' _ hv'
        rw [hv] at hv'
        have : v' ≠ 0 := by rw [← Option.some.inj hv']; exact hz
        exact ⟨fun _ => rfl, fun h => absurd h this⟩
  · refine ⟨-1, ?_, ?_, ?_, Or.inl rfl⟩
    · have hne : (w.1.id != IdIsUIVisible) = true := by simpa using hid
      simp only [isUIVisible, hs, hw, Option.bind, hne, if_true]
    · simp [hid]
    · intro v h
      exact absurd h hid

/-- A host whose in-FIFO holds the reply `IdIsUIVisible` with the argument "1":
`isUIVisible` returns 1. -/
theorem isUIVisible_result_witness :
    (isUIVisible ignoreAll 1 false (exampleHostPending [17, 0, 0, 0, 1, 0, 0, 0, 1, 0, 0, 0, 49] 1)).map
      (fun r => r.1) = some 1 := by
  obtain ⟨r, h1, _, h3, _⟩ := isUIVisible_result ignoreAll 1 false
    (exampleHostPending [17, 0, 0, 0, 1, 0, 0, 0, 1, 0, 0, 0, 49] 1)
    (Option.get (sendMessage 1 (message.ofId IdIsUIVisible)
      (lock (exampleHostPending [17, 0, 0, 0, 1, 0, 0, 0, 1, 0, 0, 0, 49] 1))) (by decide))
    (Option.get (RemotePluginBase.waitForMessage ignoreAll 1 (message.ofId IdIsUIVisible) false false
      (unlock (Option.get (sendMessage 1 (message.ofId IdIsUIVisible)
        (lock (exampleHostPending [17, 0, 0, 0, 1, 0, 0, 0, 1, 0, 0, 0, 49] 1))) (by decide)).2))
      (by decide))
    (Option.some_get _).symm (Option.some_get _).symm (fun _ => ⟨1, by decide⟩)
  have hr : r = 1 := (h3 1 (by decide) (by decide)).1 (by decide)
  rw [h1, hr]
  rfl

end RemotePlugin

/-! ## Integers as message arguments: printing and parsing -/

theorem digitsValue_append (xs ys : List Nat) (acc : Nat) (h : ∀ c ∈ xs, isdigit c = true) :
    digitsValue (xs ++ ys) acc = digitsValue ys (digitsValue xs acc) := by
  induction xs generalizing acc with
  | nil => rfl
  | cons x xs ih =>
    have hx := h x (by simp)
    simp only [List.cons_append, digitsValue, hx, if_true]
    exact ih _ (fun c hc => h c (by simp [hc]))

theorem decimalDigits_spec (fuel n : Nat) (h : n < 10 ^ (fuel + 1)) :
    decimalDigits (fuel + 1) n ≠ [] ∧ (∀ c ∈ decimalDigits (fuel + 1) n, isdigit c = true) ∧
      ∀ acc, digitsValue (decimalDigits (fuel + 1) n) acc
        = acc * 10 ^ (decimalDigits (fuel + 1) n).length + n := by
  induction fuel generalizing n with
  | zero =>
    have hn : n < 10 := by simpa using h
    simp only [decimalDigits, hn, if_true]
    refine ⟨by simp, ?_, ?_⟩
    · intro c hc
      simp only [List.mem_singleton] at hc
      subst hc
      simp only [isdigit, Bool.and_eq_true, decide_eq_true_eq]
      omega
    · intro acc
      have hd : isdigit (48 + n) = true := by
        simp only [isdigit, Bool.and_eq_true, decide_eq_true_eq]
        omega
      simp only [digitsValue, hd, if_true, List.length_singleton, pow_one]
      omega
  | succ k ih =>
    by_cases hn : n < 10
    · rw [decimalDigits]
      simp only [hn, if_true]
      refine ⟨by simp, ?_, ?_⟩
      · intro c hc
        simp only [List.mem_singleton] at hc
        subst hc
        simp only [isdigit, Bool.and_eq_true, decide_eq_true_eq]
        omega
      · intro acc
        have hd : isdigit (48 + n) = true := by
          simp only [isdigit, Bool.and_eq_true, decide_eq_true_eq]
          omega
        simp only [digitsValue, hd, if_true, List.length_singleton, pow_one]
        omega
    · have hdiv : n / 10 < 10 ^ (k + 1) := by
        rw [Nat.div_lt_iff_lt_mul (by norm_num)]
        calc n < 10 ^ (k + 1 + 1) := h
          _ = 10 ^ (k + 1) * 10 := by ring
      obtain ⟨_, hdig, hval⟩ := ih (n / 10) hdiv
      have hlast : isdigit (48 + n % 10) = true := by
        simp only [isdigit, Bool.and_eq_true, decide_eq_true_eq]
        omega
      rw [decimalDigits]
      simp only [hn, if_false]
      refine ⟨by simp, ?_, ?_⟩
      · intro c hc
        simp only [List.mem_append, List.mem_singleton] at hc
        rcases hc with hc | hc
        · exact hdig c hc
        · subst hc
          exact hlast
      · intro acc
        rw [digitsValue_append _ _ _ hdig, hval]
        simp only [digitsValue, hlast, if_true, List.length_append, List.length_singleton]
        have h10 : 48 + n % 10 - 48 = n % 10 := by omega
        rw [h10, pow_succ]
        have := Nat.div_add_mod n 10
        nlinarith [Nat.div_add_mod n 10]

theorem isdigit_not_space (c : Nat) (h : isdigit c = true) :
    isspace c = false ∧ c ≠ 45 ∧ c ≠ 43 ∧ c ≠ 0 := by
  simp only [isdigit, Bool.and_eq_true, decide_eq_true_eq] at h
  refine ⟨?_, by omega, by omega, by omega⟩
  simp only [isspace, Bool.or_eq_false_iff, beq_eq_false_iff_ne, ne_eq, Bool.and_eq_false_iff,
    decide_eq_false_iff_not]
  constructor <;> omega

theorem atoi_decimalDigits (n : Nat) (h : n < 10 ^ 10) (hr : (n : Int) ≤ 2147483647) :
    atoi (decimalDigits 10 n) = some (n : Int) := by
  obtain ⟨hne, hdig, hval⟩ := decimalDigits_spec 9 n h
  cases hds : decimalDigits 10 n with
  | nil => exact absurd hds hne
  | cons d ds =>
    have hd := hdig d (by rw [hds]; simp)
    obtain ⟨hsp, h45, h43, _⟩ := isdigit_not_space d hd
    have hv := hval 0
    rw [hds] at hv
    simp only [zero_mul, zero_add] at hv
    have hdrop : List.dropWhile isspace (d :: ds) = d :: ds := by
      simp [List.dropWhile, hsp]
    have hmatch : (match d :: ds with
        | 45 :: r => -(digitsValue r 0 : Int)
        | 43 :: r => (digitsValue r 0 : Int)
        | _ => (digitsValue (d :: ds) 0 : Int)) = (digitsValue (d :: ds) 0 : Int) := by
      split
      · rename_i r heq
        exact absurd (List.cons.inj heq).1 h45
      · rename_i r heq
        exact absurd (List.cons.inj heq).1 h43
      · rfl
    simp only [atoi, hdrop, hmatch]
    rw [hv]
    have : (-2147483648 : Int) ≤ (n : Int) ∧ (n : Int) ≤ 2147483647 := ⟨by omega, hr⟩
    simp [this]

theorem atoi_sprintf_d (i : Int) (h1 : -2147483648 ≤ i) (h2 : i < 2147483648) :
    atoi (sprintf_d i) = some i := by
  by_cases hneg : i < 0
  · have hn : i.natAbs < 10 ^ 10 := by
      have : (10 : Nat) ^ 10 = 10000000000 := by norm_num
      omega
    obtain ⟨_, _, hval⟩ := decimalDigits_spec 9 i.natAbs hn
    have hv := hval 0
    simp only [zero_mul, zero_add] at hv
    have hsp : isspace 45 = false := by decide
    simp only [sprintf_d, hneg, if_true, atoi, List.dropWhile, hsp, hv]
    have habs : -((i.natAbs : Nat) : Int) = i := by omega
    rw [habs]
    have : (-2147483648 : Int) ≤ i ∧ i ≤ 2147483647 := ⟨h1, by omega⟩
    simp [this]
  · have hn : i.natAbs < 10 ^ 10 := by
      have : (10 : Nat) ^ 10 = 10000000000 := by norm_num
      omega
    have habs : ((i.natAbs : Nat) : Int) = i := by omega
    have := atoi_decimalDigits i.natAbs hn (by omega)
    simp only [sprintf_d, hneg, if_false, this, habs]

theorem sprintf_d_no_zero (i : Int) (h1 : -2147483648 ≤ i) (h2 : i < 2147483648) :
    0 ∉ sprintf_d i := by
  have hn : i.natAbs < 10 ^ 10 := by
    have : (10 : Nat) ^ 10 = 10000000000 := by norm_num
    omega
  obtain ⟨_, hdig, _⟩ := decimalDigits_spec 9 i.natAbs hn
  have hz : 0 ∉ decimalDigits 10 i.natAbs := fun h0 => by
    have := hdig 0 h0
    simp [isdigit] at this
  unfold sprintf_d
  split
  · simp only [List.mem_cons, not_or]
    exact ⟨by decide, hz⟩
  · exact hz

/-- An argument written by `addInt` is read back by `getInt` as the same 32-bit
integer. -/
theorem getInt_of_sprintf_d (m : message) (k : Nat) (i : Int) (h1 : -2147483648 ≤ i)
    (h2 : i < 2147483648) (hk : m.data.get? k = some (sprintf_d (ShmFifo.toInt32 i))) :
    m.getInt k = some i := by
  have hi : ShmFifo.toInt32 i = i := ShmFifo.toInt32_of_range i h1 h2
  rw [hi] at hk
  have hnn : ¬ ((k : Int) < 0) := by omega
  simp only [message.getInt, hnn, if_false, Int.toNat_ofNat, hk, Option.bind,
    RemotePluginBase.cString_of_no_zero _ (sprintf_d_no_zero i h1 h2)]
  exact atoi_sprintf_d i h1 h2

/-! ## MIDI events from the host to the client -/

/-- C21: for a MIDI event whose type, channel and two parameters are 32-bit
integers and a 32-bit offset, the message that the host's `processMidiEvent`
builds (and sends under the lock) has id `IdMidiEvent` and five arguments,
none of which holds a zero byte, so that the client receives it as built; the
client's `processMessage` on that message, if the plugin's `processMidiEvent`
returns, calls it exactly once, with the same type, channel, parameters and
offset, calls nothing else and returns true. On a host whose out-FIFO has room
`processMidiEvent` appends the wire form of that message. -/
theorem midi_event_round_trip (env : ClientEnv) (fuel : Nat) (e : MidiEvent) (offset : Int)
    (c c' : RemotePluginClient)
    (ht : -2147483648 ≤ e.type ∧ e.type < 2147483648)
    (hc : -2147483648 ≤ e.channel ∧ e.channel < 2147483648)
    (hp0 : -2147483648 ≤ e.param0 ∧ e.param0 < 2147483648)
    (hp1 : -2147483648 ≤ e.param1 ∧ e.param1 < 2147483648)
    (ho : -2147483648 ≤ offset ∧ offset < 2147483648)
    (hhook : env.hook (HookCall.processMidiEvent e offset) c = some c') :
    (RemotePlugin.midiMessage e offset).id = IdMidiEvent ∧
    (RemotePlugin.midiMessage e offset).data.length = 5 ∧
    (RemotePlugin.midiMessage e offset).cStrings = RemotePlugin.midiMessage e offset ∧
    RemotePluginClient.processMessage env fuel (RemotePlugin.midiMessage e offset) c
      = some (true, [HookCall.processMidiEvent e offset], c') ∧
    ∀ p : RemotePlugin, 1 ≤ fuel → ShmFifo.Ready p.m_out → ShmFifo.InBounds p.m_out →
      ((ShmFifo.live p.m_out).length : Int) + encodedSize (RemotePlugin.midiMessage e offset)
        ≤ SHM_FIFO_SIZE →
      ∃ p', RemotePlugin.processMidiEvent fuel e offset p = some p' ∧
        ShmFifo.live p'.m_out = ShmFifo.live p.m_out ++ wire (RemotePlugin.midiMessage e offset) := by
  have hdata : (RemotePlugin.midiMessage e offset).data =
      [sprintf_d (ShmFifo.toInt32 e.type), sprintf_d (ShmFifo.toInt32 e.channel),
        sprintf_d (ShmFifo.toInt32 e.param0), sprintf_d (ShmFifo.toInt32 e.param1),
        sprintf_d (ShmFifo.toInt32 offset)] := rfl
  have g0 := getInt_of_sprintf_d (RemotePlugin.midiMessage e offset) 0 e.type ht.1 ht.2
    (by rw [hdata]; rfl)
  have g1 := getInt_of_sprintf_d (RemotePlugin.midiMessage e offset) 1 e.channel hc.1 hc.2
    (by rw [hdata]; rfl)
  have g2 := getInt_of_sprintf_d (RemotePlugin.midiMessage e offset) 2 e.param0 hp0.1 hp0.2
    (by rw [hdata]; rfl)
  have g3 := getInt_of_sprintf_d (RemotePlugin.midiMessage e offset) 3 e.param1 hp1.1 hp1.2
    (by rw [hdata]; rfl)
  have g4 := getInt_of_sprintf_d (RemotePlugin.midiMessage e offset) 4 offset ho.1 ho.2
    (by rw [hdata]; rfl)
  simp only [Nat.cast_zero, Nat.cast_one, Nat.cast_ofNat] at g0 g1 g2 g3 g4
  refine ⟨rfl, rfl, ?_, ?_, ?_⟩
  · apply RemotePluginBase.cStrings_of_no_zero
    intro a ha
    rw [hdata] at ha
    simp only [List.mem_cons, List.mem_singleton, List.not_mem_nil, or_false] at ha
    rcases ha with h | h | h | h | h <;> subst h
    · rw [ShmFifo.toInt32_of_range _ ht.1 ht.2]; exact sprintf_d_no_zero _ ht.1 ht.2
    · rw [ShmFifo.toInt32_of_range _ hc.1 hc.2]; exact sprintf_d_no_zero _ hc.1 hc.2
    · rw [ShmFifo.toInt32_of_range _ hp0.1 hp0.2]; exact sprintf_d_no_zero _ hp0.1 hp0.2
    · rw [ShmFifo.toInt32_of_range _ hp1.1 hp1.2]; exact sprintf_d_no_zero _ hp1.1 hp1.2
    · rw [ShmFifo.toInt32_of_range _ ho.1 ho.2]; exact sprintf_d_no_zero _ ho.1 ho.2
  · have hid : (RemotePlugin.midiMessage e offset).id = 7 := rfl
    simp only [RemotePluginClient.processMessage, hid, g0, g1, g2, g3, g4, Option.bind, hhook,
      Option.map, IdUndefined, IdQuit, IdSampleRateInformation, IdBufferSizeInformation,
      IdMidiEvent]
    rfl
  · intro p hfuel hr hb hroom
    obtain ⟨d, hs, _, hl⟩ := RemotePluginBase.sendMessage_of_room fuel hfuel
      (RemotePlugin.midiMessage e offset) (RemotePlugin.lock p) hr hb hroom
    refine ⟨RemotePlugin.unlock { RemotePlugin.lock p with m_out := ShmFifo.messageSent { (RemotePlugin.lock p).m_out with m_data := d } }, ?_, hl⟩
    simp only [RemotePlugin.processMidiEvent, hs, Option.map]

/-- The event (0x90, 0, 60, 100) at offset 0 of the specification: its five
arguments are "144", "0", "60", "100", "0", and a client whose plugin does
nothing observes that event once. -/
theorem midi_event_round_trip_witness :
    (RemotePlugin.midiMessage ⟨144, 0, 60, 100⟩ 0).data
      = [[49, 52, 52], [48], [54, 48], [49, 48, 48], [48]] ∧
    RemotePluginClient.processMessage ClientEnv.quiet 1 (RemotePlugin.midiMessage ⟨144, 0, 60, 100⟩ 0)
        (exampleClient none)
      = some (true, [HookCall.processMidiEvent ⟨144, 0, 60, 100⟩ 0], exampleClient none) :=
  ⟨by decide,
    (midi_event_round_trip ClientEnv.quiet 1 ⟨144, 0, 60, 100⟩ 0 (exampleClient none)
      (exampleClient none) (by decide) (by decide) (by decide) (by decide) (by decide) rfl).2.2.2.1⟩

/-! ## The host's handler -/

theorem decimalDigits_length_le (fuel n : Nat) : (decimalDigits fuel n).length ≤ fuel := by
  induction fuel generalizing n with
  | zero => simp [decimalDigits]
  | succ k ih =>
    rw [decimalDigits]
    split
    · simp
    · have := ih (n / 10)
      simp only [List.length_append, List.length_singleton]
      omega

theorem sprintf_d_length_le (i : Int) : (sprintf_d i).length ≤ 11 := by
  have := decimalDigits_length_le 10 i.natAbs
  unfold sprintf_d
  split
  · simp only [List.length_cons]
    omega
  · omega

namespace RemotePlugin

open RemotePluginBase ShmFifo

theorem unlock_lock_members (p : RemotePlugin) :
    (unlock (lock p)).m_out = p.m_out ∧ (unlock (lock p)).m_in = p.m_in ∧
    (unlock (lock p)).ext.m_inputCount = p.ext.m_inputCount ∧
    (unlock (lock p)).ext.m_outputCount = p.ext.m_outputCount ∧
    (unlock (lock p)).ext.m_shm = p.ext.m_shm ∧
    (unlock (lock p)).ext.m_commMutex = p.ext.m_commMutex := by
  refine ⟨rfl, rfl, rfl, rfl, rfl, ?_⟩
  simp [unlock, lock]

/-- The host's handler on an id that has no reply and no resize: it returns
false for `IdUndefined`, true otherwise, and the object is the one after
`lock(); unlock();`. -/
theorem processMessage_of_other (eng : Engine) (rate : Int) (fuel : Nat) (m : message)
    (a : AudioShm) (p : RemotePlugin)
    (h1 : m.id ≠ IdInitDone) (h2 : m.id ≠ IdSampleRateInformation)
    (h3 : m.id ≠ IdBufferSizeInformation) (h4 : m.id ≠ IdChangeInputCount)
    (h5 : m.id ≠ IdChangeOutputCount) (h6 : m.id ≠ IdChangeInputOutputCount) :
    processMessage eng rate fuel m a p =
      if m.id = IdUndefined then some (false, a, unlock (lock p))
      else if m.id = IdDebugMessage then
        (m.getString 0).map fun _ => (true, a, unlock (lock p))
      else some (true, a, unlock (lock p)) := by
  have e1 : (m.id == IdInitDone) = false := by simpa using h1
  have e2 : (m.id == IdSampleRateInformation) = false := by simpa using h2
  have e3 : (m.id == IdBufferSizeInformation) = false := by simpa using h3
  have e4 : (m.id == IdChangeInputCount) = false := by simpa using h4
  have e5 : (m.id == IdChangeOutputCount) = false := by simpa using h5
  have e6 : (m.id == IdChangeInputOutputCount) = false := by simpa using h6
  by_cases hu : m.id = IdUndefined
  · have eu : (m.id == IdUndefined) = true := by simpa using hu
    rw [if_pos hu]
    simp only [processMessage, eu, if_true]
  · have eu : (m.id == IdUndefined) = false := by simpa using hu
    rw [if_neg hu]
    by_cases hd : m.id = IdDebugMessage
    · have ed : (m.id == IdDebugMessage) = true := by simpa using hd
      rw [if_pos hd]
      simp only [processMessage, eu, e1, e2, e3, e4, e5, e6, ed, Bool.false_eq_true, if_false,
        if_true]
      cases m.getString 0 <;> rfl
    · have ed : (m.id == IdDebugMessage) = false := by simpa using hd
      rw [if_neg hd]
      simp only [processMessage, eu, e1, e2, e3, e4, e5, e6, ed, Bool.false_eq_true, if_false]
      rfl

/-- The host's handler on one of the three ids that have a reply, when the
out-FIFO has room for `reply`: the reply is appended in wire form and the
message semaphore is released once. -/
theorem processMessage_of_reply (eng : Engine) (rate : Int) (fuel : Nat) (hfuel : 1 ≤ fuel)
    (m : message) (a : AudioShm) (p : RemotePlugin) (reply : message)
    (hstep : (m.id = IdInitDone ∧ reply = message.ofId m.id) ∨
      (m.id = IdSampleRateInformation ∧ reply = (message.ofId m.id).addInt rate) ∨
      (m.id = IdBufferSizeInformation ∧ reply = (message.ofId m.id).addInt eng.framesPerPeriod))
    (hr : Ready p.m_out) (hb : InBounds p.m_out)
    (hroom : ((live p.m_out).length : Int) + encodedSize reply ≤ SHM_FIFO_SIZE) :
    ∃ p', processMessage eng rate fuel m a p = some (true, a, p') ∧
      live p'.m_out = live p.m_out ++ wire reply ∧
      p'.m_out.m_messageSem = p.m_out.m_messageSem + 1 ∧
      p'.ext.m_inputCount = p.ext.m_inputCount ∧ p'.ext.m_outputCount = p.ext.m_outputCount ∧
      p'.ext.m_shm = p.ext.m_shm := by
  obtain ⟨d, hs, _, hl⟩ := sendMessage_of_room fuel hfuel reply (lock p) hr hb hroom
  refine ⟨unlock { lock p with m_out := ShmFifo.messageSent { (lock p).m_out with m_data := d } },
    ?_, hl, rfl, rfl, rfl, rfl⟩
  rcases hstep with ⟨hid, hrep⟩ | ⟨hid, hrep⟩ | ⟨hid, hrep⟩
  · subst hrep
    simp only [processMessage, hid, IdInitDone, IdUndefined] at hs ⊢
    simp [hs]
  · subst hrep
    simp only [processMessage, hid, IdInitDone, IdUndefined, IdSampleRateInformation] at hs ⊢
    simp [hs]
  · subst hrep
    simp only [processMessage, hid, IdInitDone, IdUndefined, IdSampleRateInformation,
      IdBufferSizeInformation] at hs ⊢
    simp [hs]

/-- C22: on a host whose out-FIFO is valid and has 23 bytes of room, the
handler answers `IdInitDone` with one message of the same id and no argument,
`IdSampleRateInformation` with one message of the same id whose single
argument is the decimal text of the sample rate (as an `int`), and
`IdBufferSizeInformation` with one message of the same id whose single
argument is the decimal text of the frames per period; it returns true and
leaves the counts and the segment alone. For every other id except the three
`IdChange...Count` ids, whenever it returns it has left the out-FIFO, the
counts, the segment and the segment object as they were, and it does return
unless the id is `IdDebugMessage` and the message has no argument. -/
theorem host_replies_same_id_or_nothing (eng : Engine) (rate : Int) (fuel : Nat) (m : message)
    (a : AudioShm) (p : RemotePlugin) :
    (1 ≤ fuel → Ready p.m_out → InBounds p.m_out →
      ((live p.m_out).length : Int) + 23 ≤ SHM_FIFO_SIZE →
      ∀ reply : message,
        (m.id = IdInitDone ∧ reply = ⟨IdInitDone, []⟩) ∨
        (m.id = IdSampleRateInformation ∧
          reply = ⟨IdSampleRateInformation, [sprintf_d (toInt32 rate)]⟩) ∨
        (m.id = IdBufferSizeInformation ∧
          reply = ⟨IdBufferSizeInformation, [sprintf_d (toInt32 eng.framesPerPeriod)]⟩) →
        ∃ p', processMessage eng rate fuel m a p = some (true, a, p') ∧
          live p'.m_out = live p.m_out ++ wire reply ∧
          p'.m_out.m_messageSem = p.m_out.m_messageSem + 1 ∧
          p'.ext.m_inputCount = p.ext.m_inputCount ∧
          p'.ext.m_outputCount = p.ext.m_outputCount ∧ p'.ext.m_shm = p.ext.m_shm) ∧
    (m.id ≠ IdInitDone → m.id ≠ IdSampleRateInformation → m.id ≠ IdBufferSizeInformation →
      m.id ≠ IdChangeInputCount → m.id ≠ IdChangeOutputCount → m.id ≠ IdChangeInputOutputCount →
      (∀ r, processMessage eng rate fuel m a p = some r →
        r.2.1 = a ∧ r.2.2.m_out = p.m_out ∧ r.2.2.ext.m_inputCount = p.ext.m_inputCount ∧
        r.2.2.ext.m_outputCount = p.ext.m_outputCount ∧ r.2.2.ext.m_shm = p.ext.m_shm) ∧
      ((m.id = IdDebugMessage → m.data ≠ []) →
        ∃ r, processMessage eng rate fuel m a p = some r)) := by
  constructor
  · intro hfuel hr hb hroom reply hcase
    have hsize : (encodedSize reply : Int) ≤ 23 := by
      have hone : ∀ (i : Int) (x : List Nat), x.length ≤ 11 →
          (encodedSize ⟨i, [x]⟩ : Int) ≤ 23 := by
        intro i x hx
        have he : encodedSize ⟨i, [x]⟩ = 8 + (4 + x.length + 0) := rfl
        rw [he]
        omega
      rcases hcase with ⟨_, h⟩ | ⟨_, h⟩ | ⟨_, h⟩
      · rw [h]
        have he : encodedSize ⟨IdInitDone, []⟩ = 8 := rfl
        rw [he]
        norm_num
      · rw [h]
        exact hone _ _ (sprintf_d_length_le _)
      · rw [h]
        exact hone _ _ (sprintf_d_length_le _)
    apply processMessage_of_reply eng rate fuel hfuel m a p reply ?_ hr hb (by omega)
    rcases hcase with ⟨h1, h2⟩ | ⟨h1, h2⟩ | ⟨h1, h2⟩
    · exact Or.inl ⟨h1, by rw [h2, h1]; rfl⟩
    · exact Or.inr (Or.inl ⟨h1, by rw [h2, h1]; rfl⟩)
    · exact Or.inr (Or.inr ⟨h1, by rw [h2, h1]; rfl⟩)
  · intro h1 h2 h3 h4 h5 h6
    have heq := processMessage_of_other eng rate fuel m a p h1 h2 h3 h4 h5 h6
    constructor
    · intro r hres
      rw [heq] at hres
      have key : r.2.1 = a ∧ r.2.2 = unlock (lock p) := by
        split at hres
        · rw [← Option.some.inj hres]; exact ⟨rfl, rfl⟩
        · split at hres
          · simp only [Option.map_eq_some'] at hres
            obtain ⟨_, _, hres⟩ := hres
            rw [← hres]; exact ⟨rfl, rfl⟩
          · rw [← Option.some.inj hres]; exact ⟨rfl, rfl⟩
      rw [key.1, key.2]
      exact ⟨rfl, rfl, rfl, rfl, rfl⟩
    · intro hdbg
      rw [heq]
      split
      · exact ⟨_, rfl⟩
      · split
        · rename_i hd
          have hne := hdbg hd
          cases hdata : m.data with
          | nil => exact absurd hdata hne
          | cons x xs =>
            refine ⟨(true, a, unlock (lock p)), ?_⟩
            simp [message.getString, hdata]
        · exact ⟨_, rfl⟩

/-- A host on fresh FIFOs answers `IdSampleRateInformation` at 44100 Hz with
the message (4, ["44100"]). -/
theorem host_replies_same_id_or_nothing_witness :
    ∃ p', processMessage (exampleEngine 64) 44100 1 ⟨IdSampleRateInformation, []⟩
        { m_shmObj := SharedMemorySysV.construct 1, shmKey := 0, os := SysV.empty }
        (exampleHost false true none 2)
        = some (true, { m_shmObj := SharedMemorySysV.construct 1, shmKey := 0, os := SysV.empty }, p') ∧
      live p'.m_out = [4, 0, 0, 0, 1, 0, 0, 0, 5, 0, 0, 0, 52, 52, 49, 48, 48] := by
  obtain ⟨p', h1, h2, _⟩ := (host_replies_same_id_or_nothing (exampleEngine 64) 44100 1
    ⟨IdSampleRateInformation, []⟩
    { m_shmObj := SharedMemorySysV.construct 1, shmKey := 0, os := SysV.empty }
    (exampleHost false true none 2)).1 (le_refl 1) (ready_master _) (inBounds_master _)
    (by simp [exampleHost, live_master, SHM_FIFO_SIZE])
    ⟨IdSampleRateInformation, [sprintf_d (toInt32 44100)]⟩ (Or.inr (Or.inl ⟨rfl, rfl⟩))
  refine ⟨p', h1, ?_⟩
  rw [h2]
  simp only [exampleHost, live_master, List.nil_append]
  decide

end RemotePlugin

/-! ## The client's handler -/

namespace RemotePluginClient

open RemotePluginBase ShmFifo

theorem processMessage_of_stop (env : ClientEnv) (fuel : Nat) (m : message)
    (c : RemotePluginClient) (h : m.id = IdQuit ∨ m.id = IdUndefined) :
    processMessage env fuel m c = some (false, [], c) := by
  rcases h with h | h <;> simp [processMessage, h, IdQuit, IdUndefined]

theorem processMessage_of_initDone (env : ClientEnv) (fuel : Nat) (m : message)
    (c : RemotePluginClient) (h : m.id = IdInitDone) :
    processMessage env fuel m c = some (true, [], c) := by
  have e0 : (m.id == IdUndefined) = false := by rw [h]; decide
  have e1 : (m.id == IdQuit) = false := by rw [h]; decide
  have e2 : (m.id == IdSampleRateInformation) = false := by rw [h]; decide
  have e3 : (m.id == IdBufferSizeInformation) = false := by rw [h]; decide
  have e4 : (m.id == IdMidiEvent) = false := by rw [h]; decide
  have e5 : (m.id == IdStartProcessing) = false := by rw [h]; decide
  have e6 : (m.id == IdChangeSharedMemoryKey) = false := by rw [h]; decide
  have e7 : (m.id == IdInitDone) = true := by rw [h]; decide
  simp only [processMessage, e0, e1, e2, e3, e4, e5, e6, e7, Bool.false_eq_true, if_false, if_true,
    message.ofId]
  rfl

theorem processMessage_of_start (env : ClientEnv) (fuel : Nat) (m : message)
    (c : RemotePluginClient) (h : m.id = IdStartProcessing) :
    processMessage env fuel m c =
      (doProcessing env fuel c).bind fun r =>
        (sendMessage fuel ⟨IdProcessingDone, []⟩ r.2).map fun q => (true, r.1, q.2) := by
  have e0 : (m.id == IdUndefined) = false := by rw [h]; decide
  have e1 : (m.id == IdQuit) = false := by rw [h]; decide
  have e2 : (m.id == IdSampleRateInformation) = false := by rw [h]; decide
  have e3 : (m.id == IdBufferSizeInformation) = false := by rw [h]; decide
  have e4 : (m.id == IdMidiEvent) = false := by rw [h]; decide
  have e5 : (m.id == IdStartProcessing) = true := by rw [h]; decide
  have e6 : (m.id == IdChangeSharedMemoryKey) = false := by rw [h]; decide
  have e7 : (m.id == IdInitDone) = false := by rw [h]; decide
  simp only [processMessage, e0, e1, e2, e3, e4, e5, e6, e7, Bool.false_eq_true, if_false, if_true,
    message.ofId]
  cases doProcessing env fuel c with
  | none => rfl
  | some r =>
    simp only [Option.map_some', Option.some_bind, if_true]
    cases sendMessage fuel ⟨IdProcessingDone, []⟩ r.2 <;> rfl

theorem processMessage_of_rate (env : ClientEnv) (fuel : Nat) (m : message)
    (c : RemotePluginClient) (h : m.id = IdSampleRateInformation) :
    processMessage env fuel m c =
      (m.getInt 0).bind fun v =>
        (env.hook HookCall.updateSampleRate
          { c with ext := { c.ext with m_sampleRate := env.to_sample_rate_t v } }).bind fun c1 =>
          (sendMessage fuel ⟨IdInformationUpdated, []⟩ c1).map fun q =>
            (true, [HookCall.updateSampleRate], q.2) := by
  have e0 : (m.id == IdUndefined) = false := by rw [h]; decide
  have e1 : (m.id == IdQuit) = false := by rw [h]; decide
  have e2 : (m.id == IdSampleRateInformation) = true := by rw [h]; decide
  have e3 : (m.id == IdBufferSizeInformation) = false := by rw [h]; decide
  have e4 : (m.id == IdMidiEvent) = false := by rw [h]; decide
  have e5 : (m.id == IdStartProcessing) = false := by rw [h]; decide
  have e6 : (m.id == IdChangeSharedMemoryKey) = false := by rw [h]; decide
  have e7 : (m.id == IdInitDone) = false := by rw [h]; decide
  simp only [processMessage, e0, e1, e2, e3, e4, e5, e6, e7, Bool.false_eq_true, if_false, if_true,
    message.ofId]
  cases m.getInt 0 with
  | none => rfl
  | some v =>
    simp only [Option.some_bind]
    cases env.hook HookCall.updateSampleRate
        { c with ext := { c.ext with m_sampleRate := env.to_sample_rate_t v } } with
    | none => rfl
    | some c1 =>
      simp only [Option.map_some', Option.some_bind, if_true]
      cases sendMessage fuel ⟨IdInformationUpdated, []⟩ c1 <;> rfl

theorem processMessage_of_bufferSize (env : ClientEnv) (fuel : Nat) (m : message)
    (c : RemotePluginClient) (h : m.id = IdBufferSizeInformation) :
    processMessage env fuel m c =
      (m.getInt 0).bind fun v =>
        (env.hook HookCall.updateBufferSize
          { c with ext := { c.ext with m_bufferSize := env.to_fpp_t v } }).map fun c1 =>
            (true, [HookCall.updateBufferSize], c1) := by
  have e0 : (m.id == IdUndefined) = false := by rw [h]; decide
  have e1 : (m.id == IdQuit) = false := by rw [h]; decide
  have e2 : (m.id == IdSampleRateInformation) = false := by rw [h]; decide
  have e3 : (m.id == IdBufferSizeInformation) = true := by rw [h]; decide
  have e4 : (m.id == IdMidiEvent) = false := by rw [h]; decide
  have e5 : (m.id == IdStartProcessing) = false := by rw [h]; decide
  have e6 : (m.id == IdChangeSharedMemoryKey) = false := by rw [h]; decide
  have e7 : (m.id == IdInitDone) = false := by rw [h]; decide
  simp only [processMessage, e0, e1, e2, e3, e4, e5, e6, e7, Bool.false_eq_true, if_false, if_true,
    message.ofId]
  cases m.getInt 0 with
  | none => rfl
  | some v =>
    simp only [Option.some_bind]
    cases env.hook HookCall.updateBufferSize
        { c with ext := { c.ext with m_bufferSize := env.to_fpp_t v } } <;> rfl

theorem processMessage_of_midi (env : ClientEnv) (fuel : Nat) (m : message)
    (c : RemotePluginClient) (h : m.id = IdMidiEvent) :
    processMessage env fuel m c =
      (m.getInt 0).bind fun t =>
      (m.getInt 1).bind fun ch =>
      (m.getInt 2).bind fun p0 =>
      (m.getInt 3).bind fun p1 =>
      (m.getInt 4).bind fun off =>
        (env.hook (HookCall.processMidiEvent ⟨t, ch, p0, p1⟩ off) c).map fun c1 =>
          (true, [HookCall.processMidiEvent ⟨t, ch, p0, p1⟩ off], c1) := by
  have e0 : (m.id == IdUndefined) = false := by rw [h]; decide
  have e1 : (m.id == IdQuit) = false := by rw [h]; decide
  have e2 : (m.id == IdSampleRateInformation) = false := by rw [h]; decide
  have e3 : (m.id == IdBufferSizeInformation) = false := by rw [h]; decide
  have e4 : (m.id == IdMidiEvent) = true := by rw [h]; decide
  have e5 : (m.id == IdStartProcessing) = false := by rw [h]; decide
  have e6 : (m.id == IdChangeSharedMemoryKey) = false := by rw [h]; decide
  have e7 : (m.id == IdInitDone) = false := by rw [h]; decide
  simp only [processMessage, e0, e1, e2, e3, e4, e5, e6, e7, Bool.false_eq_true, if_false, if_true,
    message.ofId]
  cases m.getInt 0 <;> [rfl; skip]
  cases m.getInt 1 <;> [rfl; skip]
  cases m.getInt 2 <;> [rfl; skip]
  cases m.getInt 3 <;> [rfl; skip]
  cases m.getInt 4 <;> [rfl; skip]
  simp only [Option.some_bind]
  rename_i t ch p0 p1 off
  cases env.hook (HookCall.processMidiEvent ⟨t, ch, p0, p1⟩ off) c <;> rfl

theorem processMessage_of_key (env : ClientEnv) (fuel : Nat) (m : message)
    (c : RemotePluginClient) (h : m.id = IdChangeSharedMemoryKey) :
    processMessage env fuel m c =
      (m.getInt 0).bind fun k =>
      (m.getInt 1).bind fun sz =>
        (setShmKey env fuel k sz c).map fun c1 => (true, [], c1) := by
  have e0 : (m.id == IdUndefined) = false := by rw [h]; decide
  have e1 : (m.id == IdQuit) = false := by rw [h]; decide
  have e2 : (m.id == IdSampleRateInformation) = false := by rw [h]; decide
  have e3 : (m.id == IdBufferSizeInformation) = false := by rw [h]; decide
  have e4 : (m.id == IdMidiEvent) = false := by rw [h]; decide
  have e5 : (m.id == IdStartProcessing) = false := by rw [h]; decide
  have e6 : (m.id == IdChangeSharedMemoryKey) = true := by rw [h]; decide
  have e7 : (m.id == IdInitDone) = false := by rw [h]; decide
  simp only [processMessage, e0, e1, e2, e3, e4, e5, e6, e7, Bool.false_eq_true, if_false, if_true,
    message.ofId]
  cases m.getInt 0 <;> [rfl; skip]
  cases m.getInt 1 <;> [rfl; skip]
  simp only [Option.some_bind]
  rename_i k sz
  cases setShmKey env fuel k sz c <;> rfl

theorem processMessage_of_unknown (env : ClientEnv) (fuel : Nat) (m : message)
    (c : RemotePluginClient) (h0 : m.id ≠ IdUndefined) (h1 : m.id ≠ IdQuit)
    (h2 : m.id ≠ IdSampleRateInformation) (h3 : m.id ≠ IdBufferSizeInformation)
    (h4 : m.id ≠ IdMidiEvent) (h5 : m.id ≠ IdStartProcessing)
    (h6 : m.id ≠ IdChangeSharedMemoryKey) (h7 : m.id ≠ IdInitDone) :
    processMessage env fuel m c =
      (debugMessage fuel
        (cBytes "undefined message: " ++ sprintf_d (toInt32 m.id) ++ cBytes "\n") c).map
        fun c1 => (true, [], c1) := by
  have e0 : (m.id == IdUndefined) = false := by simpa using h0
  have e1 : (m.id == IdQuit) = false := by simpa using h1
  have e2 : (m.id == IdSampleRateInformation) = false := by simpa using h2
  have e3 : (m.id == IdBufferSizeInformation) = false := by simpa using h3
  have e4 : (m.id == IdMidiEvent) = false := by simpa using h4
  have e5 : (m.id == IdStartProcessing) = false := by simpa using h5
  have e6 : (m.id == IdChangeSharedMemoryKey) = false := by simpa using h6
  have e7 : (m.id == IdInitDone) = false := by simpa using h7
  simp only [processMessage, e0, e1, e2, e3, e4, e5, e6, e7, Bool.false_eq_true, if_false]
  cases debugMessage fuel
    (cBytes "undefined message: " ++ sprintf_d (toInt32 m.id) ++ cBytes "\n") c <;> rfl

theorem sendAll_one {σ : Type} (fuel : Nat) (a : message) (e e1 : RemotePluginBase σ)
    (h : sendAll fuel [a] e = some e1) :
    ∃ j, sendMessage fuel a e = some (j, e1) := by
  simp only [sendAll, Option.bind_eq_some, Option.some.injEq] at h
  obtain ⟨r, hr, h2⟩ := h
  exact ⟨r.1, by rw [hr, ← h2]⟩

theorem sendAll_two {σ : Type} (fuel : Nat) (a b : message) (e e2 : RemotePluginBase σ)
    (h : sendAll fuel [a, b] e = some e2) :
    ∃ j1 e1 j2, sendMessage fuel a e = some (j1, e1) ∧ sendMessage fuel b e1 = some (j2, e2) := by
  simp only [sendAll, Option.bind_eq_some, Option.some.injEq] at h
  obtain ⟨r, hr, r2, hr2, h2⟩ := h
  exact ⟨r.1, r.2, r2.1, hr, by rw [hr2, ← h2]⟩

/-- With a plugin whose overrides return and send nothing, arguments that
parse, and a valid out-FIFO with room, the client's handler returns: false
exactly for `IdQuit` and `IdUndefined`. What it has appended to the out-FIFO
is the wire form of at most two messages, each an `IdInformationUpdated` or
`IdProcessingDone` without argument or an `IdDebugMessage` with one argument,
and it has released the message semaphore once for each. -/
theorem processMessage_returns (env : ClientEnv) (fuel : Nat) (m : message)
    (c : RemotePluginClient) (hfuel : 1 ≤ fuel)
    (hhook : ∀ h c0, ∃ c1, env.hook h c0 = some c1 ∧ c1.m_out = c0.m_out)
    (hargs : ∀ k : Nat, k < argumentsRead m.id → ∃ v, m.getInt k = some v)
    (herr : env.strerror.length ≤ 64)
    (hr : Ready c.m_out) (hb : InBounds c.m_out)
    (hroom : ((live c.m_out).length : Int) + 128 ≤ SHM_FIFO_SIZE) :
    ∃ (r : Bool × List HookCall × RemotePluginClient) (sent : List message) (d : ShmData),
      processMessage env fuel m c = some r ∧
      (r.1 = false ↔ (m.id = IdQuit ∨ m.id = IdUndefined)) ∧
      r.2.2.m_out
        = { c.m_out with m_data := d, m_messageSem := c.m_out.m_messageSem + sent.length } ∧
      InBounds { c.m_out with m_data := d } ∧
      live { c.m_out with m_data := d } = live c.m_out ++ sent.flatMap wire ∧
      sent.length ≤ 2 ∧
      ∀ x ∈ sent, (x.data = [] ∧ (x.id = IdInformationUpdated ∨ x.id = IdProcessingDone)) ∨
        (x.id = IdDebugMessage ∧ ∃ t, x.data = [t]) := by
  have hsend : ∀ (ms : List message) (c1 : RemotePluginClient), c1.m_out = c.m_out →
      (totalSize ms : Int) ≤ 128 →
      ∃ d, sendAll fuel ms c1
          = some { c1 with m_out := { c.m_out with m_data := d, m_messageSem := c.m_out.m_messageSem + ms.length } } ∧
        InBounds { c.m_out with m_data := d } ∧
        live { c.m_out with m_data := d } = live c.m_out ++ ms.flatMap wire := by
    intro ms c1 h1 hsz
    cases c1 with
    | mk ci co cw ce =>
      simp only at h1
      subst h1
      exact sendAll_of_room fuel hfuel ms _ hr hb (by simp only; omega)
  have hdone : (totalSize [⟨IdProcessingDone, []⟩] : Int) ≤ 128 := by decide
  have hinfo : (totalSize [⟨IdInformationUpdated, []⟩] : Int) ≤ 128 := by decide
  have hdbg : ∀ t : List Nat, t.length ≤ 108 → (totalSize [⟨IdDebugMessage, [t]⟩] : Int) ≤ 128 := by
    intro t ht
    have : totalSize [⟨IdDebugMessage, [t]⟩] = 8 + (4 + t.length + 0) + 0 := rfl
    rw [this]
    omega
  have hnone : ∀ (b : Bool) (calls : List HookCall) (c1 : RemotePluginClient),
      c1.m_out = c.m_out → processMessage env fuel m c = some (b, calls, c1) →
      (b = false ↔ (m.id = IdQuit ∨ m.id = IdUndefined)) →
      ∃ (r : Bool × List HookCall × RemotePluginClient) (sent : List message) (d : ShmData),
        processMessage env fuel m c = some r ∧
        (r.1 = false ↔ (m.id = IdQuit ∨ m.id = IdUndefined)) ∧
        r.2.2.m_out
          = { c.m_out with m_data := d, m_messageSem := c.m_out.m_messageSem + sent.length } ∧
        InBounds { c.m_out with m_data := d } ∧
        live { c.m_out with m_data := d } = live c.m_out ++ sent.flatMap wire ∧
        sent.length ≤ 2 ∧
        ∀ x ∈ sent, (x.data = [] ∧ (x.id = IdInformationUpdated ∨ x.id = IdProcessingDone)) ∨
          (x.id = IdDebugMessage ∧ ∃ t, x.data = [t]) := by
    intro b calls c1 h1 hp hiff
    refine ⟨(b, calls, c1), [], c.m_out.m_data, hp, hiff, ?_, hb, by simp [live], by simp, by simp⟩
    rw [show (b, calls, c1).2.2.m_out = c1.m_out from rfl, h1]
    rfl
  have hfin : ∀ (calls : List HookCall) (c1 : RemotePluginClient) (ms : List message)
      (d : ShmData),
      processMessage env fuel m c = some (true, calls,
        { c1 with m_out := { c.m_out with m_data := d, m_messageSem := c.m_out.m_messageSem + ms.length } }) →
      ¬ (m.id = IdQuit ∨ m.id = IdUndefined) →
      InBounds { c.m_out with m_data := d } →
      live { c.m_out with m_data := d } = live c.m_out ++ ms.flatMap wire →
      ms.length ≤ 2 →
      (∀ x ∈ ms, (x.data = [] ∧ (x.id = IdInformationUpdated ∨ x.id = IdProcessingDone)) ∨
        (x.id = IdDebugMessage ∧ ∃ t, x.data = [t])) →
      ∃ (r : Bool × List HookCall × RemotePluginClient) (sent : List message) (d : ShmData),
        processMessage env fuel m c = some r ∧
        (r.1 = false ↔ (m.id = IdQuit ∨ m.id = IdUndefined)) ∧
        r.2.2.m_out
          = { c.m_out with m_data := d, m_messageSem := c.m_out.m_messageSem + sent.length } ∧
        InBounds { c.m_out with m_data := d } ∧
        live { c.m_out with m_data := d } = live c.m_out ++ sent.flatMap wire ∧
        sent.length ≤ 2 ∧
        ∀ x ∈ sent, (x.data = [] ∧ (x.id = IdInformationUpdated ∨ x.id = IdProcessingDone)) ∨
          (x.id = IdDebugMessage ∧ ∃ t, x.data = [t]) :=
    fun calls c1 ms d hp hns hbd hl hlen hx =>
      ⟨_, ms, d, hp, by simp [hns], rfl, hbd, hl, hlen, hx⟩
  by_cases hstop : m.id = IdQuit ∨ m.id = IdUndefined
  · exact hnone false [] c rfl (processMessage_of_stop env fuel m c hstop) (by simp [hstop])
  have hiff : (true = false ↔ (m.id = IdQuit ∨ m.id = IdUndefined)) := by simp [hstop]
  by_cases h7 : m.id = IdInitDone
  · exact hnone true [] c rfl (processMessage_of_initDone env fuel m c h7) hiff
  by_cases h5 : m.id = IdStartProcessing
  · cases hshm : c.ext.m_shm with
    | some base =>
      obtain ⟨c1, hc1, hout⟩ := hhook
        (HookCall.process (if c.ext.m_inputCount > 0 then some (base, 0) else none)
          (base, c.ext.m_inputCount * c.ext.m_bufferSize)) c
      obtain ⟨d, hs, hbd, hl⟩ := hsend [⟨IdProcessingDone, []⟩] c1 hout hdone
      obtain ⟨j, hs1⟩ := sendAll_one fuel _ c1 _ hs
      refine hfin [HookCall.process (if c.ext.m_inputCount > 0 then some (base, 0) else none)
          (base, c.ext.m_inputCount * c.ext.m_bufferSize)] c1 [⟨IdProcessingDone, []⟩] d ?_ hstop
        hbd hl (by simp) ?_
      · rw [processMessage_of_start env fuel m c h5]
        simp only [doProcessing, hshm, hc1, Option.map_some', Option.some_bind, hs1]
      · intro x hx
        simp only [List.mem_singleton] at hx
        subst hx
        exact Or.inl ⟨rfl, Or.inr rfl⟩
    | none =>
      obtain ⟨d, hs, hbd, hl⟩ := hsend
        [⟨IdDebugMessage, [cBytes "doProcessing(): have no shared memory!\n"]⟩,
          ⟨IdProcessingDone, []⟩] c rfl (by decide)
      obtain ⟨j1, e1, j2, hs1, hs2⟩ := sendAll_two fuel _ _ c _ hs
      refine hfin [] c [⟨IdDebugMessage, [cBytes "doProcessing(): have no shared memory!\n"]⟩,
          ⟨IdProcessingDone, []⟩] d ?_ hstop hbd hl (by simp) ?_
      · rw [processMessage_of_start env fuel m c h5]
        have hmsg : (message.ofId IdDebugMessage).addString
            (cBytes "doProcessing(): have no shared memory!\n")
            = ⟨IdDebugMessage, [cBytes "doProcessing(): have no shared memory!\n"]⟩ := rfl
        simp only [doProcessing, hshm, debugMessage, hmsg, hs1, Option.map_some',
          Option.some_bind, hs2]
      · intro x hx
        simp only [List.mem_cons, List.mem_singleton, List.not_mem_nil, or_false] at hx
        rcases hx with hx | hx <;> subst hx
        · exact Or.inr ⟨rfl, _, rfl⟩
        · exact Or.inl ⟨rfl, Or.inr rfl⟩
  by_cases h2 : m.id = IdSampleRateInformation
  · obtain ⟨v, hv⟩ : ∃ v, m.getInt 0 = some v := by
      simpa using hargs 0 (by rw [h2]; decide)
    obtain ⟨c1, hc1, hout⟩ := hhook HookCall.updateSampleRate
      { c with ext := { c.ext with m_sampleRate := env.to_sample_rate_t v } }
    obtain ⟨d, hs, hbd, hl⟩ := hsend [⟨IdInformationUpdated, []⟩] c1 hout hinfo
    obtain ⟨j, hs1⟩ := sendAll_one fuel _ c1 _ hs
    refine hfin [HookCall.updateSampleRate] c1 [⟨IdInformationUpdated, []⟩] d ?_ hstop hbd hl
      (by simp) ?_
    · rw [processMessage_of_rate env fuel m c h2]
      simp only [hv, hc1, Option.map_some', Option.some_bind, hs1]
    · intro x hx
      simp only [List.mem_singleton] at hx
      subst hx
      exact Or.inl ⟨rfl, Or.inl rfl⟩
  by_cases h3 : m.id = IdBufferSizeInformation
  · obtain ⟨v, hv⟩ : ∃ v, m.getInt 0 = some v := by
      simpa using hargs 0 (by rw [h3]; decide)
    obtain ⟨c1, hc1, hout⟩ := hhook HookCall.updateBufferSize
      { c with ext := { c.ext with m_bufferSize := env.to_fpp_t v } }
    refine hnone true [HookCall.updateBufferSize] c1 hout ?_ hiff
    rw [processMessage_of_bufferSize env fuel m c h3]
    simp only [hv, hc1, Option.map_some', Option.some_bind]
  by_cases h4 : m.id = IdMidiEvent
  · obtain ⟨t, ht⟩ : ∃ v, m.getInt 0 = some v := by
      simpa using hargs 0 (by rw [h4]; decide)
    obtain ⟨ch, hch⟩ : ∃ v, m.getInt 1 = some v := by
      simpa using hargs 1 (by rw [h4]; decide)
    obtain ⟨p0, hp0⟩ : ∃ v, m.getInt 2 = some v := by
      simpa using hargs 2 (by rw [h4]; decide)
    obtain ⟨p1, hp1⟩ : ∃ v, m.getInt 3 = some v := by
      simpa using hargs 3 (by rw [h4]; decide)
    obtain ⟨off, hoff⟩ : ∃ v, m.getInt 4 = some v := by
      simpa using hargs 4 (by rw [h4]; decide)
    obtain ⟨c1, hc1, hout⟩ := hhook (HookCall.processMidiEvent ⟨t, ch, p0, p1⟩ off) c
    refine hnone true [HookCall.processMidiEvent ⟨t, ch, p0, p1⟩ off] c1 hout ?_ hiff
    rw [processMessage_of_midi env fuel m c h4]
    simp only [ht, hch, hp0, hp1, hoff, hc1, Option.map_some', Option.some_bind]
  by_cases h6 : m.id = IdChangeSharedMemoryKey
  · obtain ⟨k, hk⟩ : ∃ v, m.getInt 0 = some v := by
      simpa using hargs 0 (by rw [h6]; decide)
    obtain ⟨sz, hsz⟩ : ∃ v, m.getInt 1 = some v := by
      simpa using hargs 1 (by rw [h6]; decide)
    obtain ⟨ck, hck⟩ : ∃ ck : RemotePluginClient, ck =
        { c with ext := { c.ext with
            m_shmObj := (SharedMemorySysV.attach false (c.ext.m_shmObj.setKey k c.ext.os).1
              (c.ext.m_shmObj.setKey k c.ext.os).2).2.1
            os := (SharedMemorySysV.attach false (c.ext.m_shmObj.setKey k c.ext.os).1
              (c.ext.m_shmObj.setKey k c.ext.os).2).2.2
            m_shm := (SharedMemorySysV.attach false (c.ext.m_shmObj.setKey k c.ext.os).1
              (c.ext.m_shmObj.setKey k c.ext.os).2).1 } } := ⟨_, rfl⟩
    have hkout : ck.m_out = c.m_out := by rw [hck]
    have hset : setShmKey env fuel k sz c =
        if (SharedMemorySysV.attach false (c.ext.m_shmObj.setKey k c.ext.os).1
            (c.ext.m_shmObj.setKey k c.ext.os).2).1.isNone = true then
          debugMessage fuel
            (cBytes "failed getting shared memory: " ++ env.strerror ++ cBytes "\n") ck
        else some ck := by
      rw [hck]
      rfl
    by_cases hatt : (SharedMemorySysV.attach false (c.ext.m_shmObj.setKey k c.ext.os).1
        (c.ext.m_shmObj.setKey k c.ext.os).2).1.isNone = true
    · have hlen : (cBytes "failed getting shared memory: " ++ env.strerror ++ cBytes "\n").length
          ≤ 108 := by
        have : (cBytes "failed getting shared memory: " ++ env.strerror ++ cBytes "\n").length
            = 30 + env.strerror.length + 1 := by
          simp only [List.length_append]
          rfl
        omega
      obtain ⟨d, hs, hbd, hl⟩ := hsend
        [⟨IdDebugMessage, [cBytes "failed getting shared memory: " ++ env.strerror ++ cBytes "\n"]⟩]
        ck hkout (hdbg _ hlen)
      obtain ⟨j, hs1⟩ := sendAll_one fuel _ _ _ hs
      refine hfin [] ck
        [⟨IdDebugMessage, [cBytes "failed getting shared memory: " ++ env.strerror ++ cBytes "\n"]⟩]
        d ?_ hstop hbd hl (by simp) ?_
      · rw [processMessage_of_key env fuel m c h6]
        have hmsg : (message.ofId IdDebugMessage).addString
            (cBytes "failed getting shared memory: " ++ env.strerror ++ cBytes "\n")
            = ⟨IdDebugMessage,
              [cBytes "failed getting shared memory: " ++ env.strerror ++ cBytes "\n"]⟩ := rfl
        simp only [hk, hsz, Option.some_bind, hset, hatt, if_true, debugMessage, hmsg, hs1,
          Option.map_some']
      · intro x hx
        simp only [List.mem_singleton] at hx
        subst hx
        exact Or.inr ⟨rfl, _, rfl⟩
    · refine hnone true [] ck hkout ?_ hiff
      rw [processMessage_of_key env fuel m c h6]
      simp only [hk, hsz, Option.some_bind, hset, hatt, Bool.false_eq_true, if_false,
        Option.map_some']
  · have hu : m.id ≠ IdUndefined := fun hx => hstop (Or.inr hx)
    have hq : m.id ≠ IdQuit := fun hx => hstop (Or.inl hx)
    have hlen : (cBytes "undefined message: " ++ sprintf_d (toInt32 m.id) ++ cBytes "\n").length
        ≤ 108 := by
      have : (cBytes "undefined message: " ++ sprintf_d (toInt32 m.id) ++ cBytes "\n").length
          = 19 + (sprintf_d (toInt32 m.id)).length + 1 := by
        simp only [List.length_append]
        rfl
      have hd := sprintf_d_length_le (toInt32 m.id)
      omega
    obtain ⟨d, hs, hbd, hl⟩ := hsend
      [⟨IdDebugMessage, [cBytes "undefined message: " ++ sprintf_d (toInt32 m.id) ++ cBytes "\n"]⟩]
      c rfl (hdbg _ hlen)
    obtain ⟨j, hs1⟩ := sendAll_one fuel _ _ _ hs
    refine hfin [] c
      [⟨IdDebugMessage, [cBytes "undefined message: " ++ sprintf_d (toInt32 m.id) ++ cBytes "\n"]⟩]
      d ?_ hstop hbd hl (by simp) ?_
    · rw [processMessage_of_unknown env fuel m c hu hq h2 h3 h4 h5 h6 h7]
      have hmsg : (message.ofId IdDebugMessage).addString
          (cBytes "undefined message: " ++ sprintf_d (toInt32 m.id) ++ cBytes "\n")
          = ⟨IdDebugMessage,
            [cBytes "undefined message: " ++ sprintf_d (toInt32 m.id) ++ cBytes "\n"]⟩ := rfl
      simp only [debugMessage, hmsg, hs1, Option.map_some']
    · intro x hx
      simp only [List.mem_singleton] at hx
      subst hx
      exact Or.inr ⟨rfl, _, rfl⟩

/-- C24: the client's handler returns false exactly when the id is `IdQuit`
or `IdUndefined`, and true for every other id. Whenever it returns, this is
so (first part); for these two ids it returns at once, having called nothing,
sent nothing and changed nothing (second part); for an id it has no case for
(`IdShowUI`, ids from `IdUserBase` on, ...) it does return, true, when the
out-FIFO has room for the debug message "undefined message: <id>" that it
sends (third part). And it does return for every id, the six ids with a case
of their own included (`IdInitDone`, `IdSampleRateInformation`,
`IdBufferSizeInformation`, `IdMidiEvent`, `IdStartProcessing`,
`IdChangeSharedMemoryKey`): when the plugin's overrides return and send
nothing, the arguments that the case reads exist and are `int`s, and the
out-FIFO is valid and has room, the handler produces a result, which is false
exactly for the two stop ids (fourth part). -/
theorem client_stops_only_on_quit_or_undefined (env : ClientEnv) (fuel : Nat) (m : message)
    (c : RemotePluginClient) :
    (∀ r, processMessage env fuel m c = some r →
      (r.1 = false ↔ (m.id = IdQuit ∨ m.id = IdUndefined))) ∧
    ((m.id = IdQuit ∨ m.id = IdUndefined) → processMessage env fuel m c = some (false, [], c)) ∧
    (m.id ≠ IdUndefined → m.id ≠ IdQuit → m.id ≠ IdSampleRateInformation →
      m.id ≠ IdBufferSizeInformation → m.id ≠ IdMidiEvent → m.id ≠ IdStartProcessing →
      m.id ≠ IdChangeSharedMemoryKey → m.id ≠ IdInitDone →
      1 ≤ fuel → Ready c.m_out → InBounds c.m_out →
      ((live c.m_out).length : Int) + 43 ≤ SHM_FIFO_SIZE →
      ∃ c', processMessage env fuel m c = some (true, [], c') ∧
        live c'.m_out = live c.m_out ++
          wire ⟨IdDebugMessage,
            [cBytes "undefined message: " ++ sprintf_d (toInt32 m.id) ++ cBytes "\n"]⟩) ∧
    (1 ≤ fuel → (∀ h c0, ∃ c1, env.hook h c0 = some c1 ∧ c1.m_out = c0.m_out) →
      (∀ k : Nat, k < argumentsRead m.id → ∃ v, m.getInt k = some v) →
      env.strerror.length ≤ 64 → Ready c.m_out → InBounds c.m_out →
      ((live c.m_out).length : Int) + 128 ≤ SHM_FIFO_SIZE →
      ∃ r, processMessage env fuel m c = some r ∧
        (r.1 = false ↔ (m.id = IdQuit ∨ m.id = IdUndefined))) := by
  refine ⟨?_, processMessage_of_stop env fuel m c, ?_, ?_⟩
  rotate_left 2
  · intro hfuel hhook hargs herr hr hb hroom
    obtain ⟨r, _, _, hp, hiff, _⟩ :=
      processMessage_returns env fuel m c hfuel hhook hargs herr hr hb hroom
    exact ⟨r, hp, hiff⟩
  · intro r hres
    by_cases hstop : m.id = IdQuit ∨ m.id = IdUndefined
    · rw [processMessage_of_stop env fuel m c hstop] at hres
      rw [← Option.some.inj hres]
      simp [hstop]
    · have e0 : (m.id == IdUndefined) = false := by
        simpa using fun h => hstop (Or.inr h)
      have e1 : (m.id == IdQuit) = false := by
        simpa using fun h => hstop (Or.inl h)
      simp only [processMessage, e0, e1, Bool.false_eq_true, if_false, Option.bind_eq_some,
        Option.map_eq_some'] at hres
      obtain ⟨st, _, c1, _, hr⟩ := hres
      rw [← hr]
      simp [hstop]
  · intro h0 h1 h2 h3 h4 h5 h6 h7 hfuel hr hb hroom
    have hlen := sprintf_d_length_le (toInt32 m.id)
    have hsize : encodedSize ⟨IdDebugMessage,
        [cBytes "undefined message: " ++ sprintf_d (toInt32 m.id) ++ cBytes "\n"]⟩
        = 8 + (4 + (19 + (sprintf_d (toInt32 m.id)).length + 1) + 0) := by
      simp only [encodedSize, List.map_cons, List.map_nil, List.sum_cons, List.sum_nil,
        List.length_append]
      rfl
    obtain ⟨d, hs, _, hl⟩ := sendMessage_of_room fuel hfuel
      ⟨IdDebugMessage, [cBytes "undefined message: " ++ sprintf_d (toInt32 m.id) ++ cBytes "\n"]⟩
      c hr hb (by rw [hsize]; push_cast; omega)
    refine ⟨{ c with m_out := ShmFifo.messageSent { c.m_out with m_data := d } }, ?_, hl⟩
    rw [processMessage_of_unknown env fuel m c h0 h1 h2 h3 h4 h5 h6 h7]
    have hmsg : (message.ofId IdDebugMessage).addString
        (cBytes "undefined message: " ++ sprintf_d (toInt32 m.id) ++ cBytes "\n")
        = ⟨IdDebugMessage,
          [cBytes "undefined message: " ++ sprintf_d (toInt32 m.id) ++ cBytes "\n"]⟩ := rfl
    simp only [debugMessage, hmsg, hs, Option.map_some']

/-- A client on fresh FIFOs handling `IdShowUI` = 14, an id it has no case
for: it returns true and sends the debug message "undefined message: 14".
The same client handling `IdSampleRateInformation` with the argument "44100":
it returns, and not false. -/
theorem client_stops_only_on_quit_or_undefined_witness :
    (∃ c', processMessage ClientEnv.quiet 1 ⟨IdShowUI, []⟩ (exampleClient none)
        = some (true, [], c') ∧
      live c'.m_out = wire ⟨IdDebugMessage, [cBytes "undefined message: 14\n"]⟩) ∧
    ∃ r, processMessage ClientEnv.quiet 1 ⟨IdSampleRateInformation, [[52, 52, 49, 48, 48]]⟩
        (exampleClient none) = some r ∧
      (r.1 = false ↔ (IdSampleRateInformation = IdQuit ∨ IdSampleRateInformation = IdUndefined)) := by
  constructor
  · obtain ⟨c', h1, h2⟩ := (client_stops_only_on_quit_or_undefined ClientEnv.quiet 1
      ⟨IdShowUI, []⟩ (exampleClient none)).2.2.1 (by decide) (by decide) (by decide) (by decide)
      (by decide) (by decide) (by decide) (by decide) (le_refl 1) (ready_master _)
      (inBounds_master _) (by simp [exampleClient, live_master, SHM_FIFO_SIZE])
    refine ⟨c', h1, ?_⟩
    rw [h2]
    simp only [exampleClient, live_master, List.nil_append]
    rw [toInt32_of_range _ (by decide) (by decide)]
    decide
  · exact (client_stops_only_on_quit_or_undefined ClientEnv.quiet 1
      ⟨IdSampleRateInformation, [[52, 52, 49, 48, 48]]⟩ (exampleClient none)).2.2.2 (le_refl 1)
      (fun _ c0 => ⟨c0, rfl, rfl⟩)
      (fun k hk => by
        have h1 : argumentsRead (message.id ⟨IdSampleRateInformation, [[52, 52, 49, 48, 48]]⟩) = 1 := by
          decide
        rw [h1] at hk
        have h0 : k = 0 := by omega
        subst h0
        exact ⟨44100, by decide⟩)
      (by decide) (ready_master _) (inBounds_master _)
      (by simp [exampleClient, live_master, SHM_FIFO_SIZE])

end RemotePluginClient

/-! ## The message semaphore counts the messages sent and not yet received -/

namespace ShmFifo

end ShmFifo

namespace RemotePluginBase

open ShmFifo

variable {σ : Type}

end RemotePluginBase

/-! ## The socket build: a failed read invalidates and zero-fills -/

namespace SocketBase

theorem readLoop_of_failure (bad : ReadResult) (rest : List ReadResult)
    (hbad : bad = ReadResult.error ∨ bad = ReadResult.data []) :
    ∀ (chunks : List (List Nat)) (n : Nat) (acc : List Nat), (∀ b ∈ chunks, b ≠ []) →
      (chunks.map List.length).sum < n →
      readLoop (chunks.map ReadResult.data ++ bad :: rest) n acc = some (none, rest) := by
  intro chunks
  induction chunks with
  | nil =>
    intro n acc _ hn
    obtain ⟨k, rfl⟩ : ∃ k, n = k + 1 := ⟨n - 1, by simp at hn; omega⟩
    rcases hbad with h | h <;> subst h <;> simp [readLoop]
  | cons b bs ih =>
    intro n acc hne hn
    have hb : b ≠ [] := hne b (by simp)
    have hblen : 0 < b.length := List.length_pos.mpr hb
    simp only [List.map_cons, List.sum_cons] at hn
    obtain ⟨k, rfl⟩ : ∃ k, n = k + 1 := ⟨n - 1, by omega⟩
    have hle : b.length ≤ k + 1 := by omega
    simp only [List.map_cons, List.cons_append, readLoop, hb, if_false, hle, if_true]
    exact ih _ _ (fun x hx => hne x (by simp [hx])) (by omega)

/-- C26: in the socket build, let `read(_buf, len)` with `len > 0` be called
on a valid endpoint, let the first `::read` calls deliver non-empty chunks
that together hold fewer than `len` bytes, and let the next `::read` return
-1 or 0. Then `read` returns with the endpoint marked invalid and all `len`
bytes of the buffer zero, the bytes already received included. On an invalid
endpoint every `read` zero-fills its buffer and every `write` returns at once;
neither uses the socket (the pending results and the bytes sent are as they
were). -/
theorem socket_read_failure_zero_fills (len : Int) (e : SocketBase) (chunks : List (List Nat))
    (bad : ReadResult) (rest : List ReadResult) (hlen : 0 < len) (hv : e.m_invalid = false)
    (hne : ∀ b ∈ chunks, b ≠ []) (hless : ((chunks.map List.length).sum : Int) < len)
    (hbad : bad = ReadResult.error ∨ bad = ReadResult.data [])
    (hscript : e.incoming = chunks.map ReadResult.data ++ bad :: rest) :
    read len e = some (List.replicate len.toNat 0, { e with m_invalid := true, incoming := rest }) ∧
    ∀ (e' : SocketBase) (len' : Int) (buf : List Nat), e'.m_invalid = true → 0 ≤ len' →
      read len' e' = some (List.replicate len'.toNat 0, e') ∧ write buf e' = some e' := by
  constructor
  · have hloop := readLoop_of_failure bad rest hbad chunks len.toNat [] hne (by omega)
    have hnn : ¬ len < 0 := by omega
    simp only [read, hnn, if_false, isInvalid, hv, Bool.false_eq_true, hscript, hloop,
      Option.map_some', invalidate]
  · intro e' len' buf hinv hnn
    have h0 : ¬ len' < 0 := by omega
    exact ⟨by simp [read, h0, isInvalid, hinv], by simp [write, isInvalid, hinv]⟩

/-- A read of 4 bytes that gets 2 bytes and then an error: the buffer is
0, 0, 0, 0 and the endpoint is invalid; the next read and write leave the
socket alone. -/
theorem socket_read_failure_zero_fills_witness :
    read 4 ⟨false, [ReadResult.data [1, 2], ReadResult.error, ReadResult.data [3]], [], []⟩
      = some ([0, 0, 0, 0], ⟨true, [ReadResult.data [3]], [], []⟩) ∧
    read 1 ⟨true, [ReadResult.data [3]], [], []⟩
      = some ([0], ⟨true, [ReadResult.data [3]], [], []⟩) ∧
    write [5] ⟨true, [ReadResult.data [3]], [], []⟩ = some ⟨true, [ReadResult.data [3]], [], []⟩ :=
  ⟨(socket_read_failure_zero_fills 4
      ⟨false, [ReadResult.data [1, 2], ReadResult.error, ReadResult.data [3]], [], []⟩
      [[1, 2]] ReadResult.error [ReadResult.data [3]] (by decide) rfl (by decide) (by decide)
      (Or.inl rfl) rfl).1,
    by decide, by decide⟩

end SocketBase

/-! ## The indices of the audio segment, and what is cleared -/

namespace RemotePlugin

open RemotePluginBase ShmFifo

/-- C27 (failing input): one input, one output, two frames per period,
non-split mode, a segment of (1 + 1) * 2 = 4 floats, so the input region is
`[0, 2)` and the output region `[2, 4)`. The input stage writes the indices 0
and 2, the second of which is in the output region: after it index 2 holds
`in_buf[1][0]` = 12. The output stage reads the indices 2 and 4, the second
of which is outside the segment: `out_buf[1][0]` is whatever index 4 holds. -/
theorem process_mono_nonsplit_indices_leave_regions :
    inputWrites (exampleEngine 2) false 1 true = [0, 2] ∧
    outputReads (exampleEngine 2) false 1 1 = [2, 4] ∧
    copyInput (exampleEngine 2) false 1 (some fun i => 10 + i) (fun i => 100 + i) 2 = 12 ∧
    copyOutput (exampleEngine 2) false 1 1 (fun i => if i = 4 then 1 else 0) (fun _ => 0) 2 = 1 ∧
    copyOutput (exampleEngine 2) false 1 1 (fun _ => 0) (fun _ => 0) 2 = 0 := by
  refine ⟨by decide, by decide, by decide, by decide, by decide⟩

theorem resize_keeps_shmSize (eng : Engine) (fuel : Nat) (a : AudioShm) (p : RemotePlugin)
    (r : AudioShm × RemotePlugin) (h : resizeSharedProcessingMemory eng fuel a p = some r) :
    r.2.ext.m_shmSize = p.ext.m_shmSize := by
  unfold resizeSharedProcessingMemory at h
  simp only at h
  split at h
  · exact absurd h (by simp)
  · obtain ⟨c, _, h2⟩ := Option.bind_eq_some.mp h
    obtain ⟨q, hq, hr⟩ := Option.map_eq_some'.mp h2
    rw [← hr]
    have := (sendMessage_frame fuel _ _ q.2 q.1 hq).1
    simp only
    rw [this]

/-- C28 (failing input): a host with one input and one output in split mode,
two frames per period, `m_shmSize` = 0 as the constructor sets it and
`resizeSharedProcessingMemory` leaves it, and a segment of 4 floats that still
holds the samples 100, 101, 102, 103 of the previous period. `process` with
`in_buf[0][0] = 10`, `in_buf[1][0] = 12` gets as far as waiting for
`IdProcessingDone`; at that point the input region holds 10, 12 and the output
region still holds 102, 103, not zeros. -/
theorem process_does_not_clear_segment :
    (processBegin ignoreAll (exampleEngine 2) 1 (some fun i => 10 + i) (some fun _ => 0)
        (exampleHostChannels true 1 fun i => 100 + i)).map
      (fun st => (st.isWaiting, st.shmAt 0, st.shmAt 1, st.shmAt 2, st.shmAt 3))
      = some (true, some 10, some 12, some 102, some 103) ∧
    (exampleHostChannels true 1 fun i => 100 + i).ext.m_shmSize = 0 := by
  constructor <;> decide

end RemotePlugin

/-! ## Channel counts from the client to the host -/

namespace RemotePlugin

open RemotePluginBase ShmFifo

end RemotePlugin

/-! ## Replies to replies -/

namespace RemotePluginBase

open ShmFifo

variable {σ : Type}

/-- A `sendMessage` that returns on a valid out-FIFO with room has appended the
wire form of the message, and the out-FIFO is ready for the next send. -/
theorem sendMessage_live (fuel : Nat) (hfuel : 1 ≤ fuel) (msg : message) (e : RemotePluginBase σ)
    (q : Int × RemotePluginBase σ) (hr : Ready e.m_out) (hb : InBounds e.m_out)
    (hroom : ((live e.m_out).length : Int) + encodedSize msg ≤ SHM_FIFO_SIZE)
    (h : sendMessage fuel msg e = some q) :
    live q.2.m_out = live e.m_out ++ wire msg ∧ Ready q.2.m_out ∧ InBounds q.2.m_out := by
  obtain ⟨d, hs, hb', hl⟩ := sendMessage_of_room fuel hfuel msg e hr hb hroom
  rw [hs] at h
  rw [← Option.some.inj h]
  exact ⟨hl, hr, hb'⟩

end RemotePluginBase

namespace RemotePlugin

open RemotePluginBase ShmFifo

/-- The host's handler sends nothing for an id that has no reply and no
resize: the out-FIFO is what it was. -/
theorem processMessage_other_sends_nothing (eng : Engine) (rate : Int) (fuel : Nat) (m : message)
    (a : AudioShm) (p : RemotePlugin) (r : Bool × AudioShm × RemotePlugin)
    (h1 : m.id ≠ IdInitDone) (h2 : m.id ≠ IdSampleRateInformation)
    (h3 : m.id ≠ IdBufferSizeInformation) (h4 : m.id ≠ IdChangeInputCount)
    (h5 : m.id ≠ IdChangeOutputCount) (h6 : m.id ≠ IdChangeInputOutputCount)
    (h : processMessage eng rate fuel m a p = some r) :
    r.2.2.m_out = p.m_out := by
  rw [processMessage_of_other eng rate fuel m a p h1 h2 h3 h4 h5 h6] at h
  split at h
  · rw [← Option.some.inj h]; rfl
  · split at h
    · simp only [Option.map_eq_some'] at h
      obtain ⟨_, _, h⟩ := h
      rw [← h]; rfl
    · rw [← Option.some.inj h]; rfl

end RemotePlugin

namespace RemotePluginClient

open RemotePluginBase ShmFifo

theorem debugMessage_live (fuel : Nat) (hfuel : 1 ≤ fuel) (text : List Nat)
    (c c1 : RemotePluginClient) (hr : Ready c.m_out) (hb : InBounds c.m_out)
    (hroom : ((live c.m_out).length : Int) + (12 + text.length) ≤ SHM_FIFO_SIZE)
    (h : debugMessage fuel text c = some c1) :
    live c1.m_out = live c.m_out ++ wire ⟨IdDebugMessage, [text]⟩ ∧ Ready c1.m_out ∧
      InBounds c1.m_out := by
  simp only [debugMessage, Option.map_eq_some'] at h
  obtain ⟨q, hq, rfl⟩ := h
  have he : encodedSize ⟨IdDebugMessage, [text]⟩ = 8 + (4 + text.length + 0) := rfl
  exact sendMessage_live fuel hfuel ⟨IdDebugMessage, [text]⟩ c q hr hb
    (by rw [he]; push_cast; omega) hq

end RemotePluginClient

namespace RemotePlugin

open RemotePluginBase ShmFifo

/-- The host handles arrivals that are `IdInformationUpdated` or
`IdProcessingDone` without argument or `IdDebugMessage` with one argument: it
takes each from the in-FIFO, its handler returns, and its out-FIFO is what it
was: the host has sent nothing. -/
theorem handleArrivals_quiet (eng : Engine) (rate : Int) (fuel : Nat) :
    ∀ (sent : List message) (a : AudioShm) (p : RemotePlugin) (rest : List Nat),
      (∀ x ∈ sent, (x.data = [] ∧ (x.id = IdInformationUpdated ∨ x.id = IdProcessingDone)) ∨
        (x.id = IdDebugMessage ∧ ∃ t, x.data = [t])) →
      Ready p.m_in → InBounds p.m_in → sent.length ≤ p.m_in.m_messageSem →
      live p.m_in = sent.flatMap wire ++ rest →
      ∃ p', handleArrivals eng rate fuel sent.length a p = some (a, p') ∧ p'.m_out = p.m_out ∧
        live p'.m_in = rest ∧ p'.m_in.m_messageSem + sent.length = p.m_in.m_messageSem := by
  intro sent
  induction sent with
  | nil =>
    intro a p rest _ _ _ _ hl
    exact ⟨p, rfl, rfl, by simpa using hl, rfl⟩
  | cons x more ih =>
    intro a p rest hq hr hb hsem hl
    simp only [List.length_cons] at hsem
    have hx := hq x (List.mem_cons_self _ _)
    have hids : (x.id = IdInformationUpdated ∨ x.id = IdProcessingDone) ∨ x.id = IdDebugMessage := by
      rcases hx with ⟨_, h⟩ | ⟨h, _⟩
      · exact Or.inl h
      · exact Or.inr h
    have hrange : -2147483648 ≤ x.id ∧ x.id < 2147483648 := by
      rcases hids with (h | h) | h <;> rw [h] <;> decide
    obtain ⟨d, hrecv, hb2, hl2⟩ := receiveMessage_of_avail fuel x (more.flatMap wire ++ rest) p
      hrange.1 hrange.2 hr hb (by omega) (by rw [hl]; simp)
    have hcid : x.cStrings.id = x.id := rfl
    have hpm : processMessage eng rate fuel x.cStrings a
        { p with m_in := { p.m_in with m_data := d, m_messageSem := p.m_in.m_messageSem - 1 } }
        = some (true, a, unlock (lock
          { p with m_in := { p.m_in with m_data := d, m_messageSem := p.m_in.m_messageSem - 1 } })) := by
      rw [processMessage_of_other eng rate fuel x.cStrings a _
        (by rw [hcid]; rcases hids with (h | h) | h <;> rw [h] <;> decide)
        (by rw [hcid]; rcases hids with (h | h) | h <;> rw [h] <;> decide)
        (by rw [hcid]; rcases hids with (h | h) | h <;> rw [h] <;> decide)
        (by rw [hcid]; rcases hids with (h | h) | h <;> rw [h] <;> decide)
        (by rw [hcid]; rcases hids with (h | h) | h <;> rw [h] <;> decide)
        (by rw [hcid]; rcases hids with (h | h) | h <;> rw [h] <;> decide)]
      have hnu : ¬ x.cStrings.id = IdUndefined := by
        rw [hcid]; rcases hids with (h | h) | h <;> rw [h] <;> decide
      rw [if_neg hnu]
      by_cases hdm : x.cStrings.id = IdDebugMessage
      · rw [if_pos hdm]
        rcases hx with ⟨_, h⟩ | ⟨_, t, ht⟩
        · rw [hcid] at hdm
          rcases h with h | h <;> rw [h] at hdm <;> exact absurd hdm (by decide)
        · have : x.cStrings.getString 0 = some (cString t) := by
            simp [message.getString, message.cStrings, ht]
          rw [this]
          rfl
      · rw [if_neg hdm]
    obtain ⟨p', hh, hout, hlive, hcount⟩ := ih a
      (unlock (lock
        { p with m_in := { p.m_in with m_data := d, m_messageSem := p.m_in.m_messageSem - 1 } }))
      rest (fun y hy => hq y (List.mem_cons_of_mem _ hy)) hr hb2
      (by
        show more.length ≤ p.m_in.m_messageSem - 1
        omega)
      hl2
    refine ⟨p', ?_, hout, hlive, ?_⟩
    · simp only [List.length_cons, handleArrivals, hrecv, Option.some_bind, hpm]
      exact hh
    · have h1 : p'.m_in.m_messageSem + more.length = p.m_in.m_messageSem - 1 := hcount
      simp only [List.length_cons]
      omega

end RemotePlugin

namespace RemotePluginClient

open RemotePluginBase ShmFifo

/-- C30: let the client's handler handle any message `m1` (the first of a
chain, or a message that the host's handler sent in the first step of a
chain), with a plugin whose overrides return and send nothing, arguments that
parse, and an out-FIFO that is valid and holds no message yet. Then the
handler returns, it has sent at most two messages, and a host whose in-FIFO is
on the segment and the semaphore of that out-FIFO takes every one of these
messages with `receiveMessage`, hands it to its own handler, and sends nothing
in reply: after the last of them its out-FIFO is what it was and the channel
is empty. So a chain that starts at the client ends with the second handler,
and a chain that starts at the host ends with the third. -/
theorem replies_end_within_three (env : ClientEnv) (eng : Engine) (rate : Int) (fuel : Nat)
    (m1 : message) (c : RemotePluginClient) (hfuel : 1 ≤ fuel)
    (hhook : ∀ h c0, ∃ c1, env.hook h c0 = some c1 ∧ c1.m_out = c0.m_out)
    (hargs : ∀ k : Nat, k < argumentsRead m1.id → ∃ v, m1.getInt k = some v)
    (herr : env.strerror.length ≤ 64)
    (hr : Ready c.m_out) (hb : InBounds c.m_out)
    (hempty : live c.m_out = []) (hsem : c.m_out.m_messageSem = 0) :
    ∃ r1, processMessage env fuel m1 c = some r1 ∧ r1.2.2.m_out.m_messageSem ≤ 2 ∧
      ∀ (a : AudioShm) (p : RemotePlugin), Ready p.m_in →
        p.m_in.m_data = r1.2.2.m_out.m_data →
        p.m_in.m_messageSem = r1.2.2.m_out.m_messageSem →
        ∃ p', RemotePlugin.handleArrivals eng rate fuel r1.2.2.m_out.m_messageSem a p
            = some (a, p') ∧
          p'.m_out = p.m_out ∧ live p'.m_in = [] ∧ p'.m_in.m_messageSem = 0 := by
  obtain ⟨r1, sent, d, hp, _, hout, hbd, hl, hlen, hq⟩ :=
    processMessage_returns env fuel m1 c hfuel hhook hargs herr hr hb
      (by rw [hempty]; simp [SHM_FIFO_SIZE])
  have hcount : r1.2.2.m_out.m_messageSem = sent.length := by
    rw [hout]
    simp only [hsem, zero_add]
  refine ⟨r1, hp, by rw [hcount]; exact hlen, ?_⟩
  intro a p hpr hpd hps
  have hdata : r1.2.2.m_out.m_data = d := by rw [hout]
  have hlive : live p.m_in = sent.flatMap wire ++ [] := by
    have h1 : live p.m_in = live ({ c.m_out with m_data := d } : ShmFifo) := by
      simp only [live, hpd, hdata]
    rw [h1, hl, hempty]
    simp
  have hpb : InBounds p.m_in := by
    have h1 : InBounds p.m_in ↔ InBounds ({ c.m_out with m_data := d } : ShmFifo) := by
      simp only [InBounds, hpd, hdata]
    exact h1.mpr hbd
  obtain ⟨p', hh, hpo, hpl, hpc⟩ := RemotePlugin.handleArrivals_quiet eng rate fuel sent a p []
    hq hpr hpb (by rw [hps, hcount]) hlive
  refine ⟨p', by rw [hcount]; exact hh, hpo, hpl, ?_⟩
  rw [hps, hcount] at hpc
  omega

/-- The chain that the host's reply to `IdSampleRateInformation` starts: the
client on fresh FIFOs answers (4, ["44100"]) with `IdInformationUpdated` (id
6, no argument); the host whose in-FIFO is the remote-side object on the
client's out-FIFO takes that one message, its handler returns, and it has sent
nothing: its out-FIFO is still the fresh one. -/
theorem replies_end_within_three_witness :
    (processMessage ClientEnv.quiet 1 ⟨IdSampleRateInformation, [[52, 52, 49, 48, 48]]⟩
        (exampleClient none)).map
        (fun r => (live r.2.2.m_out, r.2.2.m_out.m_messageSem, r.2.2.m_out.m_dataSem))
      = some ([6, 0, 0, 0, 0, 0, 0, 0], 1, 1) ∧
    ∃ r1 p', processMessage ClientEnv.quiet 1 ⟨IdSampleRateInformation, [[52, 52, 49, 48, 48]]⟩
        (exampleClient none) = some r1 ∧
      RemotePlugin.handleArrivals (RemotePlugin.exampleEngine 64) 44100 1 1 exampleAudioShm
          { RemotePlugin.exampleHost false true none 2 with m_in := ShmFifo.remote r1.2.2.m_out }
        = some (exampleAudioShm, p') ∧
      p'.m_out = (RemotePlugin.exampleHost false true none 2).m_out ∧ live p'.m_in = [] ∧
      p'.m_in.m_messageSem = 0 := by
  have hev : (processMessage ClientEnv.quiet 1 ⟨IdSampleRateInformation, [[52, 52, 49, 48, 48]]⟩
        (exampleClient none)).map
        (fun r => (live r.2.2.m_out, r.2.2.m_out.m_messageSem, r.2.2.m_out.m_dataSem))
      = some ([6, 0, 0, 0, 0, 0, 0, 0], 1, 1) := by decide
  refine ⟨hev, ?_⟩
  obtain ⟨r1, hp, _, hall⟩ :=
    replies_end_within_three ClientEnv.quiet (RemotePlugin.exampleEngine 64) 44100 1
      ⟨IdSampleRateInformation, [[52, 52, 49, 48, 48]]⟩ (exampleClient none) (le_refl 1)
      (fun _ c0 => ⟨c0, rfl, rfl⟩)
      (fun k hk => by
        have h1 : argumentsRead (message.id ⟨IdSampleRateInformation, [[52, 52, 49, 48, 48]]⟩) = 1 := by
          decide
        rw [h1] at hk
        have h0 : k = 0 := by omega
        subst h0
        exact ⟨44100, by decide⟩)
      (by decide) (ready_master _) (inBounds_master _) (live_master _) rfl
  rw [hp] at hev
  simp only [Option.map_some', Option.some.injEq, Prod.mk.injEq] at hev
  obtain ⟨_, hm, hd⟩ := hev
  obtain ⟨p', h1, h2, h3, h4⟩ := hall exampleAudioShm
    { RemotePlugin.exampleHost false true none 2 with m_in := ShmFifo.remote r1.2.2.m_out }
    ⟨rfl, le_refl _, fun _ => by
      show 0 < r1.2.2.m_out.m_dataSem
      omega⟩ rfl rfl
  rw [hm] at h1
  exact ⟨r1, p', hp, h1, h2, h3, h4⟩

end RemotePluginClient

end Lmms
